import Mathlib

/-!
cedscope: the GainSpan serial protocol engine.

A shallow embedding of `src/gainspan.c` (with the servicing tick of `src/user.c`)
and theorems about it.

Modelling conventions.

* A byte is a natural number; `uint8_t` arithmetic is written with an explicit
  `% 256`.  The local `int rxtail_temp` of `gainspan_RXequals` never leaves
  `0 .. 257`, so it is a plain natural number until it is stored back into a
  `uint8_t`.
* A `char` array (`gainspan_buf_rx`, `gainspan_param_module_ip`, a destination
  `param`) is a function from offsets to bytes.  An offset past the declared size
  denotes whatever memory follows the array; the code can read such an offset
  (see `gainspan_RXequals`), the model then reads the function there.
* A `char *` argument that is only read (`cmd`, `ans`, `buf`) is the list of the
  bytes stored before its terminating NUL; a zero inside the list ends the
  string early, exactly as an embedded NUL does in C.
* Whether plain `char` is signed is a property of the toolchain, not of the
  sources.  It only matters in the tests `ch >= ' '`, and is a parameter
  (`char_signed`) of the functions that perform that test.
* The USART peripheral is the environment: what it has received is an input of
  `user_tick`, what is sent to it is appended to a trace kept in the state.
* Loops whose exit depends on the data (`do ... while`) take a fuel argument
  and return `none` when it runs out.
-/

namespace Gainspan

/-! ## Constants (`hardware.h`, `gainspan.h`) -/

/-- Size of the USART ring buffers, `#define HARDWARE_BUFSIZE 250`. -/
def HARDWARE_BUFSIZE : Nat := 250

/-- Size of the parameter strings, `#define HARDWARE_BUFSIZESML 32`. -/
def HARDWARE_BUFSIZESML : Nat := 32

/-- Wait for a command response, `#define GAINSPAN_COMMAND_WAIT_MS 20000`. -/
def GAINSPAN_COMMAND_WAIT_MS : Nat := 20000

/-! ## Memory helpers -/

/-- The assignment `a[i] = v` on a `char` array. -/
def store (a : Nat → Nat) (i v : Nat) : Nat → Nat :=
  fun j => if j = i then v else a j

/-- The post-increment `x++` of a `uint8_t`. -/
def inc8 (x : Nat) : Nat := (x + 1) % 256

/-- The C test `ch >= ' '` on a plain `char` holding byte `ch`. -/
def char_ge_space (char_signed : Bool) (ch : Nat) : Bool :=
  if char_signed then decide (32 ≤ ch ∧ ch < 128) else decide (32 ≤ ch)

/-- The bytes of a parameter array, as `gainspan_TXparam` is given them. -/
def array_bytes (a : Nat → Nat) : List Nat :=
  (List.range HARDWARE_BUFSIZESML).map a

/-- The C string held by an array: its bytes before the first NUL. -/
def cstring (a : Nat → Nat) : List Nat :=
  (array_bytes a).takeWhile (fun b => b != 0)

/-- The bytes `gainspan_TXparam` can read through the pointer to a 32-byte
parameter array: its loop reads offsets 0 to 250, so past offset 31 it reads
what follows the array in memory.  `a j` for `j >= 32` stands for that memory. -/
def pointer_bytes (a : Nat → Nat) : List Nat :=
  (List.range (HARDWARE_BUFSIZE + 1)).map a

/-- The text `gainspan_TXparam` sends from a parameter array: the bytes before
the first NUL met from the start of the array on, at most 250 of them. -/
def tx_text (a : Nat → Nat) : List Nat :=
  ((pointer_bytes a).takeWhile (fun b => b != 0)).take HARDWARE_BUFSIZE

/-- The array that holds the bytes of `l` followed by zeroes. -/
def of_bytes (l : List Nat) : Nat → Nat :=
  fun i => l.getD i 0

/-! ## State (`gainspan.h`, `user.h`) -/

/-- The globals of `gainspan.h` and `user.h`, and the environment's traces. -/
structure GS where
  gainspan_buf_tx : Nat → Nat
  gainspan_head_tx : Nat
  gainspan_tail_tx : Nat
  gainspan_buf_rx : Nat → Nat
  gainspan_head_rx : Nat
  gainspan_tail_rx : Nat
  gainspan_rxesc_data : Nat
  gainspan_rxesc_i : Nat
  gainspan_rxesc_cid : Nat
  gainspan_rxcr : Nat
  gainspan_param_module_port : Nat → Nat
  gainspan_param_module_ip : Nat → Nat
  gainspan_module_adapter : Nat
  gainspan_module_connection : Nat
  user_command_ready : Bool
  user_buf_tx : Nat → Nat
  user_head_tx : Nat
  user_tail_tx : Nat
  user_buf_rx : Nat → Nat
  user_i_rx : Nat
  /-- Bytes handed to `usart_serial_putchar(USART_USER, _)`, oldest first. -/
  usart_user_out : List Nat
  /-- Bytes handed to `usart_serial_putchar(USART_GAINSPAN, _)`, oldest first. -/
  usart_gainspan_out : List Nat
  /-- Milliseconds spent in `hardware_mdelay`. -/
  elapsed_ms : Nat

/-- The state after `user_init()` on zero-initialised globals. -/
def GS.init : GS :=
  { gainspan_buf_tx := fun _ => 0, gainspan_head_tx := 0, gainspan_tail_tx := 0,
    gainspan_buf_rx := fun _ => 0, gainspan_head_rx := 0, gainspan_tail_rx := 0,
    gainspan_rxesc_data := 0, gainspan_rxesc_i := 0, gainspan_rxesc_cid := 0,
    gainspan_rxcr := 0,
    gainspan_param_module_port := fun _ => 0, gainspan_param_module_ip := fun _ => 0,
    gainspan_module_adapter := 0, gainspan_module_connection := 0,
    user_command_ready := false,
    user_buf_tx := fun _ => 0, user_head_tx := 0, user_tail_tx := 0,
    user_buf_rx := fun _ => 0, user_i_rx := 0,
    usart_user_out := [], usart_gainspan_out := [], elapsed_ms := 0 }

/-! ## Transmit side (`gainspan.c`, lines 50-133) -/

/-- The statements `gainspan_buf_tx[gainspan_head_tx++] = ch;` followed by the
wrap of the head and the overflow test, as they stand in `gainspan_TXchar`. -/
def gainspan_TXchar (ch : Nat) (s : GS) : GS :=
  let s1 := { s with
    gainspan_buf_tx := store s.gainspan_buf_tx s.gainspan_head_tx ch
    gainspan_head_tx := inc8 s.gainspan_head_tx }
  let s2 := if s1.gainspan_head_tx ≥ HARDWARE_BUFSIZE
    then { s1 with gainspan_head_tx := 0 } else s1
  if s2.gainspan_head_tx = s2.gainspan_tail_tx then
    let t := inc8 s2.gainspan_tail_tx
    { s2 with gainspan_tail_tx := if t ≥ HARDWARE_BUFSIZE then 0 else t }
  else s2

/-- The `while (ch != 0)` loop of `gainspan_TX`; the list is what is left of
`buf` from the byte held in `ch` on. -/
def gainspan_TX_loop : List Nat → GS → GS
  | [], s => s
  | ch :: rest, s =>
    if ch = 0 then s
    else
      let s1 := { s with
        gainspan_buf_tx := store s.gainspan_buf_tx s.gainspan_head_tx ch
        gainspan_head_tx := inc8 s.gainspan_head_tx }
      let s2 := if s1.gainspan_head_tx ≥ HARDWARE_BUFSIZE
        then { s1 with gainspan_head_tx := 0 } else s1
      let s3 := if s2.gainspan_head_tx = s2.gainspan_tail_tx then
          let t := inc8 s2.gainspan_tail_tx
          { s2 with gainspan_tail_tx := if t ≥ HARDWARE_BUFSIZE then 0 else t }
        else s2
      gainspan_TX_loop rest s3

/-- Copies buffer to TX buffer: `gainspan_TX(buf)`. -/
def gainspan_TX (buf : List Nat) (s : GS) : GS :=
  gainspan_TX_loop buf s

/-- The `while ((ch != 0) && (i <= HARDWARE_BUFSIZE))` loop of
`gainspan_TXparam`; `i` is the C variable (already incremented past `ch`). -/
def gainspan_TXparam_loop : List Nat → Nat → GS → GS
  | [], _, s => s
  | ch :: rest, i, s =>
    if ch ≠ 0 ∧ i ≤ HARDWARE_BUFSIZE then
      let s1 := { s with
        gainspan_buf_tx := store s.gainspan_buf_tx s.gainspan_head_tx ch
        gainspan_head_tx := inc8 s.gainspan_head_tx }
      let s2 := if s1.gainspan_head_tx ≥ HARDWARE_BUFSIZE
        then { s1 with gainspan_head_tx := 0 } else s1
      let s3 := if s2.gainspan_head_tx = s2.gainspan_tail_tx then
          let t := inc8 s2.gainspan_tail_tx
          { s2 with gainspan_tail_tx := if t ≥ HARDWARE_BUFSIZE then 0 else t }
        else s2
      gainspan_TXparam_loop rest (i + 1) s3
    else s

/-- Copies parameter buffer to TX buffer: `gainspan_TXparam(buf)`. -/
def gainspan_TXparam (buf : List Nat) (s : GS) : GS :=
  gainspan_TXparam_loop buf 1 s

/-- Sends UDP formatted data: `gainspan_TXdata(buf)`.  The two parameter arrays
are passed as pointers, so `gainspan_TXparam` reads them on to the first NUL. -/
def gainspan_TXdata (buf : List Nat) (s : GS) : GS :=
  let s := gainspan_TXchar 27 s
  let s := gainspan_TXchar 85 s
  let s := gainspan_TXchar s.gainspan_rxesc_cid s
  let s := gainspan_TXparam (pointer_bytes s.gainspan_param_module_ip) s
  let s := gainspan_TXchar 58 s
  let s := gainspan_TXparam (pointer_bytes s.gainspan_param_module_port) s
  let s := gainspan_TXchar 58 s
  let s := gainspan_TXparam buf s
  let s := gainspan_TXchar 27 s
  gainspan_TXchar 69 s

/-! ## Receive side (`gainspan.c`, lines 142-397) -/

/-- Reset RX buffer: `gainspan_RXreset()`. -/
def gainspan_RXreset (s : GS) : GS :=
  { s with
    gainspan_tail_rx := 0
    gainspan_head_rx := 0
    gainspan_rxcr := 0
    gainspan_module_adapter := 0
    gainspan_module_connection := 0 }

/-- Checks response: `gainspan_RXresponse()`. -/
def gainspan_RXresponse (s : GS) : Nat :=
  if s.gainspan_tail_rx ≠ s.gainspan_head_rx then s.gainspan_rxcr else 0

/-- The body of `if (ch2 != 0) { ... }` in `gainspan_RXequals`: reads `ch1` at
`rxtail_temp`, strips one LF, skips an ESC and the two bytes after it.
Returns `(ch1, rxtail_temp)`. -/
def gainspan_RXequals_read (buf : Nat → Nat) (rxtail_temp : Nat) : Nat × Nat :=
  let ch1 := buf rxtail_temp
  let t := rxtail_temp + 1
  let t := if t ≥ HARDWARE_BUFSIZE then 0 else t
  let r : Nat × Nat :=
    if ch1 = 10 then (buf t, if t + 1 ≥ HARDWARE_BUFSIZE then 0 else t + 1)
    else (ch1, t)
  if r.1 = 27 then
    let t := r.2 + 2
    let t := if t ≥ HARDWARE_BUFSIZE then t - HARDWARE_BUFSIZE else t
    (buf t, t + 1)
  else r

/-- The `do ... while ((ch1 == ch2) && (ch2 != 0))` loop of `gainspan_RXequals`
over what is left of `ans`.  `some t` is the exit with `ch2 == 0` and
`rxtail_temp = t`; `none` is the exit on a mismatch. -/
def gainspan_RXequals_scan (buf : Nat → Nat) : List Nat → Nat → Option Nat
  | [], t => some t
  | ch2 :: rest, t =>
    if ch2 = 0 then some t
    else
      let r := gainspan_RXequals_read buf t
      if r.1 = ch2 then gainspan_RXequals_scan buf rest r.2 else none

/-- Checks if received command matches chars in buffer: `gainspan_RXequals(ans)`.
Returns the C result (`true`/`false`) and the state. -/
def gainspan_RXequals (ans : List Nat) (s : GS) : Bool × GS :=
  match gainspan_RXequals_scan s.gainspan_buf_rx ans s.gainspan_tail_rx with
  | some t =>
    let s1 := { s with gainspan_tail_rx := t % 256 }
    if s1.gainspan_buf_rx s1.gainspan_tail_rx = 13 then
      let t1 := inc8 s1.gainspan_tail_rx
      let s2 := { s1 with gainspan_tail_rx := if t1 > HARDWARE_BUFSIZE then 0 else t1 }
      let s3 := if s2.gainspan_rxcr > 0
        then { s2 with gainspan_rxcr := s2.gainspan_rxcr - 1 } else s2
      (true, s3)
    else (true, s1)
  | none => (false, s)

/-- The `while ((ch != 13) && (gainspan_tail_rx != gainspan_head_rx))` loop of
`gainspan_RXconsume`; returns the state at loop exit. -/
def gainspan_RXconsume_loop : Nat → GS → Option GS
  | 0, _ => none
  | fuel + 1, s =>
    if s.gainspan_buf_rx s.gainspan_tail_rx ≠ 13 ∧ s.gainspan_tail_rx ≠ s.gainspan_head_rx then
      let t := inc8 s.gainspan_tail_rx
      gainspan_RXconsume_loop fuel
        { s with gainspan_tail_rx := if t ≥ HARDWARE_BUFSIZE then 0 else t }
    else some s

/-- Consumes buffer up to last CR: `gainspan_RXconsume()`.  Returns the C
result and the state. -/
def gainspan_RXconsume (fuel : Nat) (s : GS) : Option (Nat × GS) :=
  match gainspan_RXconsume_loop fuel s with
  | none => none
  | some s1 =>
    if s1.gainspan_buf_rx s1.gainspan_tail_rx = 13 then
      let t := inc8 s1.gainspan_tail_rx
      let s2 := { s1 with gainspan_tail_rx := if t ≥ HARDWARE_BUFSIZE then 0 else t }
      let s3 := if s2.gainspan_rxcr > 0
        then { s2 with gainspan_rxcr := s2.gainspan_rxcr - 1 } else s2
      some (s3.gainspan_rxcr, s3)
    else
      let s2 := { s1 with gainspan_rxcr := 0 }
      some (s2.gainspan_rxcr, s2)

/-- The `do ... while ((ch != 13) && (ch != 0))` loop of `gainspan_RXparam`.
Carries the C variable `i` and the destination `param`; returns the state,
`i` and `param` at loop exit. -/
def gainspan_RXparam_loop (char_signed : Bool) :
    Nat → GS → Nat → (Nat → Nat) → Option (GS × Nat × (Nat → Nat))
  | 0, _, _, _ => none
  | fuel + 1, s, i, param =>
    let ch := s.gainspan_buf_rx s.gainspan_tail_rx
    let s1 := { s with gainspan_tail_rx := inc8 s.gainspan_tail_rx }
    let s2 := if s1.gainspan_tail_rx ≥ HARDWARE_BUFSIZE
      then { s1 with gainspan_tail_rx := 0 } else s1
    let param1 := if char_ge_space char_signed ch then store param i ch else param
    let i1 := if char_ge_space char_signed ch
      then (if i + 1 ≥ HARDWARE_BUFSIZESML then i else i + 1) else i
    let s3 := if ch = 13 ∧ s2.gainspan_rxcr > 0
      then { s2 with gainspan_rxcr := s2.gainspan_rxcr - 1 } else s2
    if ch ≠ 13 ∧ ch ≠ 0 then gainspan_RXparam_loop char_signed fuel s3 i1 param1
    else some (s3, i1, param1)

/-- Copies received data into parameter: `gainspan_RXparam(param)`. -/
def gainspan_RXparam (char_signed : Bool) (fuel : Nat) (s : GS) (param : Nat → Nat) :
    Option (GS × (Nat → Nat)) :=
  match gainspan_RXparam_loop char_signed fuel s 0 param with
  | none => none
  | some (s1, i, param1) => some (s1, store param1 i 0)

/-- The post-increment of `gainspan_rxesc_i` with its saturation:
`gainspan_rxesc_i++; if (gainspan_rxesc_i >= HARDWARE_BUFSIZESML) gainspan_rxesc_i--;`. -/
def rxesc_i_next (i : Nat) : Nat :=
  if inc8 i ≥ HARDWARE_BUFSIZESML then (inc8 i + 255) % 256 else inc8 i

/-- The `switch (gainspan_rxesc_data)` of `gainspan_RXdata` on one byte `ch`.
The first component is `true` when the case executes `return true`. -/
def gainspan_RXdata_switch (char_signed : Bool) (ch : Nat) (s : GS) (param : Nat → Nat) :
    Bool × GS × (Nat → Nat) :=
  match s.gainspan_rxesc_data with
  | 0 =>
    if ch = 27 then (false, { s with gainspan_rxesc_data := inc8 s.gainspan_rxesc_data }, param)
    else (false, s, param)
  | 1 =>
    if ch = 117 then (false, { s with gainspan_rxesc_data := inc8 s.gainspan_rxesc_data }, param)
    else (false, { s with gainspan_rxesc_data := 99 }, param)
  | 2 =>
    (false, { s with
      gainspan_rxesc_cid := ch
      gainspan_rxesc_data := inc8 s.gainspan_rxesc_data
      gainspan_rxesc_i := 0 }, param)
  | 3 =>
    if ch = 27 then (false, { s with gainspan_rxesc_data := 0 }, param)
    else if ch = 32 then
      (false, { s with
        gainspan_param_module_ip := store s.gainspan_param_module_ip s.gainspan_rxesc_i 0
        gainspan_rxesc_i := 0
        gainspan_rxesc_data := inc8 s.gainspan_rxesc_data }, param)
    else if char_ge_space char_signed ch then
      (false, { s with
        gainspan_param_module_ip := store s.gainspan_param_module_ip s.gainspan_rxesc_i ch
        gainspan_rxesc_i := rxesc_i_next s.gainspan_rxesc_i }, param)
    else (false, s, param)
  | 4 =>
    if ch = 27 then (false, { s with gainspan_rxesc_data := 0 }, param)
    else if ch = 9 then
      (false, { s with
        gainspan_param_module_port := store s.gainspan_param_module_port s.gainspan_rxesc_i 0
        gainspan_rxesc_i := 0
        gainspan_rxesc_data := inc8 s.gainspan_rxesc_data }, param)
    else if char_ge_space char_signed ch then
      (false, { s with
        gainspan_param_module_port := store s.gainspan_param_module_port s.gainspan_rxesc_i ch
        gainspan_rxesc_i := rxesc_i_next s.gainspan_rxesc_i }, param)
    else (false, s, param)
  | 5 =>
    if ch = 27 then (false, { s with gainspan_rxesc_data := inc8 s.gainspan_rxesc_data }, param)
    else if char_ge_space char_signed ch then
      (false, { s with gainspan_rxesc_i := rxesc_i_next s.gainspan_rxesc_i },
        store param s.gainspan_rxesc_i ch)
    else (false, s, param)
  | 6 =>
    (true, { s with gainspan_rxesc_data := 0 }, store param s.gainspan_rxesc_i 0)
  | _ => (false, { s with gainspan_rxesc_data := 0 }, param)

/-- The `do ... while (gainspan_tail_rx != gainspan_head_rx)` loop of
`gainspan_RXdata`.  Returns the C result, the state and `param`. -/
def gainspan_RXdata_loop (char_signed : Bool) :
    Nat → GS → (Nat → Nat) → Option (Bool × GS × (Nat → Nat))
  | 0, _, _ => none
  | fuel + 1, s, param =>
    let ch := s.gainspan_buf_rx s.gainspan_tail_rx
    let s1 := { s with gainspan_tail_rx := inc8 s.gainspan_tail_rx }
    let s2 := if s1.gainspan_tail_rx ≥ HARDWARE_BUFSIZE
      then { s1 with gainspan_tail_rx := 0 } else s1
    let r := gainspan_RXdata_switch char_signed ch s2 param
    if r.1 then some (true, r.2.1, r.2.2)
    else if r.2.1.gainspan_tail_rx ≠ r.2.1.gainspan_head_rx
      then gainspan_RXdata_loop char_signed fuel r.2.1 r.2.2
      else some (false, r.2.1, r.2.2)

/-- Receives data formatted as UDP: `gainspan_RXdata(param)`. -/
def gainspan_RXdata (char_signed : Bool) (fuel : Nat) (s : GS) (param : Nat → Nat) :
    Option (Bool × GS × (Nat → Nat)) :=
  if s.gainspan_tail_rx = s.gainspan_head_rx then some (false, s, param)
  else gainspan_RXdata_loop char_signed fuel s param

/-! ## Servicing tick (`user.c`, lines 66-136) and `hardware_mdelay` -/

/-- What the two USARTs hold during one `user_tick`: for each of the ten polls
`i` of its `for` loop, the byte for which `usart_rx_is_complete` is true and
that `usart_serial_getchar` then returns, if any. -/
structure TickInput where
  user_rx : Nat → Option Nat
  gainspan_rx : Nat → Option Nat

/-- A tick during which neither USART has received anything. -/
def TickInput.silent : TickInput :=
  { user_rx := fun _ => none, gainspan_rx := fun _ => none }

/-- The `if (usart_rx_is_complete(USART_USER)) { ... }` block of `user_tick`. -/
def user_tick_user (rx : Option Nat) (s : GS) : GS :=
  match rx with
  | none => s
  | some ch =>
    let s1 := if ch = 13 then { s with user_command_ready := true } else s
    if s1.user_i_rx < HARDWARE_BUFSIZE - 1 then
      { s1 with
        user_buf_rx := store s1.user_buf_rx s1.user_i_rx ch
        user_i_rx := inc8 s1.user_i_rx }
    else s1

/-- The `if (usart_rx_is_complete(USART_GAINSPAN)) { ... }` block of `user_tick`. -/
def user_tick_gainspan (rx : Option Nat) (s : GS) : GS :=
  match rx with
  | none => s
  | some ch =>
    let s1 := { s with
      user_buf_tx := store s.user_buf_tx s.user_head_tx ch
      user_head_tx := inc8 s.user_head_tx
      gainspan_buf_rx := store s.gainspan_buf_rx s.gainspan_head_rx ch
      gainspan_head_rx := inc8 s.gainspan_head_rx }
    let s2 := if s1.user_head_tx ≥ HARDWARE_BUFSIZE then { s1 with user_head_tx := 0 } else s1
    let s3 := if s2.gainspan_head_rx ≥ HARDWARE_BUFSIZE
      then { s2 with gainspan_head_rx := 0 } else s2
    if ch = 13 then { s3 with gainspan_rxcr := inc8 s3.gainspan_rxcr } else s3

/-- The first `n` iterations (`i = 0 .. n-1`) of `for(i = 0; i < 10; i++)` in
`user_tick`. -/
def user_tick_for (inp : TickInput) : Nat → GS → GS
  | 0, s => s
  | n + 1, s =>
    user_tick_gainspan (inp.gainspan_rx n) (user_tick_user (inp.user_rx n) (user_tick_for inp n s))

/-- The `if (user_head_tx != user_tail_tx) { ... }` block of `user_tick`. -/
def user_tick_user_out (s : GS) : GS :=
  if s.user_head_tx ≠ s.user_tail_tx then
    let ch := s.user_buf_tx s.user_tail_tx
    let s1 := { s with
      user_tail_tx := inc8 s.user_tail_tx
      usart_user_out := s.usart_user_out ++ [ch] }
    if s1.user_tail_tx ≥ HARDWARE_BUFSIZE then { s1 with user_tail_tx := 0 } else s1
  else s

/-- The `if (gainspan_head_tx != gainspan_tail_tx) { ... }` block of `user_tick`. -/
def user_tick_gainspan_out (s : GS) : GS :=
  if s.gainspan_head_tx ≠ s.gainspan_tail_tx then
    let ch := s.gainspan_buf_tx s.gainspan_tail_tx
    let s1 := { s with
      gainspan_tail_tx := inc8 s.gainspan_tail_tx
      usart_gainspan_out := s.usart_gainspan_out ++ [ch] }
    if s1.gainspan_tail_tx ≥ HARDWARE_BUFSIZE then { s1 with gainspan_tail_tx := 0 } else s1
  else s

/-- Checks for serial RX and TX from buffer: `user_tick()`. -/
def user_tick (inp : TickInput) (s : GS) : GS :=
  user_tick_gainspan_out (user_tick_user_out (user_tick_for inp 10 s))

/-- Loops for required delay in milliseconds: `hardware_mdelay(ms)`.  The busy
loop has no effect on the globals; the model records the time spent. -/
def hardware_mdelay (ms : Nat) (s : GS) : GS :=
  { s with elapsed_ms := s.elapsed_ms + ms }

/-- Checks for serial RX and TX from buffer and delays: `user_mdelay_tick(ms)`.
`env t` is what the USARTs hold during iteration `t` of its loop. -/
def user_mdelay_tick (env : Nat → TickInput) : Nat → GS → GS
  | 0, s => s
  | ms + 1, s => hardware_mdelay 1 (user_tick (env ms) (user_mdelay_tick env ms s))

/-! ## Command execution (`gainspan.c`, lines 409-428) -/

/-- The string literal `"OK"`. -/
def str_OK : List Nat := [79, 75]

/-- The string literal `"ERROR"`. -/
def str_ERROR : List Nat := [69, 82, 82, 79, 82]

/-- The `while(wait > 0)` loop of `gainspan_TXexecute`.  `env k` is what the
USARTs hold during the `k`-th coming call of `user_mdelay_tick(1)`.  Returns the
C result, the state and `param`. -/
def gainspan_TXexecute_loop (char_signed : Bool) (fuel : Nat) :
    Nat → (Nat → TickInput) → GS → (Nat → Nat) → Option (Nat × GS × (Nat → Nat))
  | 0, _, s, param => some (10, s, param)
  | wait + 1, env, s, param =>
    let s1 := user_mdelay_tick (fun _ => env 0) 1 s
    let env1 := fun k => env (k + 1)
    if gainspan_RXresponse s1 ≠ 0 then
      let r := gainspan_RXequals str_OK s1
      if r.1 then some (1, r.2, param)
      else
        let r1 := gainspan_RXequals str_ERROR r.2
        if r1.1 then some (0, r1.2, param)
        else
          match gainspan_RXparam char_signed fuel r1.2 param with
          | none => none
          | some (s2, param1) => gainspan_TXexecute_loop char_signed fuel wait env1 s2 param1
    else gainspan_TXexecute_loop char_signed fuel wait env1 s1 param

/-- Sends command and receives any data to param buffer:
`gainspan_TXexecute(cmd, param)`. -/
def gainspan_TXexecute (char_signed : Bool) (fuel : Nat) (env : Nat → TickInput)
    (cmd : List Nat) (s : GS) (param : Nat → Nat) : Option (Nat × GS × (Nat → Nat)) :=
  gainspan_TXexecute_loop char_signed fuel GAINSPAN_COMMAND_WAIT_MS env (gainspan_TX cmd s) param

/-! ## Observations used to state the properties -/

/-- The `n` bytes met when walking a ring buffer forward from index `tail`. -/
def ring_read (buf : Nat → Nat) (tail n : Nat) : List Nat :=
  (List.range n).map (fun j => buf ((tail + j) % HARDWARE_BUFSIZE))

/-- Number of buffered bytes of the TX channel, `(head - tail) mod 250`. -/
def tx_count (s : GS) : Nat :=
  (s.gainspan_head_tx + HARDWARE_BUFSIZE - s.gainspan_tail_tx) % HARDWARE_BUFSIZE

/-- The unread bytes of the TX channel, from tail up to head. -/
def tx_unread (s : GS) : List Nat :=
  ring_read s.gainspan_buf_tx s.gainspan_tail_tx (tx_count s)

/-- Number of buffered bytes of the RX channel, `(head - tail) mod 250`. -/
def rx_count (s : GS) : Nat :=
  (s.gainspan_head_rx + HARDWARE_BUFSIZE - s.gainspan_tail_rx) % HARDWARE_BUFSIZE

/-- The unread bytes of the RX channel, from tail up to head. -/
def rx_unread (s : GS) : List Nat :=
  ring_read s.gainspan_buf_rx s.gainspan_tail_rx (rx_count s)

/-- Pushing the bytes of `bs` one at a time with `gainspan_TXchar`. -/
def push_all (bs : List Nat) (s : GS) : GS :=
  bs.foldl (fun st b => gainspan_TXchar b st) s

/-- A state whose RX channel holds exactly the bytes `bs` (stored from index 0,
fewer than 250 of them) with `cr` pending CRs, all else as after start-up. -/
def rx_loaded (bs : List Nat) (cr : Nat) : GS :=
  { GS.init with
    gainspan_buf_rx := of_bytes bs
    gainspan_head_rx := bs.length
    gainspan_rxcr := cr }

/-- The result of `gainspan_RXdata` when the bytes of the list are the unread
content of the RX channel: each byte moves the tail by one and goes through the
`switch`; the call ends with the first `return true` or with the last byte. -/
def rxdata_on (char_signed : Bool) : List Nat → GS → (Nat → Nat) → Bool × GS × (Nat → Nat)
  | [], s, param => (false, s, param)
  | ch :: rest, s, param =>
    let r := gainspan_RXdata_switch char_signed ch
      { s with gainspan_tail_rx := (s.gainspan_tail_rx + 1) % HARDWARE_BUFSIZE } param
    if r.1 then (true, r.2.1, r.2.2) else rxdata_on char_signed rest r.2.1 r.2.2

/-- The array `a` after the bytes of `l` have been stored from offset `i` on. -/
def store_list (a : Nat → Nat) (i : Nat) : List Nat → Nat → Nat
  | [] => a
  | x :: xs => store_list (store a i x) (i + 1) xs

/-- The inbound tunnel wire format with start tag `tag`:
`ESC tag <CID> <ip> SP <port> TAB <payload> ESC <b>`. -/
def inbound_frame (tag c : Nat) (ip port payload : List Nat) (b : Nat) : List Nat :=
  [27, tag, c] ++ ip ++ [32] ++ port ++ [9] ++ payload ++ [27, b]

/-- The text `"10.0.0.5"`. -/
def txt_ip : List Nat := [49, 48, 46, 48, 46, 48, 46, 53]

/-- The text `"9000"`. -/
def txt_port : List Nat := [57, 48, 48, 48]

/-- The text `"ping"`. -/
def txt_ping : List Nat := [112, 105, 110, 103]

/-- The outbound tunnel wire format:
`ESC 'U' <CID> <ip> ':' <port> ':' <payload> ESC 'E'`. -/
def outbound_frame (c : Nat) (ip port payload : List Nat) : List Nat :=
  [27, 85, c] ++ ip ++ [58] ++ port ++ [58] ++ payload ++ [27, 69]

/-- The start-up state with a stored endpoint: last-known CID `c`, IP text `ip`
and port text `port` (each NUL-padded in its array). -/
def with_endpoint (c : Nat) (ip port : List Nat) : GS :=
  { GS.init with
    gainspan_rxesc_cid := c
    gainspan_param_module_ip := of_bytes ip
    gainspan_param_module_port := of_bytes port }

/-- The separators of an emitted frame translated to the inbound convention:
the `':'` that follows the IP text (offset `3 + ip_len`) becomes SPACE and the
`':'` that follows the port text (offset `4 + ip_len + port_len`) becomes TAB. -/
def to_inbound (ip_len port_len : Nat) (bytes : List Nat) : List Nat :=
  (bytes.set (3 + ip_len) 32).set (4 + ip_len + port_len) 9

/-- The receive path of `user_tick` (its GainSpan branch) taken once for each
byte of `bs`, in order. -/
def rx_receive (bs : List Nat) (s : GS) : GS :=
  bs.foldl (fun st b => user_tick_gainspan (some b) st) s

/-- Chunks of bytes arrive one after another and `gainspan_RXdata` is called
after each chunk.  Returns, for every call in order, its C result paired with
the decoder state `gainspan_rxesc_data` it leaves, and the final state. -/
def feed_chunks (char_signed : Bool) (fuel : Nat) :
    List (List Nat) → GS → (Nat → Nat) → Option (List (Bool × Nat) × GS × (Nat → Nat))
  | [], s, param => some ([], s, param)
  | chunk :: rest, s, param =>
    match gainspan_RXdata char_signed fuel (rx_receive chunk s) param with
    | none => none
    | some r =>
      match feed_chunks char_signed fuel rest r.2.1 r.2.2 with
      | none => none
      | some q => some ((r.1, r.2.1.gainspan_rxesc_data) :: q.1, q.2.1, q.2.2)

/-- The bytes `usart_serial_getchar(USART_GAINSPAN, _)` returns during one
`user_tick`, in order. -/
def tick_bytes (inp : TickInput) : List Nat :=
  (List.range 10).filterMap inp.gainspan_rx

/-- The RX channel's part of the state: buffer, head, tail, pending-CR count. -/
def rx_view (s : GS) : (Nat → Nat) × Nat × Nat × Nat :=
  (s.gainspan_buf_rx, s.gainspan_head_rx, s.gainspan_tail_rx, s.gainspan_rxcr)

/-- The TX channel's part of the state, with the bytes sent to the module. -/
def tx_view (s : GS) : (Nat → Nat) × Nat × Nat × List Nat :=
  (s.gainspan_buf_tx, s.gainspan_head_tx, s.gainspan_tail_tx, s.usart_gainspan_out)

/-- The command text `"AT+NOP\r\n"`. -/
def txt_at_nop : List Nat := [65, 84, 43, 78, 79, 80, 13, 10]

/-- The RX channel holds the bytes `u` unread, its indices are in range, and the
pending-CR counter equals the number of CR bytes in `u`. -/
def rx_holds (s : GS) (u : List Nat) : Prop :=
  s.gainspan_head_rx < HARDWARE_BUFSIZE ∧ s.gainspan_tail_rx < HARDWARE_BUFSIZE ∧
  rx_unread s = u ∧ s.gainspan_rxcr = u.count 13

/-- The destination of `gainspan_RXparam` after the bytes of `l` have been
stored from cursor `i` on, the cursor stopping at the last offset, 31. -/
def sat_write (a : Nat → Nat) (i : Nat) : List Nat → Nat → Nat
  | [] => a
  | x :: xs => sat_write (store a i x) (if i + 1 ≥ HARDWARE_BUFSIZESML then i else i + 1) xs

/-- The cursor of `gainspan_RXparam` after `n` bytes stored from cursor `i` on. -/
def sat_idx (i : Nat) : Nat → Nat
  | 0 => i
  | n + 1 => sat_idx (if i + 1 ≥ HARDWARE_BUFSIZESML then i else i + 1) n

/-- A state whose RX channel holds 249 unread bytes: tail at 1, head wrapped
round to 0, all else as after start-up. -/
def rx_full : GS :=
  { GS.init with gainspan_tail_rx := 1 }

/-- A state whose frame decoder is parked mid-frame, in ReadingPayload (5), all
else as after start-up. -/
def decoder_parked : GS :=
  { GS.init with gainspan_rxesc_data := 5 }

/-- A state whose RX channel holds `"OK\r"` in the last three slots of the
buffer (indices 247, 248, 249): tail at 247, head wrapped round to 0, one
pending CR, all else as after start-up. -/
def rx_ok_at_end : GS :=
  { GS.init with
    gainspan_buf_rx := store (store (store (fun _ => 0) 247 79) 248 75) 249 13
    gainspan_tail_rx := 247
    gainspan_head_rx := 0
    gainspan_rxcr := 1 }

/-- A text of 33 bytes `'1'`, longer than the 32-byte text buffers. -/
def txt_long : List Nat := List.replicate 33 49

/-- The RX channel holding the bytes of the list from index 0, the decoder in
state 1 (an ESC has just been consumed in state 0). -/
def rx_sawesc (bs : List Nat) : GS :=
  { rx_loaded bs 0 with gainspan_rxesc_data := 1 }

/-- A state whose RX array holds the byte `'A'` in every slot: no CR and no NUL
anywhere in it. -/
def rx_no_terminator : GS :=
  { GS.init with gainspan_buf_rx := fun _ => 65 }

/-- The RX channel holding the frame
`ESC 'u' '0' "10.0.0.5" SP "9000" TAB "ping" ESC 'E'` followed by `"OK\r"`. -/
def rx_frame_ok : GS :=
  rx_loaded (inbound_frame 117 48 txt_ip txt_port txt_ping 69 ++ [79, 75, 13]) 1

/-- The state after `gainspan_tail_rx++` and its wrap on an in-range tail, as
`rxdata_on` writes it. -/
def rx_advance (s : GS) : GS :=
  { s with gainspan_tail_rx := (s.gainspan_tail_rx + 1) % HARDWARE_BUFSIZE }

theorem ring_read_length (buf : Nat → Nat) (t n : Nat) : (ring_read buf t n).length = n := by
  simp [ring_read]

theorem ring_read_getElem (buf : Nat → Nat) (t n j : Nat) (h : j < (ring_read buf t n).length) :
    (ring_read buf t n)[j] = buf ((t + j) % HARDWARE_BUFSIZE) := by
  simp [ring_read]

theorem ring_read_succ (buf : Nat → Nat) (t n : Nat) (ht : t < HARDWARE_BUFSIZE) :
    ring_read buf t (n + 1) = buf t :: ring_read buf ((t + 1) % HARDWARE_BUFSIZE) n := by
  apply List.ext_getElem
  · simp [ring_read_length]
  · intro j h1 h2
    rw [ring_read_getElem]
    cases j with
    | zero =>
      simp only [HARDWARE_BUFSIZE] at ht ⊢
      simp [Nat.mod_eq_of_lt ht]
    | succ k =>
      simp only [List.getElem_cons_succ]
      rw [ring_read_getElem]
      congr 1
      simp only [HARDWARE_BUFSIZE]
      omega

theorem ring_read_snoc (buf : Nat → Nat) (t n : Nat) :
    ring_read buf t (n + 1) = ring_read buf t n ++ [buf ((t + n) % HARDWARE_BUFSIZE)] := by
  simp [ring_read, List.range_succ]

theorem ring_read_store (buf : Nat → Nat) (t n i v : Nat)
    (h : ∀ j, j < n → (t + j) % HARDWARE_BUFSIZE ≠ i) :
    ring_read (store buf i v) t n = ring_read buf t n := by
  apply List.ext_getElem
  · simp [ring_read_length]
  · intro j h1 h2
    rw [ring_read_getElem, ring_read_getElem]
    have hj : j < n := by simpa [ring_read_length] using h2
    simp [store, h j hj]

/-- Normal form of one push on a channel whose indices are in range. -/
theorem gainspan_TXchar_eq (b : Nat) (s : GS)
    (hh : s.gainspan_head_tx < HARDWARE_BUFSIZE) (ht : s.gainspan_tail_tx < HARDWARE_BUFSIZE) :
    gainspan_TXchar b s = { s with
      gainspan_buf_tx := store s.gainspan_buf_tx s.gainspan_head_tx b
      gainspan_head_tx := (s.gainspan_head_tx + 1) % HARDWARE_BUFSIZE
      gainspan_tail_tx :=
        if (s.gainspan_head_tx + 1) % HARDWARE_BUFSIZE = s.gainspan_tail_tx
        then (s.gainspan_tail_tx + 1) % HARDWARE_BUFSIZE else s.gainspan_tail_tx } := by
  cases s
  simp only [HARDWARE_BUFSIZE] at hh ht
  simp only [gainspan_TXchar, inc8, HARDWARE_BUFSIZE, ge_iff_le]
  split_ifs <;> dsimp only at * <;> simp only [GS.mk.injEq, true_and, and_true] <;> omega


theorem gainspan_TXchar_idx (b : Nat) (s : GS)
    (hh : s.gainspan_head_tx < HARDWARE_BUFSIZE) (ht : s.gainspan_tail_tx < HARDWARE_BUFSIZE) :
    (gainspan_TXchar b s).gainspan_head_tx < HARDWARE_BUFSIZE ∧
    (gainspan_TXchar b s).gainspan_tail_tx < HARDWARE_BUFSIZE := by
  rw [gainspan_TXchar_eq b s hh ht]
  simp only [HARDWARE_BUFSIZE] at *
  constructor
  · omega
  · split_ifs <;> omega

theorem tx_count_TXchar (b : Nat) (s : GS)
    (hh : s.gainspan_head_tx < HARDWARE_BUFSIZE) (ht : s.gainspan_tail_tx < HARDWARE_BUFSIZE) :
    tx_count (gainspan_TXchar b s) = min (tx_count s + 1) 249 := by
  rw [gainspan_TXchar_eq b s hh ht]
  simp only [tx_count, HARDWARE_BUFSIZE] at *
  split_ifs <;> omega

theorem tx_unread_TXchar (b : Nat) (s : GS)
    (hh : s.gainspan_head_tx < HARDWARE_BUFSIZE) (ht : s.gainspan_tail_tx < HARDWARE_BUFSIZE) :
    tx_unread (gainspan_TXchar b s) = (tx_unread s ++ [b]).drop (tx_count s + 1 - 249) := by
  rw [gainspan_TXchar_eq b s hh ht]
  simp only [tx_unread, tx_count]
  simp only [HARDWARE_BUFSIZE] at hh ht
  by_cases hc : (s.gainspan_head_tx + 1) % HARDWARE_BUFSIZE = s.gainspan_tail_tx
  · rw [if_pos hc]
    simp only [HARDWARE_BUFSIZE] at hc
    have e1 : ((s.gainspan_head_tx + 1) % HARDWARE_BUFSIZE + HARDWARE_BUFSIZE
        - (s.gainspan_tail_tx + 1) % HARDWARE_BUFSIZE) % HARDWARE_BUFSIZE = 248 + 1 := by
      simp only [HARDWARE_BUFSIZE]; omega
    have e2 : (s.gainspan_head_tx + HARDWARE_BUFSIZE - s.gainspan_tail_tx) % HARDWARE_BUFSIZE
        = 248 + 1 := by
      simp only [HARDWARE_BUFSIZE]; omega
    have ht1 : s.gainspan_tail_tx < HARDWARE_BUFSIZE := by simpa [HARDWARE_BUFSIZE] using ht
    rw [e1, e2, ring_read_snoc (store s.gainspan_buf_tx s.gainspan_head_tx b),
      ring_read_succ s.gainspan_buf_tx s.gainspan_tail_tx 248 ht1]
    have e3 : ((s.gainspan_tail_tx + 1) % HARDWARE_BUFSIZE + 248) % HARDWARE_BUFSIZE
        = s.gainspan_head_tx := by
      simp only [HARDWARE_BUFSIZE]; omega
    rw [e3, ring_read_store]
    · simp [store]
    · intro j hj
      simp only [HARDWARE_BUFSIZE]; omega
  · rw [if_neg hc]
    simp only [HARDWARE_BUFSIZE] at hc
    have e1 : ((s.gainspan_head_tx + 1) % HARDWARE_BUFSIZE + HARDWARE_BUFSIZE
        - s.gainspan_tail_tx) % HARDWARE_BUFSIZE
        = (s.gainspan_head_tx + HARDWARE_BUFSIZE - s.gainspan_tail_tx) % HARDWARE_BUFSIZE + 1 := by
      simp only [HARDWARE_BUFSIZE]; omega
    have e3 : (s.gainspan_tail_tx
        + (s.gainspan_head_tx + HARDWARE_BUFSIZE - s.gainspan_tail_tx) % HARDWARE_BUFSIZE)
        % HARDWARE_BUFSIZE = s.gainspan_head_tx := by
      simp only [HARDWARE_BUFSIZE]; omega
    have e4 : (s.gainspan_head_tx + HARDWARE_BUFSIZE - s.gainspan_tail_tx) % HARDWARE_BUFSIZE
        + 1 - 249 = 0 := by
      simp only [HARDWARE_BUFSIZE]; omega
    rw [e1, ring_read_snoc, e3, e4, ring_read_store]
    · simp [store]
    · intro j hj
      simp only [HARDWARE_BUFSIZE] at hj ⊢; omega

theorem push_all_idx (bs : List Nat) (s : GS)
    (hh : s.gainspan_head_tx < HARDWARE_BUFSIZE) (ht : s.gainspan_tail_tx < HARDWARE_BUFSIZE) :
    (push_all bs s).gainspan_head_tx < HARDWARE_BUFSIZE ∧
    (push_all bs s).gainspan_tail_tx < HARDWARE_BUFSIZE := by
  induction bs generalizing s with
  | nil => exact ⟨hh, ht⟩
  | cons b rest ih =>
    have h := gainspan_TXchar_idx b s hh ht
    exact ih (gainspan_TXchar b s) h.1 h.2

theorem tx_unread_length (s : GS) : (tx_unread s).length = tx_count s := by
  simp [tx_unread, ring_read_length]

theorem tx_count_le (s : GS) : tx_count s ≤ 249 := by
  simp only [tx_count, HARDWARE_BUFSIZE]; omega

theorem tx_unread_push_all (bs : List Nat) (s : GS)
    (hh : s.gainspan_head_tx < HARDWARE_BUFSIZE) (ht : s.gainspan_tail_tx < HARDWARE_BUFSIZE) :
    tx_unread (push_all bs s)
      = (tx_unread s ++ bs).drop (tx_count s + bs.length - 249) := by
  induction bs generalizing s with
  | nil =>
    have := tx_count_le s
    have e : tx_count s + ([] : List Nat).length - 249 = 0 := by
      simp only [List.length_nil]; omega
    rw [e]
    simp [push_all]
  | cons b rest ih =>
    have h := gainspan_TXchar_idx b s hh ht
    have e : push_all (b :: rest) s = push_all rest (gainspan_TXchar b s) := rfl
    rw [e, ih (gainspan_TXchar b s) h.1 h.2, tx_unread_TXchar b s hh ht,
      tx_count_TXchar b s hh ht]
    have hl := tx_unread_length s
    have hc := tx_count_le s
    by_cases hlt : tx_count s + 1 ≤ 249
    · have e1 : tx_count s + 1 - 249 = 0 := by omega
      have e2 : min (tx_count s + 1) 249 + rest.length - 249
          = tx_count s + (b :: rest).length - 249 := by
        simp only [List.length_cons]; omega
      rw [e1, e2, List.drop_zero, List.append_assoc]
      rfl
    · have e0 : tx_count s = 249 := by omega
      have e1 : tx_count s + 1 - 249 = 1 := by omega
      have e2 : min (tx_count s + 1) 249 + rest.length - 249 + 1
          = tx_count s + (b :: rest).length - 249 := by
        simp only [List.length_cons]; omega
      have e3 : List.drop 1 (tx_unread s ++ [b]) ++ rest
          = List.drop 1 (tx_unread s ++ b :: rest) := by
        cases hu : tx_unread s with
        | nil => rw [hu] at hl; simp at hl; omega
        | cons x xs => simp
      rw [e1, e3, List.drop_drop, Nat.add_comm 1, e2]

theorem tx_count_push_all (bs : List Nat) (s : GS)
    (hh : s.gainspan_head_tx < HARDWARE_BUFSIZE) (ht : s.gainspan_tail_tx < HARDWARE_BUFSIZE) :
    tx_count (push_all bs s) = min (tx_count s + bs.length) 249 := by
  rw [← tx_unread_length, tx_unread_push_all bs s hh ht, List.length_drop, List.length_append,
    tx_unread_length]
  omega

/-! ## C5: overflow of the TX channel evicts the oldest unread byte -/

/-- C5: pushing any byte sequence `bs` with `gainspan_TXchar`, one byte at a
time, onto a reset TX channel (head = tail = 0) leaves, after every push, at
most 249 buffered bytes, and the unread bytes from tail up to head are the last
`min |bs| 249` bytes of `bs` in their original order. -/
theorem txchar_keeps_newest_249 (bs : List Nat) (s : GS)
    (hh : s.gainspan_head_tx = 0) (ht : s.gainspan_tail_tx = 0) :
    (∀ k, tx_count (push_all (bs.take k) s) ≤ 249) ∧
    tx_count (push_all bs s) = min bs.length 249 ∧
    tx_unread (push_all bs s) = bs.drop (bs.length - min bs.length 249) := by
  have hh1 : s.gainspan_head_tx < HARDWARE_BUFSIZE := by rw [hh]; decide
  have ht1 : s.gainspan_tail_tx < HARDWARE_BUFSIZE := by rw [ht]; decide
  have hc : tx_count s = 0 := by simp [tx_count, hh, ht, HARDWARE_BUFSIZE]
  have hu : tx_unread s = [] := by simp [tx_unread, hc, ring_read]
  refine ⟨fun k => tx_count_le _, ?_, ?_⟩
  · rw [tx_count_push_all bs s hh1 ht1, hc, Nat.zero_add]
  · have e : bs.length - 249 = bs.length - min bs.length 249 := by omega
    rw [tx_unread_push_all bs s hh1 ht1, hc, hu, Nat.zero_add, List.nil_append, e]

/-- C5 at a concrete input: 300 pushes onto the initial state. -/
theorem txchar_keeps_newest_249_witness :
    GS.init.gainspan_head_tx = 0 ∧ GS.init.gainspan_tail_tx = 0 ∧
    tx_count (push_all (List.range 300) GS.init) = min (List.range 300).length 249 ∧
    tx_unread (push_all (List.range 300) GS.init)
      = (List.range 300).drop ((List.range 300).length - min (List.range 300).length 249) :=
  ⟨rfl, rfl, (txchar_keeps_newest_249 (List.range 300) GS.init rfl rfl).2⟩

/-! ## Matcher lemmas (`gainspan_RXequals`) -/

theorem gainspan_RXequals_read_plain (buf : Nat → Nat) (t : Nat) (ht : t < HARDWARE_BUFSIZE)
    (h10 : buf t ≠ 10) (h27 : buf t ≠ 27) :
    gainspan_RXequals_read buf t = (buf t, (t + 1) % HARDWARE_BUFSIZE) := by
  simp only [HARDWARE_BUFSIZE] at ht
  simp only [gainspan_RXequals_read, HARDWARE_BUFSIZE, if_neg h10, if_neg h27, Prod.mk.injEq,
    true_and]
  split <;> omega

theorem gainspan_RXequals_scan_match (buf : Nat → Nat) (ans : List Nat)
    (hans : ∀ c ∈ ans, c ≠ 0 ∧ c ≠ 10 ∧ c ≠ 27) (t : Nat) (ht : t < HARDWARE_BUFSIZE)
    (hbuf : ring_read buf t ans.length = ans) :
    gainspan_RXequals_scan buf ans t = some ((t + ans.length) % HARDWARE_BUFSIZE) := by
  induction ans generalizing t with
  | nil =>
    simp only [HARDWARE_BUFSIZE] at ht
    simp [gainspan_RXequals_scan, HARDWARE_BUFSIZE, Nat.mod_eq_of_lt ht]
  | cons c rest ih =>
    have hc := hans c (List.mem_cons_self c rest)
    rw [List.length_cons, ring_read_succ buf t rest.length ht] at hbuf
    have hb : buf t = c := (List.cons.inj hbuf).1
    have hr := (List.cons.inj hbuf).2
    have ht1 : (t + 1) % HARDWARE_BUFSIZE < HARDWARE_BUFSIZE :=
      Nat.mod_lt _ (by decide)
    have := ih (fun x hx => hans x (List.mem_cons_of_mem c hx)) _ ht1 hr
    rw [gainspan_RXequals_scan, if_neg hc.1,
      gainspan_RXequals_read_plain buf t ht (by rw [hb]; exact hc.2.1) (by rw [hb]; exact hc.2.2)]
    simp only [hb, if_true]
    rw [this]
    simp only [HARDWARE_BUFSIZE, List.length_cons]
    congr 1
    omega

theorem gainspan_RXequals_of_scan (ans : List Nat) (s : GS) (t : Nat)
    (hscan : gainspan_RXequals_scan s.gainspan_buf_rx ans s.gainspan_tail_rx = some t)
    (ht : t < HARDWARE_BUFSIZE) :
    gainspan_RXequals ans s =
      (true,
        if s.gainspan_buf_rx t = 13 then
          { s with
            gainspan_tail_rx := if t + 1 > HARDWARE_BUFSIZE then 0 else t + 1
            gainspan_rxcr := s.gainspan_rxcr - 1 }
        else { s with gainspan_tail_rx := t }) := by
  simp only [HARDWARE_BUFSIZE] at ht
  have e1 : t % 256 = t := by omega
  have e2 : (t + 1) % 256 = t + 1 := by omega
  simp only [gainspan_RXequals, hscan, inc8, e1, e2]
  cases s
  dsimp only
  split_ifs <;> simp only [Prod.mk.injEq, GS.mk.injEq, true_and, and_true] <;> omega

theorem gainspan_RXequals_of_mismatch (ans : List Nat) (s : GS)
    (hscan : gainspan_RXequals_scan s.gainspan_buf_rx ans s.gainspan_tail_rx = none) :
    gainspan_RXequals ans s = (false, s) := by
  simp only [gainspan_RXequals, hscan]

theorem gainspan_RXequals_false (ans : List Nat) (s : GS)
    (h : (gainspan_RXequals ans s).1 = false) : (gainspan_RXequals ans s).2 = s := by
  cases hscan : gainspan_RXequals_scan s.gainspan_buf_rx ans s.gainspan_tail_rx with
  | none => rw [gainspan_RXequals_of_mismatch ans s hscan]
  | some t =>
    exfalso
    revert h
    simp only [gainspan_RXequals, hscan]
    split_ifs <;> simp

/-! ## C3: `probe_equals("OK")` on `"OK\r"` and on `"OK\n\r"` -/

/-- C3 as stated fails on `"OK\n\r"`: with that content at tail (index 0) and one
pending CR, `gainspan_RXequals("OK")` succeeds but leaves tail at the LF
(index 2, not 4, the position just past the CR) and the pending-CR counter at 1. -/
theorem probe_ok_lf_cr_counterexample :
    (gainspan_RXequals str_OK (rx_loaded [79, 75, 10, 13] 1)).1 = true ∧
    (gainspan_RXequals str_OK (rx_loaded [79, 75, 10, 13] 1)).2.gainspan_tail_rx = 2 ∧
    (gainspan_RXequals str_OK (rx_loaded [79, 75, 10, 13] 1)).2.gainspan_rxcr = 1 ∧
    ¬ ((gainspan_RXequals str_OK (rx_loaded [79, 75, 10, 13] 1)).2.gainspan_tail_rx = 4 ∧
       (gainspan_RXequals str_OK (rx_loaded [79, 75, 10, 13] 1)).2.gainspan_rxcr = 0) := by
  decide

/-- C3 (amended): for every state with the RX tail in range,
`gainspan_RXequals("OK")` succeeds on both contents.  When the content at tail
is `"OK\r"` and the CR is not in the last slot of the buffer, it consumes through
the CR: tail ends just past the CR and the pending-CR counter is one less (it
stays at zero when already zero).  When the content at tail is `"OK\n\r"` it
consumes only `"OK"`: tail ends on the LF and the counter is unchanged.  Nothing
else in the state changes. -/
theorem probe_ok_consumes (s : GS) (ht : s.gainspan_tail_rx < HARDWARE_BUFSIZE) :
    (ring_read s.gainspan_buf_rx s.gainspan_tail_rx 3 = [79, 75, 13] →
      (s.gainspan_tail_rx + 2) % HARDWARE_BUFSIZE ≠ 249 →
      gainspan_RXequals str_OK s = (true, { s with
        gainspan_tail_rx := (s.gainspan_tail_rx + 3) % HARDWARE_BUFSIZE
        gainspan_rxcr := s.gainspan_rxcr - 1 })) ∧
    (ring_read s.gainspan_buf_rx s.gainspan_tail_rx 4 = [79, 75, 10, 13] →
      gainspan_RXequals str_OK s = (true, { s with
        gainspan_tail_rx := (s.gainspan_tail_rx + 2) % HARDWARE_BUFSIZE })) := by
  have hans : ∀ c ∈ str_OK, c ≠ 0 ∧ c ≠ 10 ∧ c ≠ 27 := by decide
  have ht2 : (s.gainspan_tail_rx + 2) % HARDWARE_BUFSIZE < HARDWARE_BUFSIZE :=
    Nat.mod_lt _ (by decide)
  constructor
  · intro h hlast
    have h2 : ring_read s.gainspan_buf_rx s.gainspan_tail_rx str_OK.length = str_OK := by
      have := congrArg (List.take 2) h
      simpa [ring_read, List.range_succ, str_OK] using this
    have h3 : s.gainspan_buf_rx ((s.gainspan_tail_rx + 2) % HARDWARE_BUFSIZE) = 13 := by
      have := congrArg (fun l => l.getD 2 0) h
      simpa [ring_read, List.range_succ] using this
    have hscan := gainspan_RXequals_scan_match s.gainspan_buf_rx str_OK hans _ ht h2
    rw [show str_OK.length = 2 from rfl] at hscan
    rw [gainspan_RXequals_of_scan str_OK s _ hscan ht2, if_pos h3]
    simp only [HARDWARE_BUFSIZE, str_OK, List.length_cons, List.length_nil] at hlast ⊢
    cases s
    simp only [Prod.mk.injEq, GS.mk.injEq, true_and, and_true]
    dsimp only at ht hlast ⊢
    simp only [HARDWARE_BUFSIZE] at ht
    split_ifs <;> omega
  · intro h
    have h2 : ring_read s.gainspan_buf_rx s.gainspan_tail_rx str_OK.length = str_OK := by
      have := congrArg (List.take 2) h
      simpa [ring_read, List.range_succ, str_OK] using this
    have h3 : s.gainspan_buf_rx ((s.gainspan_tail_rx + 2) % HARDWARE_BUFSIZE) = 10 := by
      have := congrArg (fun l => l.getD 2 0) h
      simpa [ring_read, List.range_succ] using this
    have hscan := gainspan_RXequals_scan_match s.gainspan_buf_rx str_OK hans _ ht h2
    rw [show str_OK.length = 2 from rfl] at hscan
    rw [gainspan_RXequals_of_scan str_OK s _ hscan ht2, if_neg (by rw [h3]; decide)]

/-- C3 (amended) at concrete inputs: `"OK\r"` and `"OK\n\r"` stored from index 0
with one pending CR. -/
theorem probe_ok_consumes_witness :
    gainspan_RXequals str_OK (rx_loaded [79, 75, 13] 1) = (true, { rx_loaded [79, 75, 13] 1 with
        gainspan_tail_rx := ((rx_loaded [79, 75, 13] 1).gainspan_tail_rx + 3) % HARDWARE_BUFSIZE
        gainspan_rxcr := (rx_loaded [79, 75, 13] 1).gainspan_rxcr - 1 }) ∧
    gainspan_RXequals str_OK (rx_loaded [79, 75, 10, 13] 1) =
      (true, { rx_loaded [79, 75, 10, 13] 1 with
        gainspan_tail_rx :=
          ((rx_loaded [79, 75, 10, 13] 1).gainspan_tail_rx + 2) % HARDWARE_BUFSIZE }) :=
  ⟨(probe_ok_consumes (rx_loaded [79, 75, 13] 1) (by decide)).1 (by decide) (by decide),
   (probe_ok_consumes (rx_loaded [79, 75, 10, 13] 1) (by decide)).2 (by decide)⟩

/-! ## C4: a failed probe changes nothing -/

/-- C4: for every state and every expected string, if `gainspan_RXequals`
returns false then the RX tail, the RX head, the pending-CR counter and the
buffer contents (indeed the whole state) are exactly as before the call. -/
theorem probe_mismatch_changes_nothing (ans : List Nat) (s : GS)
    (h : (gainspan_RXequals ans s).1 = false) :
    (gainspan_RXequals ans s).2.gainspan_tail_rx = s.gainspan_tail_rx ∧
    (gainspan_RXequals ans s).2.gainspan_head_rx = s.gainspan_head_rx ∧
    (gainspan_RXequals ans s).2.gainspan_rxcr = s.gainspan_rxcr ∧
    (gainspan_RXequals ans s).2.gainspan_buf_rx = s.gainspan_buf_rx ∧
    (gainspan_RXequals ans s).2 = s := by
  have e := gainspan_RXequals_false ans s h
  rw [e]
  exact ⟨rfl, rfl, rfl, rfl, rfl⟩

/-- C4 at a concrete input: probing `"OK"` against the content `"OX\r"`. -/
theorem probe_mismatch_changes_nothing_witness :
    (gainspan_RXequals str_OK (rx_loaded [79, 88, 13] 1)).1 = false ∧
    (gainspan_RXequals str_OK (rx_loaded [79, 88, 13] 1)).2 = rx_loaded [79, 88, 13] 1 :=
  ⟨by decide,
   (probe_mismatch_changes_nothing str_OK (rx_loaded [79, 88, 13] 1) (by decide)).2.2.2.2⟩

/-! ## Decoder lemmas (`gainspan_RXdata`) -/

theorem gainspan_RXdata_switch_rx (cs : Bool) (ch : Nat) (s : GS) (p : Nat → Nat) :
    (gainspan_RXdata_switch cs ch s p).2.1.gainspan_buf_rx = s.gainspan_buf_rx ∧
    (gainspan_RXdata_switch cs ch s p).2.1.gainspan_head_rx = s.gainspan_head_rx ∧
    (gainspan_RXdata_switch cs ch s p).2.1.gainspan_tail_rx = s.gainspan_tail_rx := by
  simp only [gainspan_RXdata_switch]
  split <;> (try split_ifs) <;> exact ⟨rfl, rfl, rfl⟩

theorem rx_unread_length (s : GS) : (rx_unread s).length = rx_count s := by
  simp [rx_unread, ring_read_length]

/-- On in-range indices the loop of `gainspan_RXdata` computes `rxdata_on` of the
unread bytes, whenever the fuel covers them. -/
theorem gainspan_RXdata_loop_eq (cs : Bool) (l : List Nat) :
    ∀ (fuel : Nat) (s : GS) (p : Nat → Nat),
      s.gainspan_tail_rx < HARDWARE_BUFSIZE → s.gainspan_head_rx < HARDWARE_BUFSIZE →
      rx_unread s = l → l ≠ [] → l.length ≤ fuel →
      gainspan_RXdata_loop cs fuel s p = some (rxdata_on cs l s p) := by
  induction l with
  | nil => intro fuel s p _ _ _ h; exact absurd rfl h
  | cons ch rest ih =>
    intro fuel s p ht hh hu _ hf
    cases fuel with
    | zero => simp at hf
    | succ f =>
      have hc : rx_count s = rest.length + 1 := by
        rw [← rx_unread_length, hu]; rfl
      have hu1 := hu
      simp only [rx_unread] at hu1
      rw [hc, ring_read_succ _ _ _ ht] at hu1
      have hb : s.gainspan_buf_rx s.gainspan_tail_rx = ch := (List.cons.inj hu1).1
      have hr := (List.cons.inj hu1).2
      simp only [HARDWARE_BUFSIZE] at ht hh
      simp only [rx_count, HARDWARE_BUFSIZE] at hc
      have e1 : (if inc8 s.gainspan_tail_rx ≥ HARDWARE_BUFSIZE then 0 else inc8 s.gainspan_tail_rx)
          = (s.gainspan_tail_rx + 1) % HARDWARE_BUFSIZE := by
        simp only [inc8, HARDWARE_BUFSIZE]; split <;> omega
      have e2 : (if ({ s with gainspan_tail_rx := inc8 s.gainspan_tail_rx } : GS).gainspan_tail_rx
            ≥ HARDWARE_BUFSIZE
          then { ({ s with gainspan_tail_rx := inc8 s.gainspan_tail_rx } : GS) with
            gainspan_tail_rx := 0 }
          else { s with gainspan_tail_rx := inc8 s.gainspan_tail_rx })
          = { s with gainspan_tail_rx := (s.gainspan_tail_rx + 1) % HARDWARE_BUFSIZE } := by
        rw [← e1]
        dsimp only
        split <;> rfl
      rw [gainspan_RXdata_loop, rxdata_on]
      simp only [e2, hb]
      generalize hsw : gainspan_RXdata_switch cs ch
        { s with gainspan_tail_rx := (s.gainspan_tail_rx + 1) % HARDWARE_BUFSIZE } p = r
      have hrx := gainspan_RXdata_switch_rx cs ch
        { s with gainspan_tail_rx := (s.gainspan_tail_rx + 1) % HARDWARE_BUFSIZE } p
      rw [hsw] at hrx
      dsimp only at hrx
      by_cases hd : r.1 = true
      · simp [hd]
      · simp only [hd, if_false]
        have htl : r.2.1.gainspan_tail_rx < HARDWARE_BUFSIZE := by
          rw [hrx.2.2]; exact Nat.mod_lt _ (by decide)
        have hhd : r.2.1.gainspan_head_rx < HARDWARE_BUFSIZE := by
          rw [hrx.2.1]; simpa [HARDWARE_BUFSIZE] using hh
        have hcnt : rx_count r.2.1 = rest.length := by
          simp only [rx_count, hrx.2.1, hrx.2.2, HARDWARE_BUFSIZE]; omega
        have hun : rx_unread r.2.1 = rest := by
          simp only [rx_unread, hcnt, hrx.1, hrx.2.2]; exact hr
        cases rest with
        | nil =>
          have : r.2.1.gainspan_tail_rx = r.2.1.gainspan_head_rx := by
            simp only [rx_count, HARDWARE_BUFSIZE, List.length_nil] at hcnt
            simp only [HARDWARE_BUFSIZE] at htl hhd
            omega
          simp [this, rxdata_on]
        | cons x xs =>
          have : r.2.1.gainspan_tail_rx ≠ r.2.1.gainspan_head_rx := by
            simp only [rx_count, HARDWARE_BUFSIZE, List.length_cons] at hcnt
            simp only [HARDWARE_BUFSIZE] at htl hhd
            omega
          simp only [ne_eq, this, not_false_eq_true, if_true]
          exact ih f r.2.1 r.2.2 htl hhd hun (List.cons_ne_nil x xs)
            (by simpa using hf)

theorem gainspan_RXdata_eq (cs : Bool) (fuel : Nat) (s : GS) (p : Nat → Nat)
    (ht : s.gainspan_tail_rx < HARDWARE_BUFSIZE) (hh : s.gainspan_head_rx < HARDWARE_BUFSIZE)
    (hf : rx_count s ≤ fuel) :
    gainspan_RXdata cs fuel s p = some (rxdata_on cs (rx_unread s) s p) := by
  by_cases he : s.gainspan_tail_rx = s.gainspan_head_rx
  · have hc : rx_count s = 0 := by
      simp only [rx_count, HARDWARE_BUFSIZE] at *; omega
    have hu : rx_unread s = [] := by simp [rx_unread, hc, ring_read]
    simp [gainspan_RXdata, he, hu, rxdata_on]
  · have hc : rx_count s ≠ 0 := by
      simp only [rx_count, HARDWARE_BUFSIZE] at *; omega
    have hne : rx_unread s ≠ [] := by
      intro h; apply hc; rw [← rx_unread_length, h]; rfl
    simp only [gainspan_RXdata, he, if_false]
    exact gainspan_RXdata_loop_eq cs (rx_unread s) fuel s p ht hh rfl hne
      (by rw [rx_unread_length]; exact hf)

theorem rxesc_i_next_lt (i : Nat) (h : i + 1 ≤ 31) : rxesc_i_next i = i + 1 := by
  simp only [rxesc_i_next, inc8, HARDWARE_BUFSIZESML]
  split <;> omega

theorem switch_idle_esc (cs : Bool) (s : GS) (p : Nat → Nat) (h : s.gainspan_rxesc_data = 0) :
    gainspan_RXdata_switch cs 27 s p = (false, { s with gainspan_rxesc_data := 1 }, p) := by
  simp [gainspan_RXdata_switch, h, inc8]

theorem switch_idle_other (cs : Bool) (ch : Nat) (s : GS) (p : Nat → Nat)
    (h : s.gainspan_rxesc_data = 0) (hc : ch ≠ 27) :
    gainspan_RXdata_switch cs ch s p = (false, s, p) := by
  simp [gainspan_RXdata_switch, h, hc]

theorem switch_sawesc_u (cs : Bool) (s : GS) (p : Nat → Nat) (h : s.gainspan_rxesc_data = 1) :
    gainspan_RXdata_switch cs 117 s p = (false, { s with gainspan_rxesc_data := 2 }, p) := by
  simp [gainspan_RXdata_switch, h, inc8]

theorem switch_sawesc_other (cs : Bool) (ch : Nat) (s : GS) (p : Nat → Nat)
    (h : s.gainspan_rxesc_data = 1) (hc : ch ≠ 117) :
    gainspan_RXdata_switch cs ch s p = (false, { s with gainspan_rxesc_data := 99 }, p) := by
  simp [gainspan_RXdata_switch, h, hc]

theorem switch_cid (cs : Bool) (ch : Nat) (s : GS) (p : Nat → Nat)
    (h : s.gainspan_rxesc_data = 2) :
    gainspan_RXdata_switch cs ch s p = (false, { s with
      gainspan_rxesc_cid := ch
      gainspan_rxesc_data := 3
      gainspan_rxesc_i := 0 }, p) := by
  simp [gainspan_RXdata_switch, h, inc8]

theorem switch_ip_byte (cs : Bool) (ch : Nat) (s : GS) (p : Nat → Nat)
    (h : s.gainspan_rxesc_data = 3) (h27 : ch ≠ 27) (h32 : ch ≠ 32)
    (hge : char_ge_space cs ch = true) :
    gainspan_RXdata_switch cs ch s p = (false, { s with
      gainspan_param_module_ip := store s.gainspan_param_module_ip s.gainspan_rxesc_i ch
      gainspan_rxesc_i := rxesc_i_next s.gainspan_rxesc_i }, p) := by
  simp [gainspan_RXdata_switch, h, h27, h32, hge]

theorem switch_ip_space (cs : Bool) (s : GS) (p : Nat → Nat)
    (h : s.gainspan_rxesc_data = 3) :
    gainspan_RXdata_switch cs 32 s p = (false, { s with
      gainspan_param_module_ip := store s.gainspan_param_module_ip s.gainspan_rxesc_i 0
      gainspan_rxesc_i := 0
      gainspan_rxesc_data := 4 }, p) := by
  simp [gainspan_RXdata_switch, h, inc8]

theorem switch_port_byte (cs : Bool) (ch : Nat) (s : GS) (p : Nat → Nat)
    (h : s.gainspan_rxesc_data = 4) (h27 : ch ≠ 27) (h9 : ch ≠ 9)
    (hge : char_ge_space cs ch = true) :
    gainspan_RXdata_switch cs ch s p = (false, { s with
      gainspan_param_module_port := store s.gainspan_param_module_port s.gainspan_rxesc_i ch
      gainspan_rxesc_i := rxesc_i_next s.gainspan_rxesc_i }, p) := by
  simp [gainspan_RXdata_switch, h, h27, h9, hge]

theorem switch_port_tab (cs : Bool) (s : GS) (p : Nat → Nat)
    (h : s.gainspan_rxesc_data = 4) :
    gainspan_RXdata_switch cs 9 s p = (false, { s with
      gainspan_param_module_port := store s.gainspan_param_module_port s.gainspan_rxesc_i 0
      gainspan_rxesc_i := 0
      gainspan_rxesc_data := 5 }, p) := by
  simp [gainspan_RXdata_switch, h, inc8]

theorem switch_payload_byte (cs : Bool) (ch : Nat) (s : GS) (p : Nat → Nat)
    (h : s.gainspan_rxesc_data = 5) (h27 : ch ≠ 27) (hge : char_ge_space cs ch = true) :
    gainspan_RXdata_switch cs ch s p = (false,
      { s with gainspan_rxesc_i := rxesc_i_next s.gainspan_rxesc_i },
      store p s.gainspan_rxesc_i ch) := by
  simp [gainspan_RXdata_switch, h, h27, hge]

theorem switch_payload_esc (cs : Bool) (s : GS) (p : Nat → Nat)
    (h : s.gainspan_rxesc_data = 5) :
    gainspan_RXdata_switch cs 27 s p = (false, { s with gainspan_rxesc_data := 6 }, p) := by
  simp [gainspan_RXdata_switch, h, inc8]

theorem switch_finish (cs : Bool) (ch : Nat) (s : GS) (p : Nat → Nat)
    (h : s.gainspan_rxesc_data = 6) :
    gainspan_RXdata_switch cs ch s p =
      (true, { s with gainspan_rxesc_data := 0 }, store p s.gainspan_rxesc_i 0) := by
  simp [gainspan_RXdata_switch, h]

/-- The IP field: bytes that are neither ESC nor SPACE and pass `ch >= ' '`
are stored one after another while the cursor stays below 31. -/
theorem rxdata_on_ip (cs : Bool) (l rest : List Nat) :
    ∀ (s : GS) (p : Nat → Nat), s.gainspan_rxesc_data = 3 →
      s.gainspan_tail_rx < HARDWARE_BUFSIZE →
      (∀ x ∈ l, x ≠ 27 ∧ x ≠ 32 ∧ char_ge_space cs x = true) →
      s.gainspan_rxesc_i + l.length ≤ 31 →
      rxdata_on cs (l ++ rest) s p = rxdata_on cs rest { s with
        gainspan_tail_rx := (s.gainspan_tail_rx + l.length) % HARDWARE_BUFSIZE
        gainspan_param_module_ip := store_list s.gainspan_param_module_ip s.gainspan_rxesc_i l
        gainspan_rxesc_i := s.gainspan_rxesc_i + l.length } p := by
  induction l with
  | nil =>
    intro s p _ ht _ _
    simp only [HARDWARE_BUFSIZE] at ht
    simp [store_list, HARDWARE_BUFSIZE, Nat.mod_eq_of_lt ht]
  | cons x xs ih =>
    intro s p h3 ht hl hi
    have hx := hl x (List.mem_cons_self x xs)
    simp only [List.length_cons] at hi
    have hn : rxesc_i_next s.gainspan_rxesc_i = s.gainspan_rxesc_i + 1 :=
      rxesc_i_next_lt _ (by omega)
    rw [List.cons_append, rxdata_on,
      switch_ip_byte cs x _ p (by exact h3) hx.1 hx.2.1 hx.2.2]
    simp only [Bool.false_eq_true, if_false]
    rw [ih _ p (by exact h3) (by exact Nat.mod_lt _ (by decide))
      (fun y hy => hl y (List.mem_cons_of_mem x hy))
      (by dsimp only; rw [hn]; omega)]
    congr 1
    cases s
    dsimp only at hi hn ht ⊢
    simp only [HARDWARE_BUFSIZE] at ht
    simp only [GS.mk.injEq, true_and, and_true, store_list, List.length_cons, hn,
      HARDWARE_BUFSIZE]
    constructor <;> omega

/-- The port field: bytes that are neither ESC nor TAB and pass `ch >= ' '`. -/
theorem rxdata_on_port (cs : Bool) (l rest : List Nat) :
    ∀ (s : GS) (p : Nat → Nat), s.gainspan_rxesc_data = 4 →
      s.gainspan_tail_rx < HARDWARE_BUFSIZE →
      (∀ x ∈ l, x ≠ 27 ∧ x ≠ 9 ∧ char_ge_space cs x = true) →
      s.gainspan_rxesc_i + l.length ≤ 31 →
      rxdata_on cs (l ++ rest) s p = rxdata_on cs rest { s with
        gainspan_tail_rx := (s.gainspan_tail_rx + l.length) % HARDWARE_BUFSIZE
        gainspan_param_module_port := store_list s.gainspan_param_module_port s.gainspan_rxesc_i l
        gainspan_rxesc_i := s.gainspan_rxesc_i + l.length } p := by
  induction l with
  | nil =>
    intro s p _ ht _ _
    simp only [HARDWARE_BUFSIZE] at ht
    simp [store_list, HARDWARE_BUFSIZE, Nat.mod_eq_of_lt ht]
  | cons x xs ih =>
    intro s p h4 ht hl hi
    have hx := hl x (List.mem_cons_self x xs)
    simp only [List.length_cons] at hi
    have hn : rxesc_i_next s.gainspan_rxesc_i = s.gainspan_rxesc_i + 1 :=
      rxesc_i_next_lt _ (by omega)
    rw [List.cons_append, rxdata_on,
      switch_port_byte cs x _ p (by exact h4) hx.1 hx.2.1 hx.2.2]
    simp only [Bool.false_eq_true, if_false]
    rw [ih _ p (by exact h4) (by exact Nat.mod_lt _ (by decide))
      (fun y hy => hl y (List.mem_cons_of_mem x hy))
      (by dsimp only; rw [hn]; omega)]
    congr 1
    cases s
    dsimp only at hi hn ht ⊢
    simp only [HARDWARE_BUFSIZE] at ht
    simp only [GS.mk.injEq, true_and, and_true, store_list, List.length_cons, hn,
      HARDWARE_BUFSIZE]
    constructor <;> omega

/-- The payload: bytes other than ESC that pass `ch >= ' '` go to `param`. -/
theorem rxdata_on_payload (cs : Bool) (l rest : List Nat) :
    ∀ (s : GS) (p : Nat → Nat), s.gainspan_rxesc_data = 5 →
      s.gainspan_tail_rx < HARDWARE_BUFSIZE →
      (∀ x ∈ l, x ≠ 27 ∧ char_ge_space cs x = true) →
      s.gainspan_rxesc_i + l.length ≤ 31 →
      rxdata_on cs (l ++ rest) s p = rxdata_on cs rest { s with
        gainspan_tail_rx := (s.gainspan_tail_rx + l.length) % HARDWARE_BUFSIZE
        gainspan_rxesc_i := s.gainspan_rxesc_i + l.length }
        (store_list p s.gainspan_rxesc_i l) := by
  induction l with
  | nil =>
    intro s p _ ht _ _
    simp only [HARDWARE_BUFSIZE] at ht
    simp [store_list, HARDWARE_BUFSIZE, Nat.mod_eq_of_lt ht]
  | cons x xs ih =>
    intro s p h5 ht hl hi
    have hx := hl x (List.mem_cons_self x xs)
    simp only [List.length_cons] at hi
    have hn : rxesc_i_next s.gainspan_rxesc_i = s.gainspan_rxesc_i + 1 :=
      rxesc_i_next_lt _ (by omega)
    rw [List.cons_append, rxdata_on,
      switch_payload_byte cs x _ p (by exact h5) hx.1 hx.2]
    simp only [Bool.false_eq_true, if_false]
    rw [ih _ _ (by exact h5) (by exact Nat.mod_lt _ (by decide))
      (fun y hy => hl y (List.mem_cons_of_mem x hy))
      (by dsimp only; rw [hn]; omega)]
    dsimp only
    rw [hn]
    congr 1
    cases s
    dsimp only at hi hn ht ⊢
    simp only [HARDWARE_BUFSIZE] at ht
    simp only [GS.mk.injEq, true_and, and_true, List.length_cons, HARDWARE_BUFSIZE]
    constructor <;> omega

/-- The inbound tunnel frame `ESC 'u' <CID> <ip> SP <port> TAB <payload> ESC <b>`. -/
theorem rxdata_on_frame (cs : Bool) (c b : Nat) (ip port payload : List Nat)
    (s : GS) (p : Nat → Nat) (h0 : s.gainspan_rxesc_data = 0)
    (ht : s.gainspan_tail_rx < HARDWARE_BUFSIZE)
    (hip : ∀ x ∈ ip, x ≠ 27 ∧ x ≠ 32 ∧ char_ge_space cs x = true)
    (hport : ∀ x ∈ port, x ≠ 27 ∧ x ≠ 9 ∧ char_ge_space cs x = true)
    (hpay : ∀ x ∈ payload, x ≠ 27 ∧ char_ge_space cs x = true)
    (hipl : ip.length ≤ 31) (hportl : port.length ≤ 31) (hpayl : payload.length ≤ 31) :
    rxdata_on cs ([27, 117, c] ++ ip ++ [32] ++ port ++ [9] ++ payload ++ [27, b]) s p =
      (true, { s with
        gainspan_tail_rx :=
          (s.gainspan_tail_rx + (ip.length + port.length + payload.length + 7)) % HARDWARE_BUFSIZE
        gainspan_rxesc_cid := c
        gainspan_rxesc_data := 0
        gainspan_rxesc_i := payload.length
        gainspan_param_module_ip := store (store_list s.gainspan_param_module_ip 0 ip) ip.length 0
        gainspan_param_module_port :=
          store (store_list s.gainspan_param_module_port 0 port) port.length 0 },
        store (store_list p 0 payload) payload.length 0) := by
  have hm : ∀ n, n % HARDWARE_BUFSIZE < HARDWARE_BUFSIZE := fun n => Nat.mod_lt _ (by decide)
  have e : [27, 117, c] ++ ip ++ [32] ++ port ++ [9] ++ payload ++ [27, b]
      = 27 :: 117 :: c :: (ip ++ (32 :: (port ++ (9 :: (payload ++ [27, b]))))) := by simp
  rw [e, rxdata_on, switch_idle_esc cs _ p (by exact h0)]
  simp only [Bool.false_eq_true, if_false]
  rw [rxdata_on, switch_sawesc_u cs _ p rfl]
  simp only [Bool.false_eq_true, if_false]
  rw [rxdata_on, switch_cid cs c _ p rfl]
  simp only [Bool.false_eq_true, if_false]
  rw [rxdata_on_ip cs ip _ _ p rfl (hm _) hip (by dsimp only; omega)]
  rw [rxdata_on, switch_ip_space cs _ p rfl]
  simp only [Bool.false_eq_true, if_false]
  rw [rxdata_on_port cs port _ _ p rfl (hm _) hport (by dsimp only; omega)]
  rw [rxdata_on, switch_port_tab cs _ p rfl]
  simp only [Bool.false_eq_true, if_false]
  rw [rxdata_on_payload cs payload _ _ p rfl (hm _) hpay (by dsimp only; omega)]
  rw [rxdata_on, switch_payload_esc cs _ _ rfl]
  simp only [Bool.false_eq_true, if_false]
  rw [rxdata_on, switch_finish cs b _ _ rfl]
  simp only [if_true]
  cases s
  dsimp only at ht ⊢
  simp only [HARDWARE_BUFSIZE] at ht
  simp only [Prod.mk.injEq, GS.mk.injEq, true_and, and_true, Nat.zero_add, HARDWARE_BUFSIZE]
  omega

/-! ## Stored texts -/

theorem store_list_lt (l : List Nat) : ∀ (a : Nat → Nat) (i j : Nat), j < i →
    store_list a i l j = a j := by
  induction l with
  | nil => intro a i j _; rfl
  | cons x xs ih =>
    intro a i j h
    rw [store_list, ih _ _ _ (by omega)]
    simp only [store]
    rw [if_neg (by omega)]

theorem store_list_get (l : List Nat) : ∀ (a : Nat → Nat) (i k : Nat) (h : k < l.length),
    store_list a i l (i + k) = l[k] := by
  induction l with
  | nil => intro a i k h; simp at h
  | cons x xs ih =>
    intro a i k h
    cases k with
    | zero =>
      rw [store_list, Nat.add_zero, store_list_lt _ _ _ _ (by omega)]
      simp [store]
    | succ k =>
      have := ih (store a i x) (i + 1) k (by simpa using h)
      rw [store_list, show i + (k + 1) = i + 1 + k by omega, this]
      simp

theorem takeWhile_map_range' (f : Nat → Nat) (l : List Nat) : ∀ (s m : Nat),
    (∀ k (h : k < l.length), f (s + k) = l[k]) → f (s + l.length) = 0 → l.length < m →
    (∀ x ∈ l, x ≠ 0) →
    ((List.range' s m).map f).takeWhile (fun b => b != 0) = l := by
  induction l with
  | nil =>
    intro s m _ h0 hm _
    cases m with
    | zero => simp at hm
    | succ m =>
      simp only [List.length_nil, Nat.add_zero] at h0
      simp [List.range'_succ, h0]
  | cons x xs ih =>
    intro s m hf h0 hm hnz
    cases m with
    | zero => simp at hm
    | succ m =>
      have hx : f s = x := by simpa using hf 0 (by simp)
      have hxz : x ≠ 0 := hnz x (List.mem_cons_self x xs)
      have := ih (s + 1) m
        (fun k h => by
          have := hf (k + 1) (by simpa using h)
          simpa [Nat.add_assoc, Nat.add_comm 1 k] using this)
        (by simpa [Nat.add_assoc, Nat.add_comm 1] using h0)
        (by simpa using hm)
        (fun y hy => hnz y (List.mem_cons_of_mem x hy))
      simp [List.range'_succ, hx, hxz, this]

/-- An array that holds the non-zero bytes of `l` followed by a NUL, with `l`
shorter than the array, holds the C string `l`. -/
theorem cstring_of_text (a : Nat → Nat) (l : List Nat)
    (hl : l.length < HARDWARE_BUFSIZESML) (hnz : ∀ x ∈ l, x ≠ 0)
    (ha : ∀ k (h : k < l.length), a k = l[k]) (h0 : a l.length = 0) :
    cstring a = l := by
  simp only [cstring, array_bytes, List.range_eq_range']
  exact takeWhile_map_range' a l 0 _ (fun k h => by simpa using ha k h) (by simpa using h0)
    hl hnz

theorem cstring_store_list (a : Nat → Nat) (l : List Nat)
    (hl : l.length < HARDWARE_BUFSIZESML) (hnz : ∀ x ∈ l, x ≠ 0) :
    cstring (store (store_list a 0 l) l.length 0) = l := by
  apply cstring_of_text _ l hl hnz
  · intro k h
    have := store_list_get l a 0 k h
    simp only [Nat.zero_add] at this
    simp only [store]
    rw [if_neg (by omega), this]
  · simp [store]

theorem char_ge_space_ne_zero (cs : Bool) (x : Nat) (h : char_ge_space cs x = true) : x ≠ 0 := by
  intro hx
  subst hx
  cases cs <;> simp [char_ge_space] at h

theorem char_ge_space_of_le (cs : Bool) (x : Nat) (h : 32 ≤ x) (h7 : cs = true → x < 128) :
    char_ge_space cs x = true := by
  cases cs
  · simp [char_ge_space, h]
  · simp [char_ge_space, h, h7 rfl]

/-- The decoder on a channel that holds exactly one inbound frame, the field
bytes being those the `switch` stores. -/
theorem gainspan_RXdata_frame (cs : Bool) (fuel : Nat) (s : GS) (p : Nat → Nat) (c b : Nat)
    (ip port payload : List Nat)
    (hidle : s.gainspan_rxesc_data = 0)
    (ht : s.gainspan_tail_rx < HARDWARE_BUFSIZE) (hh : s.gainspan_head_rx < HARDWARE_BUFSIZE)
    (hrx : rx_unread s = inbound_frame 117 c ip port payload b)
    (hipl : ip.length ≤ 31) (hportl : port.length ≤ 31) (hpayl : payload.length ≤ 31)
    (hip1 : ∀ x ∈ ip, x ≠ 27 ∧ x ≠ 32 ∧ char_ge_space cs x = true)
    (hport1 : ∀ x ∈ port, x ≠ 27 ∧ x ≠ 9 ∧ char_ge_space cs x = true)
    (hpay1 : ∀ x ∈ payload, x ≠ 27 ∧ char_ge_space cs x = true)
    (hf : rx_count s ≤ fuel) :
    ∃ s1 p1, gainspan_RXdata cs fuel s p = some (true, s1, p1) ∧
      s1.gainspan_rxesc_cid = c ∧
      cstring s1.gainspan_param_module_ip = ip ∧
      cstring s1.gainspan_param_module_port = port ∧
      cstring p1 = payload ∧
      s1.gainspan_tail_rx = s.gainspan_head_rx ∧
      s1.gainspan_rxesc_data = 0 := by
  have hlen : rx_count s = ip.length + port.length + payload.length + 7 := by
    rw [← rx_unread_length, hrx]
    simp only [inbound_frame, List.length_append, List.length_cons, List.length_nil]
    omega
  rw [gainspan_RXdata_eq cs fuel s p ht hh hf, hrx, inbound_frame,
    rxdata_on_frame cs c b ip port payload s p hidle ht hip1 hport1 hpay1 hipl hportl hpayl]
  refine ⟨_, _, rfl, rfl, ?_, ?_, ?_, ?_, rfl⟩
  · exact cstring_store_list _ ip (by simp only [HARDWARE_BUFSIZESML]; omega)
      (fun x hx => char_ge_space_ne_zero cs x (hip1 x hx).2.2)
  · exact cstring_store_list _ port (by simp only [HARDWARE_BUFSIZESML]; omega)
      (fun x hx => char_ge_space_ne_zero cs x (hport1 x hx).2.2)
  · exact cstring_store_list _ payload (by simp only [HARDWARE_BUFSIZESML]; omega)
      (fun x hx => char_ge_space_ne_zero cs x (hpay1 x hx).2)
  · dsimp only
    rw [← hlen]
    simp only [rx_count, HARDWARE_BUFSIZE] at *
    omega

/-! ## C1: decoding one inbound frame -/

/-- C1 as stated fails: the spec's frame
`ESC 'U' '0' "10.0.0.5" SP "9000" TAB "ping" ESC 'E'`, alone in the RX channel of
an Idle decoder, is not reported (`gainspan_RXdata` returns false), whichever
the signedness of `char`: the decoder's start tag is the lower-case `'u'`. -/
theorem frame_upper_tag_counterexample :
    (gainspan_RXdata false 250 (rx_loaded (inbound_frame 85 48 txt_ip txt_port txt_ping 69) 0)
      (fun _ => 0)).map (fun r => r.1) = some false ∧
    (gainspan_RXdata true 250 (rx_loaded (inbound_frame 85 48 txt_ip txt_port txt_ping 69) 0)
      (fun _ => 0)).map (fun r => r.1) = some false := by
  decide

/-- C1 (amended, start tag `'u'`): for every CID byte `c`, every IP text of at
most 31 bytes each > 0x20, every port text and payload of at most 31 bytes each
>= 0x20 (bytes below 0x80 where plain `char` is signed) and every final byte
`b`, if the decoder is Idle and the RX channel holds exactly
`ESC 'u' c ip SP port TAB payload ESC b`, then `gainspan_RXdata` returns true
with CID `c`, IP text `ip`, port text `port` and the NUL-terminated payload in
`param`, has consumed the whole frame (tail = head) and is Idle again.  None of
the delivered values depends on `b`. -/
theorem frame_decoded (cs : Bool) (fuel : Nat) (s : GS) (p : Nat → Nat) (c b : Nat)
    (ip port payload : List Nat)
    (hidle : s.gainspan_rxesc_data = 0)
    (ht : s.gainspan_tail_rx < HARDWARE_BUFSIZE) (hh : s.gainspan_head_rx < HARDWARE_BUFSIZE)
    (hrx : rx_unread s = inbound_frame 117 c ip port payload b)
    (hipl : ip.length ≤ 31) (hportl : port.length ≤ 31) (hpayl : payload.length ≤ 31)
    (hip : ∀ x ∈ ip, 32 < x ∧ (cs = true → x < 128))
    (hport : ∀ x ∈ port, 32 ≤ x ∧ (cs = true → x < 128))
    (hpay : ∀ x ∈ payload, 32 ≤ x ∧ (cs = true → x < 128))
    (hf : rx_count s ≤ fuel) :
    ∃ s1 p1, gainspan_RXdata cs fuel s p = some (true, s1, p1) ∧
      s1.gainspan_rxesc_cid = c ∧
      cstring s1.gainspan_param_module_ip = ip ∧
      cstring s1.gainspan_param_module_port = port ∧
      cstring p1 = payload ∧
      s1.gainspan_tail_rx = s.gainspan_head_rx ∧
      s1.gainspan_rxesc_data = 0 := by
  have hip1 : ∀ x ∈ ip, x ≠ 27 ∧ x ≠ 32 ∧ char_ge_space cs x = true := fun x hx =>
    ⟨by have := (hip x hx).1; omega, by have := (hip x hx).1; omega,
      char_ge_space_of_le cs x (by have := (hip x hx).1; omega) (hip x hx).2⟩
  have hport1 : ∀ x ∈ port, x ≠ 27 ∧ x ≠ 9 ∧ char_ge_space cs x = true := fun x hx =>
    ⟨by have := (hport x hx).1; omega, by have := (hport x hx).1; omega,
      char_ge_space_of_le cs x (hport x hx).1 (hport x hx).2⟩
  have hpay1 : ∀ x ∈ payload, x ≠ 27 ∧ char_ge_space cs x = true := fun x hx =>
    ⟨by have := (hpay x hx).1; omega, char_ge_space_of_le cs x (hpay x hx).1 (hpay x hx).2⟩
  exact gainspan_RXdata_frame cs fuel s p c b ip port payload hidle ht hh hrx hipl hportl hpayl
    hip1 hport1 hpay1 hf

/-- C1 (amended) at the spec's frame with the tag `'u'`:
`ESC 'u' '0' "10.0.0.5" SP "9000" TAB "ping" ESC 'E'`. -/
theorem frame_decoded_witness :
    ∃ s1 p1, gainspan_RXdata false 250
        (rx_loaded (inbound_frame 117 48 txt_ip txt_port txt_ping 69) 0) (fun _ => 0)
        = some (true, s1, p1) ∧
      s1.gainspan_rxesc_cid = 48 ∧
      cstring s1.gainspan_param_module_ip = txt_ip ∧
      cstring s1.gainspan_param_module_port = txt_port ∧
      cstring p1 = txt_ping ∧
      s1.gainspan_tail_rx
        = (rx_loaded (inbound_frame 117 48 txt_ip txt_port txt_ping 69) 0).gainspan_head_rx ∧
      s1.gainspan_rxesc_data = 0 :=
  frame_decoded false 250 (rx_loaded (inbound_frame 117 48 txt_ip txt_port txt_ping 69) 0)
    (fun _ => 0) 48 69 txt_ip txt_port txt_ping (by decide) (by decide) (by decide)
    (by decide) (by decide) (by decide) (by decide) (by decide) (by decide) (by decide)
    (by decide)

/-! ## Encoder lemmas (`gainspan_TXparam`, `gainspan_TXdata`) -/

theorem gainspan_TXchar_endpoint (b : Nat) (s : GS) :
    (gainspan_TXchar b s).gainspan_rxesc_cid = s.gainspan_rxesc_cid ∧
    (gainspan_TXchar b s).gainspan_param_module_ip = s.gainspan_param_module_ip ∧
    (gainspan_TXchar b s).gainspan_param_module_port = s.gainspan_param_module_port := by
  simp only [gainspan_TXchar]
  split_ifs <;> exact ⟨rfl, rfl, rfl⟩

theorem push_all_endpoint (bs : List Nat) : ∀ s : GS,
    (push_all bs s).gainspan_rxesc_cid = s.gainspan_rxesc_cid ∧
    (push_all bs s).gainspan_param_module_ip = s.gainspan_param_module_ip ∧
    (push_all bs s).gainspan_param_module_port = s.gainspan_param_module_port := by
  induction bs with
  | nil => intro s; exact ⟨rfl, rfl, rfl⟩
  | cons b rest ih =>
    intro s
    have e : push_all (b :: rest) s = push_all rest (gainspan_TXchar b s) := rfl
    have h1 := ih (gainspan_TXchar b s)
    have h2 := gainspan_TXchar_endpoint b s
    rw [e, h1.1, h1.2.1, h1.2.2]
    exact h2

theorem push_all_append (a b : List Nat) (s : GS) :
    push_all (a ++ b) s = push_all b (push_all a s) := by
  simp [push_all, List.foldl_append]

theorem gainspan_TXparam_loop_cons (ch : Nat) (rest : List Nat) (i : Nat) (s : GS) :
    gainspan_TXparam_loop (ch :: rest) i s =
      if ch ≠ 0 ∧ i ≤ HARDWARE_BUFSIZE
      then gainspan_TXparam_loop rest (i + 1) (gainspan_TXchar ch s) else s := rfl

/-- `gainspan_TXparam` pushes the bytes before the first NUL, as long as there
are at most 250 of them. -/
theorem gainspan_TXparam_loop_eq (l : List Nat) : ∀ (i : Nat) (s : GS),
    i + (l.takeWhile (fun b => b != 0)).length ≤ HARDWARE_BUFSIZE + 1 →
    gainspan_TXparam_loop l i s = push_all (l.takeWhile (fun b => b != 0)) s := by
  induction l with
  | nil => intro i s _; rfl
  | cons ch rest ih =>
    intro i s h
    rw [gainspan_TXparam_loop_cons]
    by_cases hz : ch = 0
    · simp [hz, push_all]
    · have e : List.takeWhile (fun b => b != 0) (ch :: rest)
          = ch :: List.takeWhile (fun b => b != 0) rest := by
        simp [List.takeWhile_cons, hz]
      rw [e] at h ⊢
      simp only [List.length_cons] at h
      have hi : i ≤ HARDWARE_BUFSIZE := by omega
      rw [if_pos ⟨hz, hi⟩, ih (i + 1) _ (by omega)]
      rfl

theorem gainspan_TXparam_eq (l : List Nat) (s : GS)
    (h : (l.takeWhile (fun b => b != 0)).length ≤ HARDWARE_BUFSIZE) :
    gainspan_TXparam l s = push_all (l.takeWhile (fun b => b != 0)) s :=
  gainspan_TXparam_loop_eq l 1 s (by omega)

theorem takeWhile_length_le (q : Nat → Bool) (l : List Nat) :
    (l.takeWhile q).length ≤ l.length := by
  induction l with
  | nil => simp
  | cons x xs ih =>
    rw [List.takeWhile_cons]
    split
    · simp only [List.length_cons]; omega
    · simp

theorem cstring_length_le (a : Nat → Nat) : (cstring a).length ≤ HARDWARE_BUFSIZESML := by
  have := takeWhile_length_le (fun b => b != 0) (array_bytes a)
  simpa [cstring, array_bytes] using this

theorem takeWhile_append_of_short (q : Nat → Bool) (l1 l2 : List Nat)
    (h : (l1.takeWhile q).length < l1.length) :
    (l1 ++ l2).takeWhile q = l1.takeWhile q := by
  induction l1 with
  | nil => simp at h
  | cons x xs ih =>
    rw [List.cons_append, List.takeWhile_cons, List.takeWhile_cons]
    rw [List.takeWhile_cons] at h
    by_cases hq : q x = true
    · rw [if_pos hq] at h ⊢
      rw [if_pos hq, ih (by simpa using h)]
    · rw [if_neg hq, if_neg hq]

theorem pointer_bytes_split (a : Nat → Nat) :
    pointer_bytes a = array_bytes a
      ++ (List.range' HARDWARE_BUFSIZESML (HARDWARE_BUFSIZE + 1 - HARDWARE_BUFSIZESML)).map a := by
  have e : List.range (HARDWARE_BUFSIZE + 1) = List.range HARDWARE_BUFSIZESML
      ++ List.range' HARDWARE_BUFSIZESML (HARDWARE_BUFSIZE + 1 - HARDWARE_BUFSIZESML) := by
    rw [List.range_eq_range', List.range_eq_range']
    have := @List.range'_append 0 HARDWARE_BUFSIZESML
      (HARDWARE_BUFSIZE + 1 - HARDWARE_BUFSIZESML) 1
    simp only [Nat.one_mul, Nat.zero_add] at this
    have e2 : HARDWARE_BUFSIZE + 1 - HARDWARE_BUFSIZESML + HARDWARE_BUFSIZESML
        = HARDWARE_BUFSIZE + 1 := by decide
    rw [this, e2]
  rw [pointer_bytes, array_bytes, e, List.map_append]

/-- A parameter array that holds a NUL within its 32 bytes is sent as the C
string it holds. -/
theorem pointer_text_terminated (a : Nat → Nat)
    (h : (cstring a).length < HARDWARE_BUFSIZESML) :
    (pointer_bytes a).takeWhile (fun b => b != 0) = cstring a := by
  rw [pointer_bytes_split]
  exact takeWhile_append_of_short _ _ _ (by simpa [cstring, array_bytes] using h)

/-- `gainspan_TXdata` pushes the outbound frame built from the stored endpoint,
when each of the endpoint arrays holds a NUL within its 32 bytes. -/
theorem gainspan_TXdata_eq (buf : List Nat) (s : GS)
    (hipz : (cstring s.gainspan_param_module_ip).length < HARDWARE_BUFSIZESML)
    (hportz : (cstring s.gainspan_param_module_port).length < HARDWARE_BUFSIZESML)
    (h : (buf.takeWhile (fun b => b != 0)).length ≤ HARDWARE_BUFSIZE) :
    gainspan_TXdata buf s = push_all (outbound_frame s.gainspan_rxesc_cid
      (cstring s.gainspan_param_module_ip) (cstring s.gainspan_param_module_port)
      (buf.takeWhile (fun b => b != 0))) s := by
  have hip := cstring_length_le s.gainspan_param_module_ip
  have hport := cstring_length_le s.gainspan_param_module_port
  have tip := pointer_text_terminated _ hipz
  have tport := pointer_text_terminated _ hportz
  have e1 : ∀ (b : Nat) (t : GS), gainspan_TXchar b t = push_all [b] t := fun _ _ => rfl
  have hsml : HARDWARE_BUFSIZESML ≤ HARDWARE_BUFSIZE := by decide
  simp only [gainspan_TXdata, outbound_frame, push_all_append]
  simp only [e1]
  have c1 : (push_all [85] (push_all [27] s)).gainspan_rxesc_cid = s.gainspan_rxesc_cid := by
    rw [(push_all_endpoint _ _).1, (push_all_endpoint _ _).1]
  have c2 : (push_all [(push_all [85] (push_all [27] s)).gainspan_rxesc_cid]
      (push_all [85] (push_all [27] s))).gainspan_param_module_ip
      = s.gainspan_param_module_ip := by
    rw [(push_all_endpoint _ _).2.1, (push_all_endpoint _ _).2.1, (push_all_endpoint _ _).2.1]
  rw [c2, c1]
  rw [gainspan_TXparam_eq (pointer_bytes s.gainspan_param_module_ip) _
    (by rw [tip]; exact Nat.le_trans hip hsml), tip]
  have c3 : (push_all [58] (push_all (cstring s.gainspan_param_module_ip)
      (push_all [s.gainspan_rxesc_cid] (push_all [85] (push_all [27] s))))).gainspan_param_module_port
      = s.gainspan_param_module_port := by
    simp only [(push_all_endpoint _ _).2.2]
  rw [c3]
  rw [gainspan_TXparam_eq (pointer_bytes s.gainspan_param_module_port) _
    (by rw [tport]; exact Nat.le_trans hport hsml), tport]
  rw [gainspan_TXparam_eq buf _ h]
  simp only [push_all, List.foldl_append, List.foldl_cons, List.foldl_nil]

theorem gainspan_TXchar_tail (b : Nat) (s : GS)
    (hh : s.gainspan_head_tx < HARDWARE_BUFSIZE) (ht : s.gainspan_tail_tx < HARDWARE_BUFSIZE)
    (hc : tx_count s < 249) :
    (gainspan_TXchar b s).gainspan_tail_tx = s.gainspan_tail_tx := by
  rw [gainspan_TXchar_eq b s hh ht]
  simp only [tx_count, HARDWARE_BUFSIZE] at *
  split_ifs <;> omega

theorem push_all_tail (bs : List Nat) : ∀ (s : GS),
    s.gainspan_head_tx < HARDWARE_BUFSIZE → s.gainspan_tail_tx < HARDWARE_BUFSIZE →
    tx_count s + bs.length ≤ 249 →
    (push_all bs s).gainspan_tail_tx = s.gainspan_tail_tx := by
  induction bs with
  | nil => intro s _ _ _; rfl
  | cons b rest ih =>
    intro s hh ht hc
    simp only [List.length_cons] at hc
    have e : push_all (b :: rest) s = push_all rest (gainspan_TXchar b s) := rfl
    have hi := gainspan_TXchar_idx b s hh ht
    have hcnt := tx_count_TXchar b s hh ht
    rw [e, ih _ hi.1 hi.2 (by omega), gainspan_TXchar_tail b s hh ht (by omega)]

/-! ## C8: the bytes written by `send_udp` -/

/-- C8: for every payload and stored endpoint (IP and port texts NUL-terminated
in their arrays) whose total encoded length is below the channel capacity,
`gainspan_TXdata(payload)` on an empty TX channel leaves as unread content
exactly ESC, 'U', the last-known CID byte, the stored IP text, ':', the stored
port text, ':', the payload bytes up to its NUL, ESC, 'E', in that order; the
tail has not moved, so nothing else was appended and nothing evicted. -/
theorem send_udp_bytes (payload : List Nat) (s : GS)
    (hempty : s.gainspan_head_tx = s.gainspan_tail_tx)
    (hh : s.gainspan_head_tx < HARDWARE_BUFSIZE)
    (hipz : (cstring s.gainspan_param_module_ip).length < HARDWARE_BUFSIZESML)
    (hportz : (cstring s.gainspan_param_module_port).length < HARDWARE_BUFSIZESML)
    (hlen : (outbound_frame s.gainspan_rxesc_cid (cstring s.gainspan_param_module_ip)
      (cstring s.gainspan_param_module_port) (payload.takeWhile (fun b => b != 0))).length
        < HARDWARE_BUFSIZE) :
    tx_unread (gainspan_TXdata payload s)
      = outbound_frame s.gainspan_rxesc_cid (cstring s.gainspan_param_module_ip)
          (cstring s.gainspan_param_module_port) (payload.takeWhile (fun b => b != 0)) ∧
    (gainspan_TXdata payload s).gainspan_tail_tx = s.gainspan_tail_tx := by
  have ht : s.gainspan_tail_tx < HARDWARE_BUFSIZE := by rw [← hempty]; exact hh
  have hc : tx_count s = 0 := by
    simp only [tx_count, HARDWARE_BUFSIZE, hempty] at *; omega
  have hu : tx_unread s = [] := by simp [tx_unread, hc, ring_read]
  have hp : (payload.takeWhile (fun b => b != 0)).length ≤ HARDWARE_BUFSIZE := by
    simp only [outbound_frame, List.length_append, List.length_cons, List.length_nil] at hlen
    omega
  simp only [HARDWARE_BUFSIZE] at hlen
  rw [gainspan_TXdata_eq payload s hipz hportz hp]
  constructor
  · rw [tx_unread_push_all _ s hh ht, hc, hu, List.nil_append, Nat.zero_add,
      show ∀ n, n < 250 → n - 249 = 0 from fun n h => by omega, List.drop_zero]
    exact hlen
  · exact push_all_tail _ s hh ht (by rw [hc]; omega)

/-- C8 at a concrete input: payload `"X"`, CID `'0'`, IP `"10.0.0.5"`, port
`"9000"`. -/
theorem send_udp_bytes_witness :
    tx_unread (gainspan_TXdata [88] (with_endpoint 48 txt_ip txt_port))
      = [27, 85, 48] ++ txt_ip ++ [58] ++ txt_port ++ [58] ++ [88] ++ [27, 69] ∧
    (gainspan_TXdata [88] (with_endpoint 48 txt_ip txt_port)).gainspan_tail_tx = 0 :=
  send_udp_bytes [88] (with_endpoint 48 txt_ip txt_port) (by decide) (by decide) (by decide)
    (by decide) (by decide)

theorem set_append_add (a l : List Nat) (k v : Nat) :
    (a ++ l).set (a.length + k) v = a ++ l.set k v := by
  induction a with
  | nil => simp
  | cons x xs ih =>
    rw [List.cons_append, List.length_cons, show xs.length + 1 + k = (xs.length + k) + 1 by omega,
      List.set_cons_succ, ih, List.cons_append]

theorem to_inbound_outbound (c : Nat) (ip port pl : List Nat) :
    to_inbound ip.length port.length (outbound_frame c ip port pl)
      = inbound_frame 85 c ip port pl 69 := by
  have e : outbound_frame c ip port pl
      = [27, 85, c] ++ (ip ++ (58 :: (port ++ (58 :: (pl ++ [27, 69]))))) := by
    simp [outbound_frame]
  have e2 : inbound_frame 85 c ip port pl 69
      = [27, 85, c] ++ (ip ++ (32 :: (port ++ (9 :: (pl ++ [27, 69]))))) := by
    simp [inbound_frame]
  rw [e, e2, to_inbound]
  have h1 := set_append_add [27, 85, c] (ip ++ (58 :: (port ++ (58 :: (pl ++ [27, 69])))))
    (ip.length + 0) 32
  have h2 := set_append_add ip (58 :: (port ++ (58 :: (pl ++ [27, 69])))) 0 32
  rw [h2] at h1
  simp only [List.length_cons, List.length_nil, Nat.add_zero, List.set_cons_zero] at h1
  rw [h1]
  have h3 := set_append_add [27, 85, c] (ip ++ (32 :: (port ++ (58 :: (pl ++ [27, 69])))))
    (ip.length + (port.length + 1)) 9
  have h4 := set_append_add ip (32 :: (port ++ (58 :: (pl ++ [27, 69])))) (port.length + 1) 9
  have h5 := set_append_add port (58 :: (pl ++ [27, 69])) 0 9
  simp only [List.set_cons_succ] at h4
  simp only [Nat.add_zero, List.set_cons_zero] at h5
  rw [h5] at h4
  rw [h4] at h3
  simp only [List.length_cons, List.length_nil] at h3
  rw [show 4 + ip.length + port.length = 0 + 1 + 1 + 1 + (ip.length + (port.length + 1)) by omega,
    h3]

theorem set_tag_inbound (tag tag1 c b : Nat) (ip port pl : List Nat) :
    (inbound_frame tag c ip port pl b).set 1 tag1 = inbound_frame tag1 c ip port pl b := by
  simp [inbound_frame]

/-! ## C2: encoder/decoder round trip -/

/-- C2 as stated fails at the spec's witness: the bytes `gainspan_TXdata("X")`
emits for the endpoint CID `'0'`, `"10.0.0.5"`, `"9000"`, with the first `':'`
replaced by SPACE and the second by TAB, fed to an Idle decoder, are not
reported as a frame (`gainspan_RXdata` returns false): the encoder writes the
tag `'U'`, the decoder accepts only `'u'`. -/
theorem round_trip_counterexample :
    (gainspan_RXdata false 250
      (rx_loaded (to_inbound txt_ip.length txt_port.length
        (tx_unread (gainspan_TXdata [88] (with_endpoint 48 txt_ip txt_port)))) 0)
      (fun _ => 0)).map (fun r => r.1) = some false ∧
    (gainspan_RXdata true 250
      (rx_loaded (to_inbound txt_ip.length txt_port.length
        (tx_unread (gainspan_TXdata [88] (with_endpoint 48 txt_ip txt_port)))) 0)
      (fun _ => 0)).map (fun r => r.1) = some false := by
  decide

/-- C2 (amended): for every payload of 1 to 31 printable bytes (0x20..0x7E) and
every stored endpoint as the decoder stores one (IP text of bytes > 0x20, port
text of bytes >= 0x20, each NUL-terminated in its array; bytes below 0x80 where
plain `char` is signed), take the bytes `gainspan_TXdata(payload)` appends to an
empty TX channel, replace the first `':'` separator by SPACE, the second by TAB
and the start tag `'U'` by `'u'`, and let them be the content of the RX channel
of an Idle decoder: `gainspan_RXdata` reports a frame whose payload is the
original payload and whose CID, IP and port are those of the endpoint. -/
theorem round_trip (cs : Bool) (fuel : Nat) (payload : List Nat) (s r : GS) (p : Nat → Nat)
    (hempty : s.gainspan_head_tx = s.gainspan_tail_tx)
    (hh : s.gainspan_head_tx < HARDWARE_BUFSIZE)
    (hipz : (cstring s.gainspan_param_module_ip).length < HARDWARE_BUFSIZESML)
    (hportz : (cstring s.gainspan_param_module_port).length < HARDWARE_BUFSIZESML)
    (hip : ∀ x ∈ cstring s.gainspan_param_module_ip, 32 < x ∧ (cs = true → x < 128))
    (hport : ∀ x ∈ cstring s.gainspan_param_module_port, 32 ≤ x ∧ (cs = true → x < 128))
    (hpl : 1 ≤ payload.length ∧ payload.length ≤ 31)
    (hpay : ∀ x ∈ payload, 32 ≤ x ∧ x < 127)
    (hidle : r.gainspan_rxesc_data = 0)
    (hrt : r.gainspan_tail_rx < HARDWARE_BUFSIZE) (hrh : r.gainspan_head_rx < HARDWARE_BUFSIZE)
    (hrx : rx_unread r =
      (to_inbound (cstring s.gainspan_param_module_ip).length
        (cstring s.gainspan_param_module_port).length
        (tx_unread (gainspan_TXdata payload s))).set 1 117)
    (hf : rx_count r ≤ fuel) :
    ∃ r1 p1, gainspan_RXdata cs fuel r p = some (true, r1, p1) ∧
      cstring p1 = payload ∧
      r1.gainspan_rxesc_cid = s.gainspan_rxesc_cid ∧
      cstring r1.gainspan_param_module_ip = cstring s.gainspan_param_module_ip ∧
      cstring r1.gainspan_param_module_port = cstring s.gainspan_param_module_port := by
  have hpt : payload.takeWhile (fun b => b != 0) = payload := by
    rw [List.takeWhile_eq_self_iff]
    intro x hx
    have := (hpay x hx).1
    simp only [bne_iff_ne, ne_eq]
    omega
  have hipz0 := hipz
  have hportz0 := hportz
  simp only [HARDWARE_BUFSIZESML] at hipz hportz
  have hlen : (outbound_frame s.gainspan_rxesc_cid (cstring s.gainspan_param_module_ip)
      (cstring s.gainspan_param_module_port) (payload.takeWhile (fun b => b != 0))).length
        < HARDWARE_BUFSIZE := by
    rw [hpt]
    simp only [outbound_frame, List.length_append, List.length_cons, List.length_nil,
      HARDWARE_BUFSIZE]
    omega
  have htx : tx_unread (gainspan_TXdata payload s) = outbound_frame s.gainspan_rxesc_cid
      (cstring s.gainspan_param_module_ip) (cstring s.gainspan_param_module_port) payload := by
    have ht : s.gainspan_tail_tx < HARDWARE_BUFSIZE := by rw [← hempty]; exact hh
    have hc : tx_count s = 0 := by
      simp only [tx_count, HARDWARE_BUFSIZE, hempty] at *; omega
    have hu : tx_unread s = [] := by simp [tx_unread, hc, ring_read]
    have hp : (payload.takeWhile (fun b => b != 0)).length ≤ HARDWARE_BUFSIZE := by
      rw [hpt]; simp only [HARDWARE_BUFSIZE]; omega
    simp only [HARDWARE_BUFSIZE] at hlen
    rw [gainspan_TXdata_eq payload s hipz0 hportz0 hp, tx_unread_push_all _ s hh ht, hc, hu,
      List.nil_append,
      Nat.zero_add, show ∀ n, n < 250 → n - 249 = 0 from fun n h => by omega, List.drop_zero,
      hpt]
    exact hlen
  rw [htx, to_inbound_outbound, set_tag_inbound] at hrx
  obtain ⟨r1, p1, h1, h2, h3, h4, h5, _, _⟩ := gainspan_RXdata_frame cs fuel r p
    s.gainspan_rxesc_cid 69 (cstring s.gainspan_param_module_ip)
    (cstring s.gainspan_param_module_port) payload hidle hrt hrh hrx (by omega) (by omega) hpl.2
    (fun x hx => ⟨by have := (hip x hx).1; omega, by have := (hip x hx).1; omega,
      char_ge_space_of_le cs x (by have := (hip x hx).1; omega) (hip x hx).2⟩)
    (fun x hx => ⟨by have := (hport x hx).1; omega, by have := (hport x hx).1; omega,
      char_ge_space_of_le cs x (hport x hx).1 (hport x hx).2⟩)
    (fun x hx => ⟨by have := (hpay x hx).1; omega,
      char_ge_space_of_le cs x (hpay x hx).1 (fun _ => by have := (hpay x hx).2; omega)⟩)
    hf
  exact ⟨r1, p1, h1, h5, h2, h3, h4⟩

/-- C2 (amended) at the spec's witness: payload `"X"`, endpoint CID `'0'`,
`"10.0.0.5"`, `"9000"`. -/
theorem round_trip_witness :
    ∃ r1 p1, gainspan_RXdata false 250
        (rx_loaded ((to_inbound txt_ip.length txt_port.length
          (tx_unread (gainspan_TXdata [88] (with_endpoint 48 txt_ip txt_port)))).set 1 117) 0)
        (fun _ => 0) = some (true, r1, p1) ∧
      cstring p1 = [88] ∧
      r1.gainspan_rxesc_cid = 48 ∧
      cstring r1.gainspan_param_module_ip = txt_ip ∧
      cstring r1.gainspan_param_module_port = txt_port :=
  round_trip false 250 [88] (with_endpoint 48 txt_ip txt_port)
    (rx_loaded ((to_inbound txt_ip.length txt_port.length
      (tx_unread (gainspan_TXdata [88] (with_endpoint 48 txt_ip txt_port)))).set 1 117) 0)
    (fun _ => 0) (by decide) (by decide) (by decide) (by decide) (by decide) (by decide)
    (by decide) (by decide) (by decide) (by decide) (by decide) (by decide) (by decide)

/-! ## Receive path lemmas (`user_tick`, GainSpan branch) -/

theorem user_tick_gainspan_some (b : Nat) (s : GS)
    (hh : s.gainspan_head_rx < HARDWARE_BUFSIZE) :
    (user_tick_gainspan (some b) s).gainspan_buf_rx = store s.gainspan_buf_rx s.gainspan_head_rx b ∧
    (user_tick_gainspan (some b) s).gainspan_head_rx = (s.gainspan_head_rx + 1) % HARDWARE_BUFSIZE ∧
    (user_tick_gainspan (some b) s).gainspan_tail_rx = s.gainspan_tail_rx ∧
    (user_tick_gainspan (some b) s).gainspan_rxcr
      = (if b = 13 then inc8 s.gainspan_rxcr else s.gainspan_rxcr) ∧
    (user_tick_gainspan (some b) s).gainspan_rxesc_data = s.gainspan_rxesc_data := by
  cases s
  simp only [HARDWARE_BUFSIZE] at hh
  simp only [user_tick_gainspan, inc8, HARDWARE_BUFSIZE, ge_iff_le]
  split_ifs <;> dsimp only at * <;> (try simp only [true_and, and_true]) <;> (try omega)

theorem rx_count_le (s : GS) : rx_count s ≤ 249 := by
  simp only [rx_count, HARDWARE_BUFSIZE]; omega

theorem rx_unread_receive (b : Nat) (s : GS)
    (hh : s.gainspan_head_rx < HARDWARE_BUFSIZE) (ht : s.gainspan_tail_rx < HARDWARE_BUFSIZE) :
    rx_unread (user_tick_gainspan (some b) s)
      = if rx_count s < 249 then rx_unread s ++ [b] else [] := by
  obtain ⟨h1, h2, h3, _, _⟩ := user_tick_gainspan_some b s hh
  simp only [rx_unread, rx_count, h1, h2, h3]
  simp only [HARDWARE_BUFSIZE] at hh ht
  by_cases hc : (s.gainspan_head_rx + HARDWARE_BUFSIZE - s.gainspan_tail_rx) % HARDWARE_BUFSIZE
      < 249
  · rw [if_pos hc]
    simp only [HARDWARE_BUFSIZE] at hc
    have e1 : ((s.gainspan_head_rx + 1) % HARDWARE_BUFSIZE + HARDWARE_BUFSIZE
        - s.gainspan_tail_rx) % HARDWARE_BUFSIZE
        = (s.gainspan_head_rx + HARDWARE_BUFSIZE - s.gainspan_tail_rx) % HARDWARE_BUFSIZE + 1 := by
      simp only [HARDWARE_BUFSIZE]; omega
    have e3 : (s.gainspan_tail_rx
        + (s.gainspan_head_rx + HARDWARE_BUFSIZE - s.gainspan_tail_rx) % HARDWARE_BUFSIZE)
        % HARDWARE_BUFSIZE = s.gainspan_head_rx := by
      simp only [HARDWARE_BUFSIZE]; omega
    rw [e1, ring_read_snoc, e3, ring_read_store]
    · simp [store]
    · intro j hj
      simp only [HARDWARE_BUFSIZE] at hj ⊢; omega
  · rw [if_neg hc]
    simp only [HARDWARE_BUFSIZE] at hc
    have e1 : ((s.gainspan_head_rx + 1) % HARDWARE_BUFSIZE + HARDWARE_BUFSIZE
        - s.gainspan_tail_rx) % HARDWARE_BUFSIZE = 0 := by
      simp only [HARDWARE_BUFSIZE]; omega
    rw [e1]
    rfl

/-! ## A stream without SPACE never leaves the IP field -/

theorem switch_no_space (cs : Bool) (ch : Nat) (s : GS) (p : Nat → Nat)
    (hch : ch ≠ 32)
    (hs : s.gainspan_rxesc_data ≠ 4 ∧ s.gainspan_rxesc_data ≠ 5 ∧ s.gainspan_rxesc_data ≠ 6) :
    (gainspan_RXdata_switch cs ch s p).1 = false ∧
    (gainspan_RXdata_switch cs ch s p).2.1.gainspan_rxesc_data ≠ 4 ∧
    (gainspan_RXdata_switch cs ch s p).2.1.gainspan_rxesc_data ≠ 5 ∧
    (gainspan_RXdata_switch cs ch s p).2.1.gainspan_rxesc_data ≠ 6 := by
  simp only [gainspan_RXdata_switch]
  split <;> rename_i h
  · split_ifs <;> simp [h, inc8]
  · split_ifs <;> simp [h, inc8]
  · simp [h, inc8]
  · split_ifs <;> simp_all [inc8]
  · exact absurd h hs.1
  · exact absurd h hs.2.1
  · exact absurd h hs.2.2
  · simp

theorem rxdata_on_no_space (cs : Bool) (l : List Nat) : ∀ (s : GS) (p : Nat → Nat),
    (∀ x ∈ l, x ≠ 32) →
    s.gainspan_rxesc_data ≠ 4 ∧ s.gainspan_rxesc_data ≠ 5 ∧ s.gainspan_rxesc_data ≠ 6 →
    s.gainspan_tail_rx < HARDWARE_BUFSIZE →
    (rxdata_on cs l s p).1 = false ∧
    ((rxdata_on cs l s p).2.1.gainspan_rxesc_data ≠ 4 ∧
     (rxdata_on cs l s p).2.1.gainspan_rxesc_data ≠ 5 ∧
     (rxdata_on cs l s p).2.1.gainspan_rxesc_data ≠ 6) ∧
    (rxdata_on cs l s p).2.1.gainspan_buf_rx = s.gainspan_buf_rx ∧
    (rxdata_on cs l s p).2.1.gainspan_head_rx = s.gainspan_head_rx ∧
    (rxdata_on cs l s p).2.1.gainspan_tail_rx
      = (s.gainspan_tail_rx + l.length) % HARDWARE_BUFSIZE := by
  induction l with
  | nil =>
    intro s p _ hs ht
    simp only [HARDWARE_BUFSIZE] at ht
    simp [rxdata_on, hs, HARDWARE_BUFSIZE, Nat.mod_eq_of_lt ht]
  | cons ch rest ih =>
    intro s p hl hs ht
    have hsw := switch_no_space cs ch
      { s with gainspan_tail_rx := (s.gainspan_tail_rx + 1) % HARDWARE_BUFSIZE } p
      (hl ch (List.mem_cons_self ch rest)) hs
    have hrx := gainspan_RXdata_switch_rx cs ch
      { s with gainspan_tail_rx := (s.gainspan_tail_rx + 1) % HARDWARE_BUFSIZE } p
    rw [rxdata_on]
    generalize gainspan_RXdata_switch cs ch
      { s with gainspan_tail_rx := (s.gainspan_tail_rx + 1) % HARDWARE_BUFSIZE } p = r at hsw hrx
    dsimp only at hrx
    simp only [hsw.1, Bool.false_eq_true, if_false]
    have := ih r.2.1 r.2.2 (fun x hx => hl x (List.mem_cons_of_mem ch hx)) hsw.2
      (by rw [hrx.2.2]; exact Nat.mod_lt _ (by decide))
    refine ⟨this.1, this.2.1, ?_, ?_, ?_⟩
    · rw [this.2.2.1, hrx.1]
    · rw [this.2.2.2.1, hrx.2.1]
    · rw [this.2.2.2.2, hrx.2.2]
      simp only [HARDWARE_BUFSIZE, List.length_cons]
      omega

theorem rx_receive_no_space (bs : List Nat) : ∀ (s : GS), (∀ b ∈ bs, b ≠ 32) →
    s.gainspan_head_rx < HARDWARE_BUFSIZE → s.gainspan_tail_rx < HARDWARE_BUFSIZE →
    (∀ x ∈ rx_unread s, x ≠ 32) →
    (rx_receive bs s).gainspan_head_rx < HARDWARE_BUFSIZE ∧
    (rx_receive bs s).gainspan_tail_rx < HARDWARE_BUFSIZE ∧
    (rx_receive bs s).gainspan_rxesc_data = s.gainspan_rxesc_data ∧
    (∀ x ∈ rx_unread (rx_receive bs s), x ≠ 32) := by
  induction bs with
  | nil => intro s _ hh ht hu; exact ⟨hh, ht, rfl, hu⟩
  | cons b rest ih =>
    intro s hb hh ht hu
    obtain ⟨_, h2, h3, _, h5⟩ := user_tick_gainspan_some b s hh
    have e : rx_receive (b :: rest) s = rx_receive rest (user_tick_gainspan (some b) s) := rfl
    have hu1 : ∀ x ∈ rx_unread (user_tick_gainspan (some b) s), x ≠ 32 := by
      rw [rx_unread_receive b s hh ht]
      split
      · intro x hx
        rcases List.mem_append.1 hx with h | h
        · exact hu x h
        · rw [List.mem_singleton.1 h]; exact hb b (List.mem_cons_self b rest)
      · intro x hx; simp at hx
    have := ih (user_tick_gainspan (some b) s) (fun x hx => hb x (List.mem_cons_of_mem b hx))
      (by rw [h2]; exact Nat.mod_lt _ (by decide)) (by rw [h3]; exact ht) hu1
    rw [e]
    exact ⟨this.1, this.2.1, by rw [this.2.2.1, h5], this.2.2.2⟩

theorem gainspan_RXdata_no_space (cs : Bool) (fuel : Nat) (s : GS) (p : Nat → Nat)
    (hf : 249 ≤ fuel)
    (hh : s.gainspan_head_rx < HARDWARE_BUFSIZE) (ht : s.gainspan_tail_rx < HARDWARE_BUFSIZE)
    (hs : s.gainspan_rxesc_data ≠ 4 ∧ s.gainspan_rxesc_data ≠ 5 ∧ s.gainspan_rxesc_data ≠ 6)
    (hu : ∀ x ∈ rx_unread s, x ≠ 32) :
    ∃ r, gainspan_RXdata cs fuel s p = some r ∧ r.1 = false ∧
      (r.2.1.gainspan_rxesc_data ≠ 4 ∧ r.2.1.gainspan_rxesc_data ≠ 5 ∧
        r.2.1.gainspan_rxesc_data ≠ 6) ∧
      r.2.1.gainspan_head_rx < HARDWARE_BUFSIZE ∧ r.2.1.gainspan_tail_rx < HARDWARE_BUFSIZE ∧
      rx_unread r.2.1 = [] := by
  have hc := rx_count_le s
  refine ⟨_, gainspan_RXdata_eq cs fuel s p ht hh (by omega), ?_⟩
  obtain ⟨h1, h2, _, h4, h5⟩ := rxdata_on_no_space cs (rx_unread s) s p hu hs ht
  refine ⟨h1, h2, by rw [h4]; exact hh, by rw [h5]; exact Nat.mod_lt _ (by decide), ?_⟩
  have hz : rx_count (rxdata_on cs (rx_unread s) s p).2.1 = 0 := by
    simp only [rx_count, h4, h5, rx_unread_length]
    simp only [rx_count, HARDWARE_BUFSIZE] at *
    omega
  show ring_read _ _ (rx_count _) = []
  rw [hz]
  rfl

theorem feed_chunks_no_space (cs : Bool) (fuel : Nat) (hf : 249 ≤ fuel)
    (chunks : List (List Nat)) : ∀ (s : GS) (p : Nat → Nat),
    (∀ c ∈ chunks, ∀ b ∈ c, b ≠ 32) →
    s.gainspan_head_rx < HARDWARE_BUFSIZE → s.gainspan_tail_rx < HARDWARE_BUFSIZE →
    (s.gainspan_rxesc_data ≠ 4 ∧ s.gainspan_rxesc_data ≠ 5 ∧ s.gainspan_rxesc_data ≠ 6) →
    (∀ x ∈ rx_unread s, x ≠ 32) →
    ∃ q, feed_chunks cs fuel chunks s p = some q ∧ q.1.length = chunks.length ∧
      ∀ x ∈ q.1, x.1 = false ∧ x.2 ≠ 4 ∧ x.2 ≠ 5 := by
  induction chunks with
  | nil => intro s p _ _ _ _ _; exact ⟨_, rfl, rfl, by simp⟩
  | cons c rest ih =>
    intro s p hns hh ht hs hu
    obtain ⟨g1, g2, g3, g4⟩ := rx_receive_no_space c s (hns c (List.mem_cons_self c rest)) hh ht hu
    obtain ⟨r, hr, r1, r2, r3, r4, r5⟩ :=
      gainspan_RXdata_no_space cs fuel (rx_receive c s) p hf g1 g2 (by rw [g3]; exact hs) g4
    obtain ⟨q, hq, q1, q2⟩ := ih r.2.1 r.2.2 (fun c1 hc1 => hns c1 (List.mem_cons_of_mem c hc1))
      r3 r4 r2 (by rw [r5]; intro x hx; simp at hx)
    refine ⟨_, by rw [feed_chunks, hr]; dsimp only; rw [hq], by simp [q1], ?_⟩
    intro x hx
    rcases List.mem_cons.1 hx with h | h
    · rw [h]; exact ⟨r1, r2.1, r2.2.1⟩
    · exact q2 x h

/-! ## C7: without a SPACE the decoder never gets past the IP field -/

/-- C7: for every byte sequence without a SPACE byte, cut into chunks in any way
and received chunk by chunk into an empty RX channel with `gainspan_RXdata`
called after each chunk (so also after each single byte), starting from an Idle
decoder: every call returns (given fuel 249), no call reports a frame, and the
decoder is never left in the ReadingPort (4) or ReadingPayload (5) state. -/
theorem no_space_no_frame (cs : Bool) (fuel : Nat) (chunks : List (List Nat)) (s : GS)
    (p : Nat → Nat)
    (hidle : s.gainspan_rxesc_data = 0)
    (hempty : s.gainspan_head_rx = s.gainspan_tail_rx)
    (hh : s.gainspan_head_rx < HARDWARE_BUFSIZE)
    (hns : ∀ c ∈ chunks, ∀ b ∈ c, b ≠ 32)
    (hf : 249 ≤ fuel) :
    ∃ q, feed_chunks cs fuel chunks s p = some q ∧ q.1.length = chunks.length ∧
      ∀ x ∈ q.1, x.1 = false ∧ x.2 ≠ 4 ∧ x.2 ≠ 5 := by
  have hc : rx_count s = 0 := by
    simp only [rx_count, HARDWARE_BUFSIZE, hempty] at *; omega
  have hu : rx_unread s = [] := by simp [rx_unread, hc, ring_read]
  exact feed_chunks_no_space cs fuel hf chunks s p hns hh (by rw [← hempty]; exact hh)
    (by rw [hidle]; decide) (by rw [hu]; intro x hx; simp at hx)

/-- C7 at a concrete input: the frame `ESC 'u' '0' "10.0" TAB "A" ESC 'E'`, which
lacks the SPACE, received in three chunks. -/
theorem no_space_no_frame_witness :
    ∃ q, feed_chunks false 250 [[27, 117, 48, 49], [48, 46, 48], [9, 65, 27, 69]] GS.init
        (fun _ => 0) = some q ∧
      q.1.length = [[27, 117, 48, 49], [48, 46, 48], [9, 65, 27, 69]].length ∧
      ∀ x ∈ q.1, x.1 = false ∧ x.2 ≠ 4 ∧ x.2 ≠ 5 :=
  no_space_no_frame false 250 [[27, 117, 48, 49], [48, 46, 48], [9, 65, 27, 69]] GS.init
    (fun _ => 0) (by decide) (by decide) (by decide) (by decide) (by decide)

/-! ## Servicing tick lemmas (`user_tick`, `user_mdelay_tick`) -/

theorem user_tick_user_views (rx : Option Nat) (s : GS) :
    rx_view (user_tick_user rx s) = rx_view s ∧ tx_view (user_tick_user rx s) = tx_view s ∧
    (user_tick_user rx s).elapsed_ms = s.elapsed_ms := by
  cases rx with
  | none => exact ⟨rfl, rfl, rfl⟩
  | some ch =>
    simp only [user_tick_user]
    split_ifs <;> exact ⟨rfl, rfl, rfl⟩

theorem user_tick_gainspan_views (rx : Option Nat) (s : GS) :
    tx_view (user_tick_gainspan rx s) = tx_view s ∧
    (user_tick_gainspan rx s).elapsed_ms = s.elapsed_ms := by
  cases rx with
  | none => exact ⟨rfl, rfl⟩
  | some ch =>
    simp only [user_tick_gainspan]
    split_ifs <;> exact ⟨rfl, rfl⟩

theorem user_tick_gainspan_rx_view (ch : Nat) (s : GS) :
    rx_view (user_tick_gainspan (some ch) s)
      = (store s.gainspan_buf_rx s.gainspan_head_rx ch,
         (if inc8 s.gainspan_head_rx ≥ HARDWARE_BUFSIZE then 0 else inc8 s.gainspan_head_rx),
         s.gainspan_tail_rx,
         (if ch = 13 then inc8 s.gainspan_rxcr else s.gainspan_rxcr)) := by
  cases s
  simp only [user_tick_gainspan, rx_view]
  split_ifs <;> rfl

theorem user_tick_gainspan_congr (rx : Option Nat) (s t : GS) (h : rx_view s = rx_view t) :
    rx_view (user_tick_gainspan rx s) = rx_view (user_tick_gainspan rx t) := by
  cases rx with
  | none => exact h
  | some ch =>
    rw [user_tick_gainspan_rx_view, user_tick_gainspan_rx_view]
    simp only [rx_view, Prod.mk.injEq] at h
    obtain ⟨h1, h2, h3, h4⟩ := h
    rw [h1, h2, h3, h4]

theorem user_tick_for_views (inp : TickInput) (n : Nat) (s : GS) :
    rx_view (user_tick_for inp n s)
      = rx_view (rx_receive ((List.range n).filterMap inp.gainspan_rx) s) ∧
    tx_view (user_tick_for inp n s) = tx_view s ∧
    (user_tick_for inp n s).elapsed_ms = s.elapsed_ms := by
  induction n with
  | zero => exact ⟨rfl, rfl, rfl⟩
  | succ n ih =>
    obtain ⟨i1, i2, i3⟩ := ih
    have hu := user_tick_user_views (inp.user_rx n) (user_tick_for inp n s)
    have hg := user_tick_gainspan_views (inp.gainspan_rx n)
      (user_tick_user (inp.user_rx n) (user_tick_for inp n s))
    refine ⟨?_, ?_, ?_⟩
    · rw [user_tick_for, List.range_succ, List.filterMap_append]
      have e : rx_receive (List.filterMap inp.gainspan_rx (List.range n)
            ++ List.filterMap inp.gainspan_rx [n]) s
          = user_tick_gainspan (inp.gainspan_rx n)
              (rx_receive (List.filterMap inp.gainspan_rx (List.range n)) s) := by
        cases hx : inp.gainspan_rx n with
        | none => simp [rx_receive, List.filterMap, hx, user_tick_gainspan]
        | some b => simp [rx_receive, List.filterMap, hx, List.foldl_append]
      rw [e]
      exact user_tick_gainspan_congr _ _ _ (hu.1.trans i1)
    · rw [user_tick_for, hg.1, hu.2.1, i2]
    · rw [user_tick_for, hg.2, hu.2.2, i3]

theorem user_tick_user_out_views (s : GS) :
    rx_view (user_tick_user_out s) = rx_view s ∧ tx_view (user_tick_user_out s) = tx_view s ∧
    (user_tick_user_out s).elapsed_ms = s.elapsed_ms := by
  simp only [user_tick_user_out]
  split_ifs <;> exact ⟨rfl, rfl, rfl⟩

theorem user_tick_gainspan_out_views (s : GS) :
    rx_view (user_tick_gainspan_out s) = rx_view s ∧
    (user_tick_gainspan_out s).elapsed_ms = s.elapsed_ms := by
  simp only [user_tick_gainspan_out]
  split_ifs <;> exact ⟨rfl, rfl⟩

/-- One polling increment `user_mdelay_tick(1)`: the RX channel receives the
bytes of the tick and one millisecond passes. -/
theorem user_mdelay_tick_one (inp : TickInput) (s : GS) :
    rx_view (user_mdelay_tick (fun _ => inp) 1 s) = rx_view (rx_receive (tick_bytes inp) s) ∧
    (user_mdelay_tick (fun _ => inp) 1 s).elapsed_ms = s.elapsed_ms + 1 := by
  have h1 := user_tick_for_views inp 10 s
  have h2 := user_tick_user_out_views (user_tick_for inp 10 s)
  have h3 := user_tick_gainspan_out_views (user_tick_user_out (user_tick_for inp 10 s))
  constructor
  · show rx_view (user_tick_gainspan_out (user_tick_user_out (user_tick_for inp 10 s))) = _
    rw [h3.1, h2.1, h1.1]
    rfl
  · show (user_tick_gainspan_out (user_tick_user_out (user_tick_for inp 10 s))).elapsed_ms + 1 = _
    rw [h3.2, h2.2.2, h1.2.2]

theorem user_tick_gainspan_out_tx_view (s : GS) :
    tx_view (user_tick_gainspan_out s)
      = if s.gainspan_head_tx ≠ s.gainspan_tail_tx then
          (s.gainspan_buf_tx, s.gainspan_head_tx,
           (if inc8 s.gainspan_tail_tx ≥ HARDWARE_BUFSIZE then 0 else inc8 s.gainspan_tail_tx),
           s.usart_gainspan_out ++ [s.gainspan_buf_tx s.gainspan_tail_tx])
        else tx_view s := by
  cases s
  simp only [user_tick_gainspan_out, tx_view]
  split_ifs <;> rfl

theorem user_tick_gainspan_out_congr (s t : GS) (h : tx_view s = tx_view t) :
    tx_view (user_tick_gainspan_out s) = tx_view (user_tick_gainspan_out t) := by
  rw [user_tick_gainspan_out_tx_view, user_tick_gainspan_out_tx_view]
  have h0 := h
  simp only [tx_view, Prod.mk.injEq] at h
  obtain ⟨h1, h2, h3, h4⟩ := h
  rw [h1, h2, h3, h4, h0]

/-- One polling increment sends the oldest unread byte of the TX channel, if
there is one. -/
theorem user_mdelay_tick_one_tx (inp : TickInput) (s : GS)
    (hh : s.gainspan_head_tx < HARDWARE_BUFSIZE) (ht : s.gainspan_tail_tx < HARDWARE_BUFSIZE) :
    (user_mdelay_tick (fun _ => inp) 1 s).gainspan_head_tx < HARDWARE_BUFSIZE ∧
    (user_mdelay_tick (fun _ => inp) 1 s).gainspan_tail_tx < HARDWARE_BUFSIZE ∧
    (user_mdelay_tick (fun _ => inp) 1 s).usart_gainspan_out
      = s.usart_gainspan_out ++ (tx_unread s).take 1 ∧
    tx_unread (user_mdelay_tick (fun _ => inp) 1 s) = (tx_unread s).drop 1 := by
  have h1 := user_tick_for_views inp 10 s
  have h2 := user_tick_user_out_views (user_tick_for inp 10 s)
  have h3 : tx_view (user_mdelay_tick (fun _ => inp) 1 s) = tx_view (user_tick_gainspan_out s) := by
    show tx_view (user_tick_gainspan_out (user_tick_user_out (user_tick_for inp 10 s))) = _
    exact user_tick_gainspan_out_congr _ _ (h2.2.1.trans h1.2.1)
  rw [user_tick_gainspan_out_tx_view] at h3
  generalize user_mdelay_tick (fun _ => inp) 1 s = s1 at h3
  simp only [HARDWARE_BUFSIZE] at hh ht
  by_cases he : s.gainspan_head_tx = s.gainspan_tail_tx
  · rw [if_neg (by simpa using he)] at h3
    simp only [tx_view, Prod.mk.injEq] at h3
    obtain ⟨e1, e2, e3, e4⟩ := h3
    have hc : tx_count s = 0 := by simp only [tx_count, HARDWARE_BUFSIZE]; omega
    have hc1 : tx_count s1 = 0 := by simp only [tx_count, HARDWARE_BUFSIZE, e2, e3]; omega
    simp only [tx_unread, hc, hc1, e2, e3, e4, HARDWARE_BUFSIZE]
    refine ⟨hh, ht, ?_, ?_⟩ <;> simp [ring_read]
  · rw [if_pos he] at h3
    simp only [tx_view, Prod.mk.injEq] at h3
    obtain ⟨e1, e2, e3, e4⟩ := h3
    have e3a : s1.gainspan_tail_tx = (s.gainspan_tail_tx + 1) % HARDWARE_BUFSIZE := by
      rw [e3]; simp only [inc8, HARDWARE_BUFSIZE]; split <;> omega
    have hc : tx_count s = tx_count s1 + 1 := by
      simp only [tx_count, HARDWARE_BUFSIZE, e2, e3a]; omega
    have hu : tx_unread s = s.gainspan_buf_tx s.gainspan_tail_tx :: tx_unread s1 := by
      simp only [tx_unread]
      rw [hc, ring_read_succ _ _ _ (by simpa [HARDWARE_BUFSIZE] using ht), e1, e3a]
    refine ⟨by rw [e2]; simpa [HARDWARE_BUFSIZE] using hh,
      by rw [e3a]; exact Nat.mod_lt _ (by decide), ?_, ?_⟩
    · rw [e4, hu]; rfl
    · rw [hu]; rfl

theorem gainspan_TXchar_views (b : Nat) (s : GS) :
    rx_view (gainspan_TXchar b s) = rx_view s ∧
    (gainspan_TXchar b s).usart_gainspan_out = s.usart_gainspan_out ∧
    (gainspan_TXchar b s).elapsed_ms = s.elapsed_ms := by
  simp only [gainspan_TXchar]
  split_ifs <;> exact ⟨rfl, rfl, rfl⟩

theorem push_all_views (bs : List Nat) : ∀ s : GS,
    rx_view (push_all bs s) = rx_view s ∧
    (push_all bs s).usart_gainspan_out = s.usart_gainspan_out ∧
    (push_all bs s).elapsed_ms = s.elapsed_ms := by
  induction bs with
  | nil => intro s; exact ⟨rfl, rfl, rfl⟩
  | cons b rest ih =>
    intro s
    have e : push_all (b :: rest) s = push_all rest (gainspan_TXchar b s) := rfl
    have h1 := ih (gainspan_TXchar b s)
    have h2 := gainspan_TXchar_views b s
    rw [e, h1.1, h1.2.1, h1.2.2]
    exact h2

theorem gainspan_TX_loop_cons (ch : Nat) (rest : List Nat) (s : GS) :
    gainspan_TX_loop (ch :: rest) s =
      if ch = 0 then s else gainspan_TX_loop rest (gainspan_TXchar ch s) := rfl

/-- `gainspan_TX` pushes the bytes before the first NUL. -/
theorem gainspan_TX_eq (l : List Nat) : ∀ (s : GS),
    gainspan_TX l s = push_all (l.takeWhile (fun b => b != 0)) s := by
  induction l with
  | nil => intro s; rfl
  | cons ch rest ih =>
    intro s
    show gainspan_TX_loop (ch :: rest) s = _
    rw [gainspan_TX_loop_cons]
    by_cases hz : ch = 0
    · simp [hz, push_all]
    · have e : List.takeWhile (fun b => b != 0) (ch :: rest)
          = ch :: List.takeWhile (fun b => b != 0) rest := by
        simp [List.takeWhile_cons, hz]
      rw [if_neg hz, e]
      exact ih (gainspan_TXchar ch s)

theorem tick_bytes_silent (inp : TickInput) (h : ∀ i, inp.gainspan_rx i = none) :
    tick_bytes inp = [] := by
  simp [tick_bytes, List.filterMap_eq_nil_iff, h]

/-- While the RX channel is empty and nothing arrives, every increment of the
loop of `gainspan_TXexecute` only waits: the loop runs out its budget. -/
theorem gainspan_TXexecute_loop_silent (cs : Bool) (fuel : Nat) (wait : Nat) :
    ∀ (env : Nat → TickInput) (s : GS) (p : Nat → Nat),
    (∀ k, tick_bytes (env k) = []) →
    s.gainspan_head_rx = s.gainspan_tail_rx →
    s.gainspan_head_tx < HARDWARE_BUFSIZE → s.gainspan_tail_tx < HARDWARE_BUFSIZE →
    ∃ s1, gainspan_TXexecute_loop cs fuel wait env s p = some (10, s1, p) ∧
      rx_view s1 = rx_view s ∧
      s1.elapsed_ms = s.elapsed_ms + wait ∧
      s1.usart_gainspan_out = s.usart_gainspan_out ++ (tx_unread s).take wait ∧
      tx_unread s1 = (tx_unread s).drop wait := by
  induction wait with
  | zero =>
    intro env s p _ _ _ _
    exact ⟨s, rfl, rfl, rfl, by simp, by simp⟩
  | succ w ih =>
    intro env s p hsil hempty hh ht
    obtain ⟨r1, r2⟩ := user_mdelay_tick_one (env 0) s
    obtain ⟨t1, t2, t3, t4⟩ := user_mdelay_tick_one_tx (env 0) s hh ht
    rw [hsil 0] at r1
    have r1a : rx_view (user_mdelay_tick (fun _ => env 0) 1 s) = rx_view s := r1
    have hv := r1a
    simp only [rx_view, Prod.mk.injEq] at hv
    obtain ⟨_, v2, v3, _⟩ := hv
    have hresp : gainspan_RXresponse (user_mdelay_tick (fun _ => env 0) 1 s) = 0 := by
      simp [gainspan_RXresponse, v2, v3, hempty]
    obtain ⟨s1, h1, h2, h3, h4, h5⟩ := ih (fun k => env (k + 1))
      (user_mdelay_tick (fun _ => env 0) 1 s) p (fun k => hsil (k + 1))
      (by rw [v2, v3]; exact hempty) t1 t2
    refine ⟨s1, ?_, h2.trans r1a, by rw [h3, r2]; omega, ?_, ?_⟩
    · rw [gainspan_TXexecute_loop]
      simp only [hresp, ne_eq, not_true_eq_false, if_false]
      exact h1
    · rw [h4, t3, t4, List.append_assoc]
      congr 1
      cases tx_unread s <;> simp
    · rw [h5, t4, List.drop_drop]
      congr 1
      omega

/-! ## C6: `execute` against a silent peer -/

/-- C6: if the RX channel is empty and no byte arrives from the module during
any servicing tick, `gainspan_TXexecute` returns 10 (Timeout) after exactly
`GAINSPAN_COMMAND_WAIT_MS = 20000` increments of `user_mdelay_tick(1)` (20000 ms
of `hardware_mdelay`), with the RX buffer, head, tail and pending-CR counter and
`param` unchanged; and when the bytes already waiting in the TX channel plus the
command fit the channel (at most 249), all of them have been sent to the module
in order, none lost, and the TX channel is empty. -/
theorem execute_timeout (cs : Bool) (fuel : Nat) (env : Nat → TickInput) (cmd : List Nat)
    (s : GS) (p : Nat → Nat)
    (hsilent : ∀ k i, (env k).gainspan_rx i = none)
    (hrx : s.gainspan_head_rx = s.gainspan_tail_rx)
    (hh : s.gainspan_head_tx < HARDWARE_BUFSIZE) (ht : s.gainspan_tail_tx < HARDWARE_BUFSIZE)
    (hfit : tx_count s + (cmd.takeWhile (fun b => b != 0)).length ≤ 249) :
    ∃ s1, gainspan_TXexecute cs fuel env cmd s p = some (10, s1, p) ∧
      s1.elapsed_ms = s.elapsed_ms + GAINSPAN_COMMAND_WAIT_MS ∧
      s1.gainspan_buf_rx = s.gainspan_buf_rx ∧
      s1.gainspan_head_rx = s.gainspan_head_rx ∧
      s1.gainspan_tail_rx = s.gainspan_tail_rx ∧
      s1.gainspan_rxcr = s.gainspan_rxcr ∧
      s1.usart_gainspan_out
        = s.usart_gainspan_out ++ tx_unread s ++ cmd.takeWhile (fun b => b != 0) ∧
      tx_unread s1 = [] := by
  have hv := push_all_views (cmd.takeWhile (fun b => b != 0)) s
  have hi := push_all_idx (cmd.takeWhile (fun b => b != 0)) s hh ht
  have hu := tx_unread_push_all (cmd.takeWhile (fun b => b != 0)) s hh ht
  rw [show tx_count s + (cmd.takeWhile (fun b => b != 0)).length - 249 = 0 by omega,
    List.drop_zero] at hu
  have hvv := hv.1
  simp only [rx_view, Prod.mk.injEq] at hvv
  obtain ⟨s1, h1, h2, h3, h4, h5⟩ := gainspan_TXexecute_loop_silent cs fuel
    GAINSPAN_COMMAND_WAIT_MS env (push_all (cmd.takeWhile (fun b => b != 0)) s) p
    (fun k => tick_bytes_silent (env k) (hsilent k)) (by rw [hvv.2.1, hvv.2.2.1]; exact hrx)
    hi.1 hi.2
  have hl : (tx_unread s ++ cmd.takeWhile (fun b => b != 0)).length ≤ GAINSPAN_COMMAND_WAIT_MS := by
    rw [List.length_append, tx_unread_length]
    simp only [GAINSPAN_COMMAND_WAIT_MS]
    omega
  have h2v := h2.trans hv.1
  simp only [rx_view, Prod.mk.injEq] at h2v
  refine ⟨s1, by rw [gainspan_TXexecute, gainspan_TX_eq]; exact h1, by rw [h3, hv.2.2],
    h2v.1, h2v.2.1, h2v.2.2.1, h2v.2.2.2, ?_, ?_⟩
  · rw [h4, hu, hv.2.1, List.take_of_length_le hl, List.append_assoc]
  · rw [h5, hu, List.drop_of_length_le hl]

/-- C6 at a concrete input: `execute("AT+NOP\r\n", out)` from the start-up state
with both USARTs silent. -/
theorem execute_timeout_witness :
    ∃ s1, gainspan_TXexecute false 250 (fun _ => TickInput.silent) txt_at_nop GS.init
        (fun _ => 0) = some (10, s1, fun _ => 0) ∧
      s1.elapsed_ms = GS.init.elapsed_ms + GAINSPAN_COMMAND_WAIT_MS ∧
      s1.gainspan_buf_rx = GS.init.gainspan_buf_rx ∧
      s1.gainspan_head_rx = GS.init.gainspan_head_rx ∧
      s1.gainspan_tail_rx = GS.init.gainspan_tail_rx ∧
      s1.gainspan_rxcr = GS.init.gainspan_rxcr ∧
      s1.usart_gainspan_out
        = GS.init.usart_gainspan_out ++ tx_unread GS.init
          ++ txt_at_nop.takeWhile (fun b => b != 0) ∧
      tx_unread s1 = [] :=
  execute_timeout false 250 (fun _ => TickInput.silent) txt_at_nop GS.init (fun _ => 0)
    (fun _ _ => rfl) (by decide) (by decide) (by decide) (by decide)

/-! ## Receiving several bytes -/

theorem rx_receive_holds (bs : List Nat) : ∀ (s : GS) (u : List Nat), rx_holds s u →
    u.length + bs.length ≤ 249 → rx_holds (rx_receive bs s) (u ++ bs) := by
  induction bs with
  | nil => intro s u h _; simpa [rx_receive] using h
  | cons b rest ih =>
    intro s u h hl
    obtain ⟨hh, ht, hu, hcr⟩ := h
    simp only [List.length_cons] at hl
    obtain ⟨_, h2, h3, h4, _⟩ := user_tick_gainspan_some b s hh
    have hc : rx_count s < 249 := by rw [← rx_unread_length, hu]; omega
    have hu1 := rx_unread_receive b s hh ht
    rw [if_pos hc, hu] at hu1
    have hcnt : u.count 13 ≤ u.length := List.count_le_length 13 u
    have hcr1 : (user_tick_gainspan (some b) s).gainspan_rxcr = (u ++ [b]).count 13 := by
      rw [h4, hcr, List.count_append]
      by_cases hb : b = 13
      · subst hb
        simp only [if_true, inc8, List.count_singleton_self]
        omega
      · have : List.count 13 [b] = 0 := by
          rw [List.count_eq_zero]; simpa using fun h => hb h.symm
        rw [if_neg hb, this]
        rfl
    have e : rx_receive (b :: rest) s = rx_receive rest (user_tick_gainspan (some b) s) := rfl
    have := ih (user_tick_gainspan (some b) s) (u ++ [b])
      ⟨by rw [h2]; exact Nat.mod_lt _ (by decide), by rw [h3]; exact ht, hu1, hcr1⟩
      (by simp only [List.length_append, List.length_cons, List.length_nil]; omega)
    rw [e]
    simpa using this

theorem sat_idx_le (n : Nat) : ∀ i, i ≤ 31 → sat_idx i n = min (i + n) 31 := by
  induction n with
  | zero => intro i h; simp only [sat_idx]; omega
  | succ n ih =>
    intro i h
    simp only [sat_idx, HARDWARE_BUFSIZESML]
    split
    · rw [ih i h]; omega
    · rw [ih (i + 1) (by omega)]; omega

theorem sat_write_lt (l : List Nat) : ∀ (a : Nat → Nat) (i j : Nat), j < i →
    sat_write a i l j = a j := by
  induction l with
  | nil => intro a i j _; rfl
  | cons x xs ih =>
    intro a i j h
    rw [sat_write, ih _ _ _ (by split <;> omega)]
    simp only [store]
    rw [if_neg (by omega)]

theorem sat_write_get (l : List Nat) : ∀ (a : Nat → Nat) (i k : Nat) (h : k < l.length),
    i + k < 31 → sat_write a i l (i + k) = l[k] := by
  induction l with
  | nil => intro a i k h; simp at h
  | cons x xs ih =>
    intro a i k h hk
    have e : (if i + 1 ≥ HARDWARE_BUFSIZESML then i else i + 1) = i + 1 := by
      simp only [HARDWARE_BUFSIZESML]; split <;> omega
    cases k with
    | zero =>
      rw [sat_write, e, Nat.add_zero, sat_write_lt _ _ _ _ (by omega)]
      simp [store]
    | succ k =>
      have := ih (store a i x) (i + 1) k (by simpa using h) (by omega)
      rw [sat_write, e, show i + (k + 1) = i + 1 + k by omega, this]
      simp

theorem gainspan_RXparam_loop_byte (cs : Bool) (f : Nat) (s : GS) (i : Nat) (p : Nat → Nat)
    (x : Nat) (ht : s.gainspan_tail_rx < HARDWARE_BUFSIZE)
    (hb : s.gainspan_buf_rx s.gainspan_tail_rx = x)
    (hge : char_ge_space cs x = true) (h13 : x ≠ 13) :
    gainspan_RXparam_loop cs (f + 1) s i p =
      gainspan_RXparam_loop cs f
        { s with gainspan_tail_rx := (s.gainspan_tail_rx + 1) % HARDWARE_BUFSIZE }
        (if i + 1 ≥ HARDWARE_BUFSIZESML then i else i + 1) (store p i x) := by
  have h0 : x ≠ 0 := char_ge_space_ne_zero cs x hge
  have e1 : (if inc8 s.gainspan_tail_rx ≥ HARDWARE_BUFSIZE then 0
      else inc8 s.gainspan_tail_rx) = (s.gainspan_tail_rx + 1) % HARDWARE_BUFSIZE := by
    simp only [HARDWARE_BUFSIZE] at ht
    simp only [inc8, HARDWARE_BUFSIZE]; split <;> omega
  rw [← e1, gainspan_RXparam_loop]
  simp only [hb, hge, h13, h0, if_true, false_and, if_false, ne_eq, not_false_eq_true, and_self]
  congr 1
  dsimp only
  split <;> rfl

theorem gainspan_RXparam_loop_cr (cs : Bool) (f : Nat) (s : GS) (i : Nat) (p : Nat → Nat)
    (ht : s.gainspan_tail_rx < HARDWARE_BUFSIZE)
    (hb : s.gainspan_buf_rx s.gainspan_tail_rx = 13) :
    gainspan_RXparam_loop cs (f + 1) s i p = some
      ({ s with
          gainspan_tail_rx := (s.gainspan_tail_rx + 1) % HARDWARE_BUFSIZE
          gainspan_rxcr := s.gainspan_rxcr - 1 }, i, p) := by
  have hge : char_ge_space cs 13 = false := by cases cs <;> rfl
  have e1 : (if inc8 s.gainspan_tail_rx ≥ HARDWARE_BUFSIZE then 0
      else inc8 s.gainspan_tail_rx) = (s.gainspan_tail_rx + 1) % HARDWARE_BUFSIZE := by
    simp only [HARDWARE_BUFSIZE] at ht
    simp only [inc8, HARDWARE_BUFSIZE]; split <;> omega
  rw [← e1, gainspan_RXparam_loop]
  simp only [hb, hge, Bool.false_eq_true, if_false, ne_eq, not_true_eq_false, false_and,
    true_and, Option.some.injEq, Prod.mk.injEq, and_true]
  cases s
  dsimp only
  split_ifs <;> dsimp only at * <;> simp only [GS.mk.injEq, true_and, and_true] <;> omega

theorem cstring_sat_write (p : Nat → Nat) (line : List Nat) (hnz : ∀ x ∈ line, x ≠ 0) :
    cstring (store (sat_write p 0 line) (sat_idx 0 line.length) 0) = line.take 31 := by
  rw [sat_idx_le _ 0 (by omega), Nat.zero_add]
  have hlen : (line.take 31).length = min line.length 31 := by
    rw [List.length_take]; omega
  apply cstring_of_text
  · rw [hlen]; simp only [HARDWARE_BUFSIZESML]; omega
  · intro x hx; exact hnz x (List.mem_of_mem_take hx)
  · intro k hk
    rw [hlen] at hk
    have := sat_write_get line p 0 k (by omega) (by omega)
    simp only [Nat.zero_add] at this
    simp only [store]
    rw [if_neg (by omega), this, List.getElem_take]
  · rw [hlen]; simp [store]

theorem ring_read_add (buf : Nat → Nat) (t k n : Nat) (ht : t < HARDWARE_BUFSIZE) :
    ring_read buf t (k + n) = ring_read buf t k ++ ring_read buf ((t + k) % HARDWARE_BUFSIZE) n := by
  induction k generalizing t with
  | zero =>
    simp only [HARDWARE_BUFSIZE] at ht
    simp [ring_read, HARDWARE_BUFSIZE, Nat.mod_eq_of_lt ht]
  | succ k ih =>
    rw [show k + 1 + n = (k + n) + 1 by omega, ring_read_succ buf t _ ht,
      ring_read_succ buf t _ ht, ih _ (Nat.mod_lt _ (by decide)), List.cons_append]
    congr 3
    simp only [HARDWARE_BUFSIZE]
    omega

/-- `gainspan_TXparam` pushes the bytes before the first NUL, but no more than
`HARDWARE_BUFSIZE + 1 - i` of them when its counter starts at `i`. -/
theorem gainspan_TXparam_loop_take (l : List Nat) : ∀ (i : Nat) (s : GS),
    gainspan_TXparam_loop l i s
      = push_all ((l.takeWhile (fun b => b != 0)).take (HARDWARE_BUFSIZE + 1 - i)) s := by
  induction l with
  | nil => intro i s; simp [gainspan_TXparam_loop, push_all]
  | cons ch rest ih =>
    intro i s
    rw [gainspan_TXparam_loop_cons]
    by_cases hz : ch = 0
    · simp [hz, push_all]
    · have e : List.takeWhile (fun b => b != 0) (ch :: rest)
          = ch :: List.takeWhile (fun b => b != 0) rest := by
        simp [List.takeWhile_cons, hz]
      by_cases hi : i ≤ HARDWARE_BUFSIZE
      · have e1 : HARDWARE_BUFSIZE + 1 - i = (HARDWARE_BUFSIZE + 1 - (i + 1)) + 1 := by omega
        rw [if_pos ⟨hz, hi⟩, ih (i + 1), e, e1, List.take_succ_cons]
        rfl
      · have e1 : HARDWARE_BUFSIZE + 1 - i = 0 := by omega
        rw [if_neg (fun h => hi h.2), e1, List.take_zero]
        rfl

/-- C20: for every string `str` (the bytes of the list before its first NUL) and
every state, `gainspan_TX(str)` yields exactly the state that calling
`gainspan_TXchar` on each of those bytes in order yields, and
`gainspan_TXparam(str)` does so for the first `min |str| 250` of them; hence on
an empty, in-range TX channel a string of at most 249 bytes is the unread
content verbatim after either call. -/
theorem tx_writes_verbatim (str : List Nat) (s : GS) :
    gainspan_TX str s = push_all (str.takeWhile (fun b => b != 0)) s ∧
    gainspan_TXparam str s = push_all ((str.takeWhile (fun b => b != 0)).take 250) s ∧
    (s.gainspan_head_tx = s.gainspan_tail_tx → s.gainspan_head_tx < HARDWARE_BUFSIZE →
      (str.takeWhile (fun b => b != 0)).length ≤ 249 →
      tx_unread (gainspan_TX str s) = str.takeWhile (fun b => b != 0) ∧
      tx_unread (gainspan_TXparam str s) = str.takeWhile (fun b => b != 0)) := by
  have h1 := gainspan_TX_eq str s
  have h2 : gainspan_TXparam str s
      = push_all ((str.takeWhile (fun b => b != 0)).take 250) s :=
    gainspan_TXparam_loop_take str 1 s
  refine ⟨h1, h2, ?_⟩
  intro hempty hh hlen
  have ht : s.gainspan_tail_tx < HARDWARE_BUFSIZE := by rw [← hempty]; exact hh
  have hc : tx_count s = 0 := by
    simp only [tx_count, HARDWARE_BUFSIZE, hempty] at *; omega
  have hu : tx_unread s = [] := by simp [tx_unread, hc, ring_read]
  have e : ∀ l : List Nat, l.length ≤ 249 → tx_unread (push_all l s) = l := by
    intro l hl
    rw [tx_unread_push_all l s hh ht, hc, hu, List.nil_append, Nat.zero_add,
      show l.length - 249 = 0 by omega, List.drop_zero]
  rw [h1, h2, List.take_of_length_le (by omega)]
  exact ⟨e _ hlen, e _ hlen⟩

/-- C20 at a concrete input: the command `"AT+NOP\r\n"` on the start-up state. -/
theorem tx_writes_verbatim_witness :
    tx_unread (gainspan_TX txt_at_nop GS.init) = txt_at_nop.takeWhile (fun b => b != 0) ∧
    tx_unread (gainspan_TXparam txt_at_nop GS.init) = txt_at_nop.takeWhile (fun b => b != 0) :=
  (tx_writes_verbatim txt_at_nop GS.init).2.2 (by decide) (by decide) (by decide)

/-! ## C16: the receive path does not evict -/

/-- C16 as stated fails: with 249 unread bytes in the RX channel (tail 1, head 0),
the receive path of `user_tick` appends one more byte and
advances head onto tail without moving tail: afterwards head equals tail, tail
is still 1, and the channel reads as empty instead of holding the most recent
249 bytes. -/
theorem rx_overflow_counterexample :
    rx_count rx_full = 249 ∧
    (user_tick_gainspan (some 7) rx_full).gainspan_head_rx
      = (user_tick_gainspan (some 7) rx_full).gainspan_tail_rx ∧
    (user_tick_gainspan (some 7) rx_full).gainspan_tail_rx = 1 ∧
    rx_unread (user_tick_gainspan (some 7) rx_full) = [] := by
  decide

/-- C16 (amended): the receive path (the GainSpan branch of `user_tick`) stores
the byte at head and advances head modulo 250 without checking for overflow:
tail never moves.  While fewer than 249 bytes are unread the byte is appended
to the unread content and head differs from tail; when 249 bytes are unread the
append makes head equal to tail, so the channel reads as empty and the 250
unconsumed bytes are no longer seen by the consumers. -/
theorem rx_append_no_eviction (b : Nat) (s : GS)
    (hh : s.gainspan_head_rx < HARDWARE_BUFSIZE) (ht : s.gainspan_tail_rx < HARDWARE_BUFSIZE) :
    (user_tick_gainspan (some b) s).gainspan_tail_rx = s.gainspan_tail_rx ∧
    (user_tick_gainspan (some b) s).gainspan_head_rx
      = (s.gainspan_head_rx + 1) % HARDWARE_BUFSIZE ∧
    (user_tick_gainspan (some b) s).gainspan_buf_rx
      = store s.gainspan_buf_rx s.gainspan_head_rx b ∧
    (rx_count s < 249 →
      (user_tick_gainspan (some b) s).gainspan_head_rx
        ≠ (user_tick_gainspan (some b) s).gainspan_tail_rx ∧
      rx_unread (user_tick_gainspan (some b) s) = rx_unread s ++ [b]) ∧
    (rx_count s = 249 →
      (user_tick_gainspan (some b) s).gainspan_head_rx
        = (user_tick_gainspan (some b) s).gainspan_tail_rx ∧
      rx_unread (user_tick_gainspan (some b) s) = []) := by
  obtain ⟨h1, h2, h3, _, _⟩ := user_tick_gainspan_some b s hh
  have hu := rx_unread_receive b s hh ht
  refine ⟨h3, h2, h1, ?_, ?_⟩
  · intro hc
    rw [if_pos hc] at hu
    refine ⟨?_, hu⟩
    rw [h2, h3]
    simp only [rx_count, HARDWARE_BUFSIZE] at *
    omega
  · intro hc
    rw [if_neg (by omega)] at hu
    refine ⟨?_, hu⟩
    rw [h2, h3]
    simp only [rx_count, HARDWARE_BUFSIZE] at *
    omega

/-- C16 (amended) at concrete inputs: a byte received into the empty start-up
channel, and a byte received with 249 bytes unread. -/
theorem rx_append_no_eviction_witness :
    ((user_tick_gainspan (some 7) GS.init).gainspan_head_rx
        ≠ (user_tick_gainspan (some 7) GS.init).gainspan_tail_rx ∧
      rx_unread (user_tick_gainspan (some 7) GS.init) = rx_unread GS.init ++ [7]) ∧
    ((user_tick_gainspan (some 7) rx_full).gainspan_head_rx
        = (user_tick_gainspan (some 7) rx_full).gainspan_tail_rx ∧
      rx_unread (user_tick_gainspan (some 7) rx_full) = []) :=
  ⟨(rx_append_no_eviction 7 GS.init (by decide) (by decide)).2.2.2.1 (by decide),
   (rx_append_no_eviction 7 rx_full (by decide)
     (by decide)).2.2.2.2 (by decide)⟩

/-! ## C13: what `gainspan_RXreset` resets -/

theorem user_tick_gainspan_rxesc_data (rx : Option Nat) (s : GS) :
    (user_tick_gainspan rx s).gainspan_rxesc_data = s.gainspan_rxesc_data := by
  cases rx with
  | none => rfl
  | some ch =>
    simp only [user_tick_gainspan]
    split_ifs <;> rfl

theorem rx_receive_rxesc_data (bs : List Nat) : ∀ s : GS,
    (rx_receive bs s).gainspan_rxesc_data = s.gainspan_rxesc_data := by
  induction bs with
  | nil => intro s; rfl
  | cons b rest ih =>
    intro s
    have e : rx_receive (b :: rest) s = rx_receive rest (user_tick_gainspan (some b) s) := rfl
    rw [e, ih, user_tick_gainspan_rxesc_data]

/-- C13 as stated fails: from a decoder parked in ReadingPayload the call leaves
the decoder state at 5, not Idle; the well-formed frame
`ESC 'u' '0' "1" SP "9" TAB "A" ESC 'E'` received next is then not decoded from
its first ESC: `gainspan_RXdata` takes that ESC as the end of a payload and
returns true after two bytes with an empty payload. -/
theorem reset_keeps_decoder_state_counterexample :
    (gainspan_RXreset decoder_parked).gainspan_rxesc_data = 5 ∧
    (gainspan_RXdata false 250
      (rx_receive (inbound_frame 117 48 [49] [57] [65] 69) (gainspan_RXreset decoder_parked))
      (fun _ => 0)).map (fun r => (r.1, r.2.1.gainspan_tail_rx, cstring r.2.2))
      = some (true, 2, []) := by
  decide

/-- C13 (amended): from every prior state `gainspan_RXreset` zeroes the RX head
and tail, the pending-CR counter and the adapter and connection digits; it
leaves the frame decoder state, its cursor and the last CID as they were.  So a
well-formed frame received next (start tag `'u'`, fields as in C1, fewer than
250 bytes) is decoded from its first ESC and reported when the decoder was Idle
before the reset. -/
theorem reset_zeroes_channel (s : GS) :
    (gainspan_RXreset s).gainspan_head_rx = 0 ∧
    (gainspan_RXreset s).gainspan_tail_rx = 0 ∧
    (gainspan_RXreset s).gainspan_rxcr = 0 ∧
    (gainspan_RXreset s).gainspan_module_adapter = 0 ∧
    (gainspan_RXreset s).gainspan_module_connection = 0 ∧
    (gainspan_RXreset s).gainspan_rxesc_data = s.gainspan_rxesc_data ∧
    (gainspan_RXreset s).gainspan_rxesc_i = s.gainspan_rxesc_i ∧
    (gainspan_RXreset s).gainspan_rxesc_cid = s.gainspan_rxesc_cid ∧
    (s.gainspan_rxesc_data = 0 →
      ∀ (cs : Bool) (fuel : Nat) (p : Nat → Nat) (c b : Nat) (ip port payload : List Nat),
        ip.length ≤ 31 → port.length ≤ 31 → payload.length ≤ 31 →
        (∀ x ∈ ip, 32 < x ∧ (cs = true → x < 128)) →
        (∀ x ∈ port, 32 ≤ x ∧ (cs = true → x < 128)) →
        (∀ x ∈ payload, 32 ≤ x ∧ (cs = true → x < 128)) →
        249 ≤ fuel →
        ∃ s1 p1, gainspan_RXdata cs fuel
            (rx_receive (inbound_frame 117 c ip port payload b) (gainspan_RXreset s)) p
            = some (true, s1, p1) ∧
          s1.gainspan_rxesc_cid = c ∧
          cstring s1.gainspan_param_module_ip = ip ∧
          cstring s1.gainspan_param_module_port = port ∧
          cstring p1 = payload ∧
          s1.gainspan_rxesc_data = 0) := by
  refine ⟨rfl, rfl, rfl, rfl, rfl, rfl, rfl, rfl, ?_⟩
  intro hidle cs fuel p c b ip port payload hipl hportl hpayl hip hport hpay hf
  have h0 : rx_holds (gainspan_RXreset s) [] :=
    ⟨by simp [gainspan_RXreset, HARDWARE_BUFSIZE], by simp [gainspan_RXreset, HARDWARE_BUFSIZE],
      by simp [rx_unread, rx_count, gainspan_RXreset, ring_read, HARDWARE_BUFSIZE], rfl⟩
  have hlen : (inbound_frame 117 c ip port payload b).length ≤ 249 := by
    simp only [inbound_frame, List.length_append, List.length_cons, List.length_nil]
    omega
  have h1 := rx_receive_holds (inbound_frame 117 c ip port payload b) (gainspan_RXreset s) []
    h0 (by simpa using hlen)
  rw [List.nil_append] at h1
  obtain ⟨hh, ht, hu, _⟩ := h1
  obtain ⟨s1, p1, e1, e2, e3, e4, e5, _, e7⟩ := gainspan_RXdata_frame cs fuel
    (rx_receive (inbound_frame 117 c ip port payload b) (gainspan_RXreset s)) p c b ip port
    payload (by rw [rx_receive_rxesc_data]; exact hidle) ht hh hu hipl hportl hpayl
    (fun x hx => ⟨by have := (hip x hx).1; omega, by have := (hip x hx).1; omega,
      char_ge_space_of_le cs x (by have := (hip x hx).1; omega) (hip x hx).2⟩)
    (fun x hx => ⟨by have := (hport x hx).1; omega, by have := (hport x hx).1; omega,
      char_ge_space_of_le cs x (hport x hx).1 (hport x hx).2⟩)
    (fun x hx => ⟨by have := (hpay x hx).1; omega,
      char_ge_space_of_le cs x (hpay x hx).1 (hpay x hx).2⟩)
    (by have := rx_count_le (rx_receive (inbound_frame 117 c ip port payload b)
          (gainspan_RXreset s)); omega)
  exact ⟨s1, p1, e1, e2, e3, e4, e5, e7⟩

/-- C13 (amended) at a concrete input: reset of the start-up state (decoder
Idle) followed by the frame `ESC 'u' '0' "10.0.0.5" SP "9000" TAB "ping" ESC 'E'`. -/
theorem reset_zeroes_channel_witness :
    ∃ s1 p1, gainspan_RXdata false 250
        (rx_receive (inbound_frame 117 48 txt_ip txt_port txt_ping 69)
          (gainspan_RXreset GS.init)) (fun _ => 0)
        = some (true, s1, p1) ∧
      s1.gainspan_rxesc_cid = 48 ∧
      cstring s1.gainspan_param_module_ip = txt_ip ∧
      cstring s1.gainspan_param_module_port = txt_port ∧
      cstring p1 = txt_ping ∧
      s1.gainspan_rxesc_data = 0 :=
  (reset_zeroes_channel GS.init).2.2.2.2.2.2.2.2 (by decide) false 250 (fun _ => 0) 48 69
    txt_ip txt_port txt_ping (by decide) (by decide) (by decide) (by decide) (by decide)
    (by decide) (by decide)

/-! ## C12: `gainspan_RXconsume` on a channel without a CR -/

/-- C12, the code at the failing input: a CR is received at index 0 and the link
is reset, which leaves an empty channel (head = tail = 0, counter 0) whose
buffer still holds the CR.  `gainspan_RXconsume` then returns 0 with tail at 1
and head at 0: it has consumed the stale byte beyond head, and the channel no
longer reads as empty. -/
theorem rxconsume_stale_cr :
    (gainspan_RXreset (rx_loaded [13] 1)).gainspan_head_rx
      = (gainspan_RXreset (rx_loaded [13] 1)).gainspan_tail_rx ∧
    (gainspan_RXconsume 250 (gainspan_RXreset (rx_loaded [13] 1))).map
      (fun r => (r.1, r.2.gainspan_tail_rx, r.2.gainspan_head_rx, rx_count r.2))
      = some (0, 1, 0, 249) := by
  decide

/-! ## C14: the index range after `gainspan_RXequals` -/

/-- C14, the code at the failing input: with `"OK\r"` in the last three slots of
the RX buffer (tail 247, head 0, every index below 250),
`gainspan_RXequals("OK")` succeeds and leaves the RX tail at 250, outside
`0 .. 249`. -/
theorem rxequals_tail_out_of_range :
    rx_ok_at_end.gainspan_tail_rx < HARDWARE_BUFSIZE ∧
    rx_ok_at_end.gainspan_head_rx < HARDWARE_BUFSIZE ∧
    rx_ok_at_end.gainspan_tail_tx < HARDWARE_BUFSIZE ∧
    rx_ok_at_end.gainspan_head_tx < HARDWARE_BUFSIZE ∧
    (gainspan_RXequals str_OK rx_ok_at_end).1 = true ∧
    (gainspan_RXequals str_OK rx_ok_at_end).2.gainspan_tail_rx = 250 := by
  decide

/-! ## C15: the pending-CR counter and the frame decoder -/

/-- C15, the code at the failing input: an Idle decoder whose RX channel holds
`"OK\r"` with one pending CR.  `gainspan_RXdata` consumes the three bytes, the
CR among them (tail = head = 3 afterwards), and leaves the pending-CR counter
at 1. -/
theorem rxdata_keeps_pending_cr :
    (gainspan_RXdata false 250 (rx_loaded [79, 75, 13] 1) (fun _ => 0)).map
      (fun r => (r.1, r.2.1.gainspan_tail_rx, r.2.1.gainspan_head_rx, r.2.1.gainspan_rxcr))
      = some (false, 3, 3, 1) := by
  decide

/-! ## C11: `gainspan_RXparam` on any line -/

theorem gainspan_RXparam_loop_skip (cs : Bool) (f : Nat) (s : GS) (i : Nat) (p : Nat → Nat)
    (x : Nat) (ht : s.gainspan_tail_rx < HARDWARE_BUFSIZE)
    (hb : s.gainspan_buf_rx s.gainspan_tail_rx = x)
    (hge : char_ge_space cs x = false) (h13 : x ≠ 13) (h0 : x ≠ 0) :
    gainspan_RXparam_loop cs (f + 1) s i p =
      gainspan_RXparam_loop cs f
        { s with gainspan_tail_rx := (s.gainspan_tail_rx + 1) % HARDWARE_BUFSIZE } i p := by
  have e1 : (if inc8 s.gainspan_tail_rx ≥ HARDWARE_BUFSIZE then 0
      else inc8 s.gainspan_tail_rx) = (s.gainspan_tail_rx + 1) % HARDWARE_BUFSIZE := by
    simp only [HARDWARE_BUFSIZE] at ht
    simp only [inc8, HARDWARE_BUFSIZE]; split <;> omega
  rw [← e1, gainspan_RXparam_loop]
  simp only [hb, hge, h13, h0, Bool.false_eq_true, if_false, false_and, ne_eq,
    not_false_eq_true, and_self, if_true]
  congr 1
  dsimp only
  split <;> rfl

theorem gainspan_RXparam_loop_nul (cs : Bool) (f : Nat) (s : GS) (i : Nat) (p : Nat → Nat)
    (ht : s.gainspan_tail_rx < HARDWARE_BUFSIZE)
    (hb : s.gainspan_buf_rx s.gainspan_tail_rx = 0) :
    gainspan_RXparam_loop cs (f + 1) s i p = some
      ({ s with gainspan_tail_rx := (s.gainspan_tail_rx + 1) % HARDWARE_BUFSIZE }, i, p) := by
  have hge : char_ge_space cs 0 = false := by cases cs <;> rfl
  have e1 : (if inc8 s.gainspan_tail_rx ≥ HARDWARE_BUFSIZE then 0
      else inc8 s.gainspan_tail_rx) = (s.gainspan_tail_rx + 1) % HARDWARE_BUFSIZE := by
    simp only [HARDWARE_BUFSIZE] at ht
    simp only [inc8, HARDWARE_BUFSIZE]; split <;> omega
  rw [← e1, gainspan_RXparam_loop]
  simp only [hb, hge, Bool.false_eq_true, if_false, ne_eq, not_true_eq_false, and_false,
    OfNat.zero_ne_ofNat, false_and, Option.some.injEq, Prod.mk.injEq, and_true]
  split <;> rfl

/-- The loop of `gainspan_RXparam` on any bytes up to the first CR or NUL. -/
theorem gainspan_RXparam_loop_any (cs : Bool) (term : Nat) (hterm : term = 13 ∨ term = 0)
    (line : List Nat) :
    ∀ (fuel : Nat) (s : GS) (i : Nat) (p : Nat → Nat),
    s.gainspan_tail_rx < HARDWARE_BUFSIZE →
    ring_read s.gainspan_buf_rx s.gainspan_tail_rx (line.length + 1) = line ++ [term] →
    (∀ x ∈ line, x ≠ 13 ∧ x ≠ 0) →
    line.length < fuel →
    gainspan_RXparam_loop cs fuel s i p = some
      ({ s with
          gainspan_tail_rx := (s.gainspan_tail_rx + (line.length + 1)) % HARDWARE_BUFSIZE
          gainspan_rxcr := if term = 13 then s.gainspan_rxcr - 1 else s.gainspan_rxcr },
        sat_idx i (line.filter (char_ge_space cs)).length,
        sat_write p i (line.filter (char_ge_space cs))) := by
  induction line with
  | nil =>
    intro fuel s i p ht hbuf _ hf
    cases fuel with
    | zero => simp at hf
    | succ f =>
      rw [ring_read_succ _ _ _ ht] at hbuf
      have hb : s.gainspan_buf_rx s.gainspan_tail_rx = term := by
        simpa using (List.cons.inj hbuf).1
      rcases hterm with h | h
      · subst h
        rw [gainspan_RXparam_loop_cr cs f s i p ht hb]
        rfl
      · subst h
        rw [gainspan_RXparam_loop_nul cs f s i p ht hb]
        rfl
  | cons x xs ih =>
    intro fuel s i p ht hbuf hline hf
    cases fuel with
    | zero => simp at hf
    | succ f =>
      have hx := hline x (List.mem_cons_self x xs)
      rw [List.length_cons, ring_read_succ _ _ _ ht] at hbuf
      have hb : s.gainspan_buf_rx s.gainspan_tail_rx = x := (List.cons.inj hbuf).1
      have hr := (List.cons.inj hbuf).2
      have hstate : ∀ r : Nat,
          ({ ({ s with gainspan_tail_rx := (s.gainspan_tail_rx + 1) % HARDWARE_BUFSIZE } : GS) with
              gainspan_tail_rx := ((s.gainspan_tail_rx + 1) % HARDWARE_BUFSIZE
                + (xs.length + 1)) % HARDWARE_BUFSIZE
              gainspan_rxcr := r } : GS)
          = { s with
              gainspan_tail_rx := (s.gainspan_tail_rx + (xs.length + 1 + 1)) % HARDWARE_BUFSIZE
              gainspan_rxcr := r } := by
        intro r
        cases s
        simp only [HARDWARE_BUFSIZE] at ht ⊢
        simp only [GS.mk.injEq, true_and, and_true]
        omega
      cases hge : char_ge_space cs x with
      | true =>
        rw [gainspan_RXparam_loop_byte cs f s i p x ht hb hge hx.1]
        rw [ih f _ _ _ (by exact Nat.mod_lt _ (by decide)) (by exact hr)
          (fun y hy => hline y (List.mem_cons_of_mem x hy)) (by simpa using hf)]
        rw [List.filter_cons_of_pos hge]
        simp only [sat_idx, sat_write, List.length_cons]
        rw [hstate]
      | false =>
        rw [gainspan_RXparam_loop_skip cs f s i p x ht hb hge hx.1 hx.2]
        rw [ih f _ _ _ (by exact Nat.mod_lt _ (by decide)) (by exact hr)
          (fun y hy => hline y (List.mem_cons_of_mem x hy)) (by simpa using hf)]
        rw [List.filter_cons_of_neg (by simp [hge])]
        simp only [List.length_cons]
        rw [hstate]

theorem filter_char_ge_space (cs : Bool) (line : List Nat)
    (h7 : cs = true → ∀ x ∈ line, x < 128) :
    line.filter (char_ge_space cs) = line.filter (fun x => decide (32 ≤ x)) := by
  apply List.filter_congr
  intro x hx
  cases cs
  · simp [char_ge_space]
  · have := h7 rfl x hx
    simp [char_ge_space, this]

theorem filter_char_ge_space_range (cs : Bool) (line : List Nat) :
    line.filter (char_ge_space cs)
      = line.filter (fun x => decide (32 ≤ x ∧ (cs = true → x < 128))) := by
  apply List.filter_congr
  intro x _
  cases cs <;> simp [char_ge_space]

/-- C11 as stated fails where plain `char` is signed: with `'A'`, the byte 0xC8,
`'B'` and CR in the RX channel, three bytes of the line are >= 0x20, yet
`gainspan_RXparam` stores `"AB"`: the byte 0xC8 is negative as a `char` and
fails the test `ch >= ' '`.  Where plain `char` is unsigned all three bytes are
stored. -/
theorem rxparam_signed_char_counterexample :
    [65, 200, 66].filter (fun x => decide (32 ≤ x)) = [65, 200, 66] ∧
    (gainspan_RXparam true 250 (rx_loaded [65, 200, 66, 13] 1) (fun _ => 0)).map
      (fun r => (cstring r.2, r.1.gainspan_tail_rx)) = some ([65, 66], 4) ∧
    (gainspan_RXparam false 250 (rx_loaded [65, 200, 66, 13] 1) (fun _ => 0)).map
      (fun r => (cstring r.2, r.1.gainspan_tail_rx)) = some ([65, 200, 66], 4) := by
  decide

/-- C11 (amended): for every state with the RX tail in range whose buffer holds,
from tail on, the bytes `line` (none of them CR or NUL, any values otherwise)
followed by a CR or a NUL, `gainspan_RXparam` returns (given fuel for
`|line| + 1` bytes) with `param` holding the first `min k 31` of the `k` bytes
of `line` that pass the test `ch >= ' '` on a plain `char`, in order, followed
by a NUL, and with tail just past that first CR or NUL, whatever the length of
the line.  The bytes that pass are the bytes >= 0x20 where plain `char` is
unsigned and the bytes 0x20 .. 0x7F where it is signed.  Head is not consulted
and does not move, and the pending-CR counter is decremented (when positive)
exactly when the terminator is a CR. -/
theorem extract_until_terminator (cs : Bool) (fuel : Nat) (s : GS) (p : Nat → Nat)
    (line : List Nat) (term : Nat)
    (ht : s.gainspan_tail_rx < HARDWARE_BUFSIZE)
    (hbuf : ring_read s.gainspan_buf_rx s.gainspan_tail_rx (line.length + 1) = line ++ [term])
    (hterm : term = 13 ∨ term = 0)
    (hline : ∀ x ∈ line, x ≠ 13 ∧ x ≠ 0)
    (hf : line.length < fuel) :
    ∃ s1 p1, gainspan_RXparam cs fuel s p = some (s1, p1) ∧
      cstring p1 = (line.filter (char_ge_space cs)).take 31 ∧
      (∀ j, j < min (line.filter (char_ge_space cs)).length 31 →
        p1 j = (line.filter (char_ge_space cs)).getD j 0) ∧
      p1 (min (line.filter (char_ge_space cs)).length 31) = 0 ∧
      line.filter (char_ge_space cs)
        = line.filter (fun x => decide (32 ≤ x ∧ (cs = true → x < 128))) ∧
      s1.gainspan_tail_rx = (s.gainspan_tail_rx + (line.length + 1)) % HARDWARE_BUFSIZE ∧
      s1.gainspan_head_rx = s.gainspan_head_rx ∧
      s1.gainspan_buf_rx = s.gainspan_buf_rx ∧
      s1.gainspan_rxcr = (if term = 13 then s.gainspan_rxcr - 1 else s.gainspan_rxcr) := by
  have hnz : ∀ x ∈ line.filter (char_ge_space cs), x ≠ 0 := by
    intro x hx
    exact char_ge_space_ne_zero cs x (List.mem_filter.1 hx).2
  refine ⟨{ s with
      gainspan_tail_rx := (s.gainspan_tail_rx + (line.length + 1)) % HARDWARE_BUFSIZE
      gainspan_rxcr := if term = 13 then s.gainspan_rxcr - 1 else s.gainspan_rxcr },
    store (sat_write p 0 (line.filter (char_ge_space cs)))
      (sat_idx 0 (line.filter (char_ge_space cs)).length) 0,
    by rw [gainspan_RXparam,
      gainspan_RXparam_loop_any cs term hterm line fuel s 0 p ht hbuf hline hf], ?_, ?_, ?_,
    filter_char_ge_space_range cs line, rfl, rfl, rfl, rfl⟩
  · exact cstring_sat_write p _ hnz
  · intro j hj
    rw [sat_idx_le _ 0 (by omega), Nat.zero_add]
    have h1 := sat_write_get (line.filter (char_ge_space cs)) p 0 j (by omega) (by omega)
    simp only [Nat.zero_add] at h1
    simp only [store]
    rw [if_neg (by omega), h1, List.getD_eq_getElem _ _ (by omega)]
  · rw [sat_idx_le _ 0 (by omega), Nat.zero_add]
    simp [store]

/-- C11 (amended) at a concrete input with signed `char`: the content
`"A" BEL 0xC8 "B" NUL` (a control byte and a byte above 0x7F inside the line,
NUL as terminator) stored from index 0. -/
theorem extract_until_terminator_witness :
    ∃ s1 p1, gainspan_RXparam true 250 (rx_loaded [65, 7, 200, 66, 0] 0) (fun _ => 9)
        = some (s1, p1) ∧
      cstring p1 = ([65, 7, 200, 66].filter (char_ge_space true)).take 31 ∧
      (∀ j, j < min ([65, 7, 200, 66].filter (char_ge_space true)).length 31 →
        p1 j = ([65, 7, 200, 66].filter (char_ge_space true)).getD j 0) ∧
      p1 (min ([65, 7, 200, 66].filter (char_ge_space true)).length 31) = 0 ∧
      [65, 7, 200, 66].filter (char_ge_space true)
        = [65, 7, 200, 66].filter (fun x => decide (32 ≤ x ∧ (true = true → x < 128))) ∧
      s1.gainspan_tail_rx
        = ((rx_loaded [65, 7, 200, 66, 0] 0).gainspan_tail_rx + ([65, 7, 200, 66].length + 1))
          % HARDWARE_BUFSIZE ∧
      s1.gainspan_head_rx = (rx_loaded [65, 7, 200, 66, 0] 0).gainspan_head_rx ∧
      s1.gainspan_buf_rx = (rx_loaded [65, 7, 200, 66, 0] 0).gainspan_buf_rx ∧
      s1.gainspan_rxcr
        = (if (0 : Nat) = 13 then (rx_loaded [65, 7, 200, 66, 0] 0).gainspan_rxcr - 1
          else (rx_loaded [65, 7, 200, 66, 0] 0).gainspan_rxcr) :=
  extract_until_terminator true 250 (rx_loaded [65, 7, 200, 66, 0] 0) (fun _ => 9)
    [65, 7, 200, 66] 0 (by decide) (by decide) (by decide) (by decide) (by decide)

/-! ## C19: fields longer than their buffers -/

theorem rxesc_i_next_sat (i : Nat) (h : i ≤ 31) :
    rxesc_i_next i = (if i + 1 ≥ HARDWARE_BUFSIZESML then i else i + 1) := by
  simp only [rxesc_i_next, inc8, HARDWARE_BUFSIZESML]
  split <;> split <;> omega

theorem sat_step_le (i : Nat) (h : i ≤ 31) :
    (if i + 1 ≥ HARDWARE_BUFSIZESML then i else i + 1) ≤ 31 := by
  simp only [HARDWARE_BUFSIZESML]
  split <;> omega

/-- The IP field of any length: the cursor stops at offset 31. -/
theorem rxdata_on_ip_sat (cs : Bool) (l rest : List Nat) :
    ∀ (s : GS) (p : Nat → Nat), s.gainspan_rxesc_data = 3 →
      s.gainspan_tail_rx < HARDWARE_BUFSIZE →
      (∀ x ∈ l, x ≠ 27 ∧ x ≠ 32 ∧ char_ge_space cs x = true) →
      s.gainspan_rxesc_i ≤ 31 →
      rxdata_on cs (l ++ rest) s p = rxdata_on cs rest { s with
        gainspan_tail_rx := (s.gainspan_tail_rx + l.length) % HARDWARE_BUFSIZE
        gainspan_param_module_ip := sat_write s.gainspan_param_module_ip s.gainspan_rxesc_i l
        gainspan_rxesc_i := sat_idx s.gainspan_rxesc_i l.length } p := by
  induction l with
  | nil =>
    intro s p _ ht _ _
    simp only [HARDWARE_BUFSIZE] at ht
    simp [sat_write, sat_idx, HARDWARE_BUFSIZE, Nat.mod_eq_of_lt ht]
  | cons x xs ih =>
    intro s p h3 ht hl hi
    have hx := hl x (List.mem_cons_self x xs)
    have hn := rxesc_i_next_sat s.gainspan_rxesc_i hi
    rw [List.cons_append, rxdata_on,
      switch_ip_byte cs x _ p (by exact h3) hx.1 hx.2.1 hx.2.2]
    simp only [Bool.false_eq_true, if_false]
    rw [ih _ p (by exact h3) (by exact Nat.mod_lt _ (by decide))
      (fun y hy => hl y (List.mem_cons_of_mem x hy))
      (by dsimp only; rw [hn]; exact sat_step_le _ hi)]
    congr 1
    cases s
    dsimp only at hi hn ht ⊢
    simp only [HARDWARE_BUFSIZE] at ht
    simp only [GS.mk.injEq, true_and, and_true, sat_write, sat_idx, List.length_cons, hn,
      HARDWARE_BUFSIZE]
    omega

/-- The port field of any length. -/
theorem rxdata_on_port_sat (cs : Bool) (l rest : List Nat) :
    ∀ (s : GS) (p : Nat → Nat), s.gainspan_rxesc_data = 4 →
      s.gainspan_tail_rx < HARDWARE_BUFSIZE →
      (∀ x ∈ l, x ≠ 27 ∧ x ≠ 9 ∧ char_ge_space cs x = true) →
      s.gainspan_rxesc_i ≤ 31 →
      rxdata_on cs (l ++ rest) s p = rxdata_on cs rest { s with
        gainspan_tail_rx := (s.gainspan_tail_rx + l.length) % HARDWARE_BUFSIZE
        gainspan_param_module_port := sat_write s.gainspan_param_module_port s.gainspan_rxesc_i l
        gainspan_rxesc_i := sat_idx s.gainspan_rxesc_i l.length } p := by
  induction l with
  | nil =>
    intro s p _ ht _ _
    simp only [HARDWARE_BUFSIZE] at ht
    simp [sat_write, sat_idx, HARDWARE_BUFSIZE, Nat.mod_eq_of_lt ht]
  | cons x xs ih =>
    intro s p h4 ht hl hi
    have hx := hl x (List.mem_cons_self x xs)
    have hn := rxesc_i_next_sat s.gainspan_rxesc_i hi
    rw [List.cons_append, rxdata_on,
      switch_port_byte cs x _ p (by exact h4) hx.1 hx.2.1 hx.2.2]
    simp only [Bool.false_eq_true, if_false]
    rw [ih _ p (by exact h4) (by exact Nat.mod_lt _ (by decide))
      (fun y hy => hl y (List.mem_cons_of_mem x hy))
      (by dsimp only; rw [hn]; exact sat_step_le _ hi)]
    congr 1
    cases s
    dsimp only at hi hn ht ⊢
    simp only [HARDWARE_BUFSIZE] at ht
    simp only [GS.mk.injEq, true_and, and_true, sat_write, sat_idx, List.length_cons, hn,
      HARDWARE_BUFSIZE]
    omega

/-- The payload of any length. -/
theorem rxdata_on_payload_sat (cs : Bool) (l rest : List Nat) :
    ∀ (s : GS) (p : Nat → Nat), s.gainspan_rxesc_data = 5 →
      s.gainspan_tail_rx < HARDWARE_BUFSIZE →
      (∀ x ∈ l, x ≠ 27 ∧ char_ge_space cs x = true) →
      s.gainspan_rxesc_i ≤ 31 →
      rxdata_on cs (l ++ rest) s p = rxdata_on cs rest { s with
        gainspan_tail_rx := (s.gainspan_tail_rx + l.length) % HARDWARE_BUFSIZE
        gainspan_rxesc_i := sat_idx s.gainspan_rxesc_i l.length }
        (sat_write p s.gainspan_rxesc_i l) := by
  induction l with
  | nil =>
    intro s p _ ht _ _
    simp only [HARDWARE_BUFSIZE] at ht
    simp [sat_write, sat_idx, HARDWARE_BUFSIZE, Nat.mod_eq_of_lt ht]
  | cons x xs ih =>
    intro s p h5 ht hl hi
    have hx := hl x (List.mem_cons_self x xs)
    have hn := rxesc_i_next_sat s.gainspan_rxesc_i hi
    rw [List.cons_append, rxdata_on,
      switch_payload_byte cs x _ p (by exact h5) hx.1 hx.2]
    simp only [Bool.false_eq_true, if_false]
    rw [ih _ _ (by exact h5) (by exact Nat.mod_lt _ (by decide))
      (fun y hy => hl y (List.mem_cons_of_mem x hy))
      (by dsimp only; rw [hn]; exact sat_step_le _ hi)]
    dsimp only
    rw [hn]
    simp only [sat_write, sat_idx, List.length_cons]
    congr 1
    cases s
    dsimp only at hi hn ht ⊢
    simp only [HARDWARE_BUFSIZE] at ht
    simp only [GS.mk.injEq, true_and, and_true, HARDWARE_BUFSIZE]
    omega

/-- The inbound frame with fields of any length. -/
theorem rxdata_on_frame_sat (cs : Bool) (c b : Nat) (ip port payload : List Nat)
    (s : GS) (p : Nat → Nat) (h0 : s.gainspan_rxesc_data = 0)
    (ht : s.gainspan_tail_rx < HARDWARE_BUFSIZE)
    (hip : ∀ x ∈ ip, x ≠ 27 ∧ x ≠ 32 ∧ char_ge_space cs x = true)
    (hport : ∀ x ∈ port, x ≠ 27 ∧ x ≠ 9 ∧ char_ge_space cs x = true)
    (hpay : ∀ x ∈ payload, x ≠ 27 ∧ char_ge_space cs x = true) :
    rxdata_on cs (inbound_frame 117 c ip port payload b) s p =
      (true, { s with
        gainspan_tail_rx :=
          (s.gainspan_tail_rx + (ip.length + port.length + payload.length + 7)) % HARDWARE_BUFSIZE
        gainspan_rxesc_cid := c
        gainspan_rxesc_data := 0
        gainspan_rxesc_i := sat_idx 0 payload.length
        gainspan_param_module_ip :=
          store (sat_write s.gainspan_param_module_ip 0 ip) (sat_idx 0 ip.length) 0
        gainspan_param_module_port :=
          store (sat_write s.gainspan_param_module_port 0 port) (sat_idx 0 port.length) 0 },
        store (sat_write p 0 payload) (sat_idx 0 payload.length) 0) := by
  have hm : ∀ n, n % HARDWARE_BUFSIZE < HARDWARE_BUFSIZE := fun n => Nat.mod_lt _ (by decide)
  have e : inbound_frame 117 c ip port payload b
      = 27 :: 117 :: c :: (ip ++ (32 :: (port ++ (9 :: (payload ++ [27, b]))))) := by
    simp [inbound_frame]
  rw [e, rxdata_on, switch_idle_esc cs _ p (by exact h0)]
  simp only [Bool.false_eq_true, if_false]
  rw [rxdata_on, switch_sawesc_u cs _ p rfl]
  simp only [Bool.false_eq_true, if_false]
  rw [rxdata_on, switch_cid cs c _ p rfl]
  simp only [Bool.false_eq_true, if_false]
  rw [rxdata_on_ip_sat cs ip _ _ p rfl (hm _) hip (by dsimp only; omega)]
  rw [rxdata_on, switch_ip_space cs _ p rfl]
  simp only [Bool.false_eq_true, if_false]
  rw [rxdata_on_port_sat cs port _ _ p rfl (hm _) hport (by dsimp only; omega)]
  rw [rxdata_on, switch_port_tab cs _ p rfl]
  simp only [Bool.false_eq_true, if_false]
  rw [rxdata_on_payload_sat cs payload _ _ p rfl (hm _) hpay (by dsimp only; omega)]
  rw [rxdata_on, switch_payload_esc cs _ _ rfl]
  simp only [Bool.false_eq_true, if_false]
  rw [rxdata_on, switch_finish cs b _ _ rfl]
  simp only [if_true]
  cases s
  dsimp only at ht ⊢
  simp only [HARDWARE_BUFSIZE] at ht
  simp only [Prod.mk.injEq, GS.mk.injEq, true_and, and_true, HARDWARE_BUFSIZE]
  omega

/-- C19: field saturation in `gainspan_RXdata`.  For every CID byte `c`, every IP
text of bytes > 0x20, every port text and payload of bytes >= 0x20 (bytes below
0x80 where plain `char` is signed), the fields of any length (so also of more
than 31 bytes), and every final byte `b`: if the decoder is Idle and the RX
channel holds exactly `ESC 'u' c ip SP port TAB payload ESC b`, then
`gainspan_RXdata` returns true, the whole frame is consumed (tail = head), each
stored text is the first 31 bytes of its field with the NUL at offset
`min n 31`, the CID is `c`, and the decoder is Idle again. -/
theorem fields_saturate (cs : Bool) (fuel : Nat) (s : GS) (p : Nat → Nat) (c b : Nat)
    (ip port payload : List Nat)
    (hidle : s.gainspan_rxesc_data = 0)
    (ht : s.gainspan_tail_rx < HARDWARE_BUFSIZE) (hh : s.gainspan_head_rx < HARDWARE_BUFSIZE)
    (hrx : rx_unread s = inbound_frame 117 c ip port payload b)
    (hip : ∀ x ∈ ip, 32 < x ∧ (cs = true → x < 128))
    (hport : ∀ x ∈ port, 32 ≤ x ∧ (cs = true → x < 128))
    (hpay : ∀ x ∈ payload, 32 ≤ x ∧ (cs = true → x < 128))
    (hf : rx_count s ≤ fuel) :
    ∃ s1 p1, gainspan_RXdata cs fuel s p = some (true, s1, p1) ∧
      s1.gainspan_rxesc_cid = c ∧
      cstring s1.gainspan_param_module_ip = ip.take 31 ∧
      cstring s1.gainspan_param_module_port = port.take 31 ∧
      cstring p1 = payload.take 31 ∧
      s1.gainspan_param_module_ip (min ip.length 31) = 0 ∧
      s1.gainspan_param_module_port (min port.length 31) = 0 ∧
      p1 (min payload.length 31) = 0 ∧
      s1.gainspan_tail_rx = s.gainspan_head_rx ∧
      s1.gainspan_rxesc_data = 0 := by
  have hip1 : ∀ x ∈ ip, x ≠ 27 ∧ x ≠ 32 ∧ char_ge_space cs x = true := fun x hx =>
    ⟨by have := (hip x hx).1; omega, by have := (hip x hx).1; omega,
      char_ge_space_of_le cs x (by have := (hip x hx).1; omega) (hip x hx).2⟩
  have hport1 : ∀ x ∈ port, x ≠ 27 ∧ x ≠ 9 ∧ char_ge_space cs x = true := fun x hx =>
    ⟨by have := (hport x hx).1; omega, by have := (hport x hx).1; omega,
      char_ge_space_of_le cs x (hport x hx).1 (hport x hx).2⟩
  have hpay1 : ∀ x ∈ payload, x ≠ 27 ∧ char_ge_space cs x = true := fun x hx =>
    ⟨by have := (hpay x hx).1; omega, char_ge_space_of_le cs x (hpay x hx).1 (hpay x hx).2⟩
  have hlen : rx_count s = ip.length + port.length + payload.length + 7 := by
    rw [← rx_unread_length, hrx]
    simp only [inbound_frame, List.length_append, List.length_cons, List.length_nil]
    omega
  have hidx : ∀ n, sat_idx 0 n = min n 31 := fun n => by
    rw [sat_idx_le _ 0 (by omega), Nat.zero_add]
  rw [gainspan_RXdata_eq cs fuel s p ht hh hf, hrx,
    rxdata_on_frame_sat cs c b ip port payload s p hidle ht hip1 hport1 hpay1]
  refine ⟨_, _, rfl, rfl, ?_, ?_, ?_, ?_, ?_, ?_, ?_, rfl⟩
  · exact cstring_sat_write _ ip (fun x hx => by have := (hip x hx).1; omega)
  · exact cstring_sat_write _ port (fun x hx => char_ge_space_ne_zero cs x (hport1 x hx).2.2)
  · exact cstring_sat_write _ payload (fun x hx => char_ge_space_ne_zero cs x (hpay1 x hx).2)
  · dsimp only; rw [hidx]; simp [store]
  · dsimp only; rw [hidx]; simp [store]
  · rw [hidx]; simp [store]
  · dsimp only
    rw [← hlen]
    simp only [rx_count, HARDWARE_BUFSIZE] at *
    omega

/-- C19 at a frame whose IP field has 33 bytes:
`ESC 'u' '0' "111...1" SP "9000" TAB "ping" ESC 'E'`. -/
theorem fields_saturate_witness :
    ∃ s1 p1, gainspan_RXdata false 250
        (rx_loaded (inbound_frame 117 48 txt_long txt_port txt_ping 69) 0) (fun _ => 0)
        = some (true, s1, p1) ∧
      s1.gainspan_rxesc_cid = 48 ∧
      cstring s1.gainspan_param_module_ip = txt_long.take 31 ∧
      cstring s1.gainspan_param_module_port = txt_port.take 31 ∧
      cstring p1 = txt_ping.take 31 ∧
      s1.gainspan_param_module_ip (min txt_long.length 31) = 0 ∧
      s1.gainspan_param_module_port (min txt_port.length 31) = 0 ∧
      p1 (min txt_ping.length 31) = 0 ∧
      s1.gainspan_tail_rx
        = (rx_loaded (inbound_frame 117 48 txt_long txt_port txt_ping 69) 0).gainspan_head_rx ∧
      s1.gainspan_rxesc_data = 0 :=
  fields_saturate false 250 (rx_loaded (inbound_frame 117 48 txt_long txt_port txt_ping 69) 0)
    (fun _ => 0) 48 69 txt_long txt_port txt_ping (by decide) (by decide) (by decide)
    (by decide) (by decide) (by decide) (by decide) (by decide)

/-! ## C17: a false escape in the decoder -/

theorem switch_skip (cs : Bool) (ch : Nat) (s : GS) (p : Nat → Nat)
    (h : s.gainspan_rxesc_data = 99) :
    gainspan_RXdata_switch cs ch s p = (false, { s with gainspan_rxesc_data := 0 }, p) := by
  simp [gainspan_RXdata_switch, h]

/-- C17 as stated fails: with the decoder in state 1 (an ESC just consumed) and
the RX channel holding the byte `'X'` followed directly by the complete frame
`ESC 'u' '0' "1" SP "9" TAB "A" ESC 'E'`, `gainspan_RXdata` returns false: the
byte `'X'` puts the decoder in state 99, not in state 0, the ESC of the frame is
swallowed there, and the rest of the frame is discarded (the call ends with the
channel empty and the decoder in state 99 again).  The single byte `'X'` alone
leaves the decoder in state 99. -/
theorem false_escape_next_frame_counterexample :
    (gainspan_RXdata false 250 (rx_sawesc (88 :: inbound_frame 117 48 [49] [57] [65] 69))
      (fun _ => 0)).map (fun r => (r.1, r.2.1.gainspan_rxesc_data, rx_unread r.2.1))
      = some (false, 99, []) ∧
    (gainspan_RXdata false 250 (rx_sawesc [88])
      (fun _ => 0)).map (fun r => (r.1, r.2.1.gainspan_rxesc_data, rx_unread r.2.1))
      = some (false, 99, []) := by
  decide

/-- C17 (amended): from state 1 a byte `x` other than `'u'` puts the decoder in
the skip state 99 with nothing else changed; the byte `y` that follows is
consumed whatever it is and only then is the decoder in state 0.  So for every
such `x`, every `y`, every CID byte `c`, IP text of bytes > 0x20, port text and
payload of bytes >= 0x20 (below 0x80 where plain `char` is signed) and final
byte `b`: if the decoder is in state 1 and the RX channel holds exactly
`x y ESC 'u' c ip SP port TAB payload ESC b`, then `gainspan_RXdata` returns
true with CID `c`, the first 31 bytes of each field as its text, the channel
empty and the decoder in state 0. -/
theorem false_escape_skips_two (cs : Bool) (fuel : Nat) (s : GS) (p : Nat → Nat)
    (x y c b : Nat) (ip port payload : List Nat)
    (hsaw : s.gainspan_rxesc_data = 1) (hx : x ≠ 117)
    (ht : s.gainspan_tail_rx < HARDWARE_BUFSIZE) (hh : s.gainspan_head_rx < HARDWARE_BUFSIZE)
    (hrx : rx_unread s = x :: y :: inbound_frame 117 c ip port payload b)
    (hip : ∀ x ∈ ip, 32 < x ∧ (cs = true → x < 128))
    (hport : ∀ x ∈ port, 32 ≤ x ∧ (cs = true → x < 128))
    (hpay : ∀ x ∈ payload, 32 ≤ x ∧ (cs = true → x < 128))
    (hf : rx_count s ≤ fuel) :
    gainspan_RXdata_switch cs x s p = (false, { s with gainspan_rxesc_data := 99 }, p) ∧
    gainspan_RXdata_switch cs y { s with gainspan_rxesc_data := 99 } p
      = (false, { s with gainspan_rxesc_data := 0 }, p) ∧
    ∃ s1 p1, gainspan_RXdata cs fuel s p = some (true, s1, p1) ∧
      s1.gainspan_rxesc_cid = c ∧
      cstring s1.gainspan_param_module_ip = ip.take 31 ∧
      cstring s1.gainspan_param_module_port = port.take 31 ∧
      cstring p1 = payload.take 31 ∧
      s1.gainspan_tail_rx = s.gainspan_head_rx ∧
      s1.gainspan_rxesc_data = 0 := by
  have hip1 : ∀ x ∈ ip, x ≠ 27 ∧ x ≠ 32 ∧ char_ge_space cs x = true := fun x hx =>
    ⟨by have := (hip x hx).1; omega, by have := (hip x hx).1; omega,
      char_ge_space_of_le cs x (by have := (hip x hx).1; omega) (hip x hx).2⟩
  have hport1 : ∀ x ∈ port, x ≠ 27 ∧ x ≠ 9 ∧ char_ge_space cs x = true := fun x hx =>
    ⟨by have := (hport x hx).1; omega, by have := (hport x hx).1; omega,
      char_ge_space_of_le cs x (hport x hx).1 (hport x hx).2⟩
  have hpay1 : ∀ x ∈ payload, x ≠ 27 ∧ char_ge_space cs x = true := fun x hx =>
    ⟨by have := (hpay x hx).1; omega, char_ge_space_of_le cs x (hpay x hx).1 (hpay x hx).2⟩
  have hlen : rx_count s = ip.length + port.length + payload.length + 9 := by
    rw [← rx_unread_length, hrx]
    simp only [inbound_frame, List.length_append, List.length_cons, List.length_nil]
    omega
  refine ⟨switch_sawesc_other cs x s p hsaw hx, ?_, ?_⟩
  · rw [switch_skip cs y _ p rfl]
  · rw [gainspan_RXdata_eq cs fuel s p ht hh hf, hrx, rxdata_on,
      switch_sawesc_other cs x _ p (by exact hsaw) hx]
    simp only [Bool.false_eq_true, if_false]
    rw [rxdata_on, switch_skip cs y _ p rfl]
    simp only [Bool.false_eq_true, if_false]
    rw [rxdata_on_frame_sat cs c b ip port payload _ p rfl
      (by exact Nat.mod_lt _ (by decide)) hip1 hport1 hpay1]
    refine ⟨_, _, rfl, rfl, ?_, ?_, ?_, ?_, rfl⟩
    · exact cstring_sat_write _ ip (fun x hx => by have := (hip x hx).1; omega)
    · exact cstring_sat_write _ port (fun x hx => char_ge_space_ne_zero cs x (hport1 x hx).2.2)
    · exact cstring_sat_write _ payload (fun x hx => char_ge_space_ne_zero cs x (hpay1 x hx).2)
    · dsimp only
      simp only [rx_count, HARDWARE_BUFSIZE] at *
      omega

/-- C17 (amended) at the bytes `'X' 'Y'` followed by the frame
`ESC 'u' '0' "10.0.0.5" SP "9000" TAB "ping" ESC 'E'`. -/
theorem false_escape_skips_two_witness :
    gainspan_RXdata_switch false 88
        (rx_sawesc (88 :: 89 :: inbound_frame 117 48 txt_ip txt_port txt_ping 69)) (fun _ => 0)
      = (false, { rx_sawesc (88 :: 89 :: inbound_frame 117 48 txt_ip txt_port txt_ping 69) with
          gainspan_rxesc_data := 99 }, fun _ => 0) ∧
    gainspan_RXdata_switch false 89
        { rx_sawesc (88 :: 89 :: inbound_frame 117 48 txt_ip txt_port txt_ping 69) with
          gainspan_rxesc_data := 99 } (fun _ => 0)
      = (false, { rx_sawesc (88 :: 89 :: inbound_frame 117 48 txt_ip txt_port txt_ping 69) with
          gainspan_rxesc_data := 0 }, fun _ => 0) ∧
    ∃ s1 p1, gainspan_RXdata false 250
        (rx_sawesc (88 :: 89 :: inbound_frame 117 48 txt_ip txt_port txt_ping 69)) (fun _ => 0)
        = some (true, s1, p1) ∧
      s1.gainspan_rxesc_cid = 48 ∧
      cstring s1.gainspan_param_module_ip = txt_ip.take 31 ∧
      cstring s1.gainspan_param_module_port = txt_port.take 31 ∧
      cstring p1 = txt_ping.take 31 ∧
      s1.gainspan_tail_rx
        = (rx_sawesc (88 :: 89 :: inbound_frame 117 48 txt_ip txt_port txt_ping 69)).gainspan_head_rx ∧
      s1.gainspan_rxesc_data = 0 :=
  false_escape_skips_two false 250
    (rx_sawesc (88 :: 89 :: inbound_frame 117 48 txt_ip txt_port txt_ping 69))
    (fun _ => 0) 88 89 48 69 txt_ip txt_port txt_ping (by decide) (by decide) (by decide)
    (by decide) (by decide) (by decide) (by decide) (by decide) (by decide)

/-! ## C18: the matcher skips one LF and one three-byte ESC marker -/

theorem ring_read_split (buf : Nat → Nat) (t : Nat) (a b : List Nat)
    (ht : t < HARDWARE_BUFSIZE) (h : ring_read buf t (a.length + b.length) = a ++ b) :
    ring_read buf t a.length = a ∧
      ring_read buf ((t + a.length) % HARDWARE_BUFSIZE) b.length = b := by
  rw [ring_read_add buf t _ _ ht] at h
  exact List.append_inj h (by simp [ring_read_length])

/-- The scan over a part of `ans` that stands in the buffer as it is. -/
theorem gainspan_RXequals_scan_part (buf : Nat → Nat) (a rest : List Nat)
    (ha : ∀ c ∈ a, c ≠ 0 ∧ c ≠ 10 ∧ c ≠ 27) (t : Nat) (ht : t < HARDWARE_BUFSIZE)
    (hbuf : ring_read buf t a.length = a) :
    gainspan_RXequals_scan buf (a ++ rest) t
      = gainspan_RXequals_scan buf rest ((t + a.length) % HARDWARE_BUFSIZE) := by
  induction a generalizing t with
  | nil =>
    simp only [HARDWARE_BUFSIZE] at ht
    simp [HARDWARE_BUFSIZE, Nat.mod_eq_of_lt ht]
  | cons c as ih =>
    have hc := ha c (List.mem_cons_self c as)
    rw [List.length_cons, ring_read_succ buf t as.length ht] at hbuf
    have hb : buf t = c := (List.cons.inj hbuf).1
    have hr := (List.cons.inj hbuf).2
    have ht1 : (t + 1) % HARDWARE_BUFSIZE < HARDWARE_BUFSIZE :=
      Nat.mod_lt _ (by decide)
    have := ih (fun x hx => ha x (List.mem_cons_of_mem c hx)) _ ht1 hr
    rw [List.cons_append, gainspan_RXequals_scan, if_neg hc.1,
      gainspan_RXequals_read_plain buf t ht (by rw [hb]; exact hc.2.1) (by rw [hb]; exact hc.2.2)]
    simp only [hb, if_true]
    rw [this]
    simp only [HARDWARE_BUFSIZE, List.length_cons]
    congr 1
    omega

/-- One LF before a compared byte is stripped. -/
theorem gainspan_RXequals_read_lf (buf : Nat → Nat) (t : Nat) (ht : t + 2 < HARDWARE_BUFSIZE)
    (h10 : buf t = 10) (h27 : buf (t + 1) ≠ 27) :
    gainspan_RXequals_read buf t = (buf (t + 1), t + 2) := by
  simp only [HARDWARE_BUFSIZE] at ht
  have e1 : ¬ (t + 1 ≥ 250) := by omega
  have e2 : ¬ (t + 1 + 1 ≥ 250) := by omega
  simp only [gainspan_RXequals_read, HARDWARE_BUFSIZE, h10, if_true, if_neg e1, if_neg e2,
    if_neg h27]

/-- An ESC and the two bytes after it are skipped. -/
theorem gainspan_RXequals_read_esc (buf : Nat → Nat) (t : Nat) (ht : t + 4 < HARDWARE_BUFSIZE)
    (h27 : buf t = 27) :
    gainspan_RXequals_read buf t = (buf (t + 3), t + 4) := by
  simp only [HARDWARE_BUFSIZE] at ht
  have e1 : ¬ (t + 1 ≥ 250) := by omega
  have e2 : ¬ (t + 1 + 2 ≥ 250) := by omega
  have e3 : (27 : Nat) ≠ 10 := by decide
  simp only [gainspan_RXequals_read, HARDWARE_BUFSIZE, h27, if_neg e3, if_true, if_neg e1,
    if_neg e2]

/-- The scan of `c :: b` over `ins ++ c :: b`, where `ins` is one LF or one
three-byte ESC marker, in a stretch of the buffer that ends below its end. -/
theorem gainspan_RXequals_scan_marker (buf : Nat → Nat) (ins b : List Nat) (c t : Nat)
    (hins : ins = [10] ∨ ∃ x y, ins = [27, x, y])
    (hc : c ≠ 0 ∧ c ≠ 10 ∧ c ≠ 27) (hb : ∀ z ∈ b, z ≠ 0 ∧ z ≠ 10 ∧ z ≠ 27)
    (ht : t + (ins.length + (1 + b.length)) < HARDWARE_BUFSIZE)
    (hbuf : ring_read buf t (ins.length + (1 + b.length)) = ins ++ c :: b) :
    gainspan_RXequals_scan buf (c :: b) t = some (t + (ins.length + (1 + b.length))) := by
  have hlt : ∀ n, n < HARDWARE_BUFSIZE → n % HARDWARE_BUFSIZE = n := fun n h => Nat.mod_eq_of_lt h
  have h250 : HARDWARE_BUFSIZE = 250 := rfl
  rcases hins with h | ⟨x, y, h⟩
  · subst h
    simp only [List.length_cons, List.length_nil, List.singleton_append] at ht hbuf
    rw [show 0 + 1 + (1 + b.length) = (b.length + 1) + 1 by omega,
      ring_read_succ buf t _ (by omega), hlt (t + 1) (by omega),
      ring_read_succ buf (t + 1) _ (by omega), hlt (t + 1 + 1) (by omega)] at hbuf
    have h0 := (List.cons.inj hbuf).1
    have h1 := (List.cons.inj (List.cons.inj hbuf).2).1
    have h2 := (List.cons.inj (List.cons.inj hbuf).2).2
    rw [gainspan_RXequals_scan, if_neg hc.1,
      gainspan_RXequals_read_lf buf t (by omega) h0 (by rw [h1]; exact hc.2.2)]
    simp only [h1, if_true]
    rw [gainspan_RXequals_scan_match buf b hb (t + 2) (by omega) h2, hlt _ (by omega)]
    simp only [List.length_cons, List.length_nil]
    congr 1
    omega
  · subst h
    simp only [List.length_cons, List.length_nil, List.cons_append, List.nil_append] at ht hbuf
    rw [show 0 + 1 + 1 + 1 + (1 + b.length) = (((b.length + 1) + 1) + 1) + 1 by omega,
      ring_read_succ buf t _ (by omega), hlt (t + 1) (by omega),
      ring_read_succ buf (t + 1) _ (by omega), hlt (t + 1 + 1) (by omega),
      ring_read_succ buf (t + 1 + 1) _ (by omega), hlt (t + 1 + 1 + 1) (by omega),
      ring_read_succ buf (t + 1 + 1 + 1) _ (by omega), hlt (t + 1 + 1 + 1 + 1) (by omega)] at hbuf
    have h0 := (List.cons.inj hbuf).1
    have h3 := (List.cons.inj (List.cons.inj (List.cons.inj (List.cons.inj hbuf).2).2).2).1
    have h4 := (List.cons.inj (List.cons.inj (List.cons.inj (List.cons.inj hbuf).2).2).2).2
    rw [gainspan_RXequals_scan, if_neg hc.1,
      gainspan_RXequals_read_esc buf t (by omega) h0]
    simp only [h3, if_true]
    rw [gainspan_RXequals_scan_match buf b hb (t + 4) (by omega) h4, hlt _ (by omega)]
    simp only [List.length_cons, List.length_nil]
    congr 1
    omega

/-- C18: normalisation in `gainspan_RXequals`.  Let the expected string be
`a ++ c :: b`, all of its bytes other than NUL, LF and ESC, and let `ins` be
either the single byte LF or three bytes `ESC x y` (`x`, `y` arbitrary).  If the
unread RX content does not wrap the end of the buffer (tail <= head) and starts
with `a ++ ins ++ c :: b`, that is the expected string with `ins` inserted
immediately before its byte `c`, then `gainspan_RXequals` returns true and
commits the tail to just after the last byte of the expected string, and one
further, with the pending-CR count decremented, when the byte there is CR;
nothing else changes.  The byte there is the next unread byte when there is
one. -/
theorem matcher_skips_marker (s : GS) (a b ins rest : List Nat) (c : Nat)
    (hins : ins = [10] ∨ ∃ x y, ins = [27, x, y])
    (ha : ∀ z ∈ a, z ≠ 0 ∧ z ≠ 10 ∧ z ≠ 27) (hc : c ≠ 0 ∧ c ≠ 10 ∧ c ≠ 27)
    (hb : ∀ z ∈ b, z ≠ 0 ∧ z ≠ 10 ∧ z ≠ 27)
    (hth : s.gainspan_tail_rx ≤ s.gainspan_head_rx)
    (hh : s.gainspan_head_rx < HARDWARE_BUFSIZE)
    (hrx : rx_unread s = a ++ ins ++ c :: b ++ rest) :
    gainspan_RXequals (a ++ c :: b) s =
      (true,
        if s.gainspan_buf_rx (s.gainspan_tail_rx + (a ++ ins ++ c :: b).length) = 13 then
          { s with
            gainspan_tail_rx := s.gainspan_tail_rx + (a ++ ins ++ c :: b).length + 1
            gainspan_rxcr := s.gainspan_rxcr - 1 }
        else { s with gainspan_tail_rx := s.gainspan_tail_rx + (a ++ ins ++ c :: b).length }) ∧
    (∀ r rs, rest = r :: rs →
      s.gainspan_buf_rx (s.gainspan_tail_rx + (a ++ ins ++ c :: b).length) = r) := by
  have h250 : HARDWARE_BUFSIZE = 250 := rfl
  have hlt : ∀ n, n < HARDWARE_BUFSIZE → n % HARDWARE_BUFSIZE = n := fun n h => Nat.mod_eq_of_lt h
  have hcount : rx_count s = s.gainspan_head_rx - s.gainspan_tail_rx := by
    simp only [rx_count, HARDWARE_BUFSIZE] at *
    omega
  have hlen : rx_count s = a.length + ((ins.length + (1 + b.length)) + rest.length) := by
    rw [← rx_unread_length, hrx]
    simp only [List.length_append, List.length_cons]
    omega
  have hmidlen : (ins ++ c :: b).length = ins.length + (1 + b.length) := by
    simp only [List.length_append, List.length_cons]
    omega
  have hall : (a ++ ins ++ c :: b).length = a.length + (ins.length + (1 + b.length)) := by
    simp only [List.length_append, List.length_cons]
    omega
  have hre : a ++ ins ++ c :: b ++ rest = a ++ ((ins ++ c :: b) ++ rest) := by simp
  have hu : ring_read s.gainspan_buf_rx s.gainspan_tail_rx
      (a.length + ((ins ++ c :: b) ++ rest).length) = a ++ ((ins ++ c :: b) ++ rest) := by
    rw [← hre, ← hrx, rx_unread, hlen, List.length_append, hmidlen]
  have h1 := ring_read_split s.gainspan_buf_rx s.gainspan_tail_rx a _ (by omega) hu
  rw [hlt _ (by omega)] at h1
  have h2 := ring_read_split s.gainspan_buf_rx (s.gainspan_tail_rx + a.length)
    (ins ++ c :: b) rest (by omega)
    (by rw [← List.length_append]; exact h1.2)
  rw [hlt _ (by omega), hmidlen] at h2
  have hscan : gainspan_RXequals_scan s.gainspan_buf_rx (a ++ c :: b) s.gainspan_tail_rx
      = some (s.gainspan_tail_rx + (a ++ ins ++ c :: b).length) := by
    rw [gainspan_RXequals_scan_part _ a _ ha _ (by omega) h1.1, hlt _ (by omega),
      gainspan_RXequals_scan_marker _ ins b c _ hins hc hb (by omega) h2.1, hall]
    congr 1
    omega
  refine ⟨?_, ?_⟩
  · rw [gainspan_RXequals_of_scan _ s _ hscan (by omega)]
    have e : ¬ (s.gainspan_tail_rx + (a ++ ins ++ c :: b).length + 1 > HARDWARE_BUFSIZE) := by
      omega
    rw [if_neg e]
  · intro r rs hr
    have h3 := h2.2
    rw [hr, List.length_cons, ring_read_succ _ _ _ (by omega)] at h3
    rw [hall, ← (List.cons.inj h3).1]
    congr 1
    omega

/-- C18 at the expected string `"OK"` with the marker `ESC 'X' 'Y'` before its
`'K'`, followed by CR: the RX channel holds `'O' ESC 'X' 'Y' 'K' CR`. -/
theorem matcher_skips_marker_witness :
    gainspan_RXequals ([79] ++ 75 :: []) (rx_loaded [79, 27, 88, 89, 75, 13] 1) =
      (true,
        if (rx_loaded [79, 27, 88, 89, 75, 13] 1).gainspan_buf_rx
            ((rx_loaded [79, 27, 88, 89, 75, 13] 1).gainspan_tail_rx
              + ([79] ++ [27, 88, 89] ++ 75 :: []).length) = 13 then
          { rx_loaded [79, 27, 88, 89, 75, 13] 1 with
            gainspan_tail_rx := (rx_loaded [79, 27, 88, 89, 75, 13] 1).gainspan_tail_rx
              + ([79] ++ [27, 88, 89] ++ 75 :: []).length + 1
            gainspan_rxcr := (rx_loaded [79, 27, 88, 89, 75, 13] 1).gainspan_rxcr - 1 }
        else { rx_loaded [79, 27, 88, 89, 75, 13] 1 with
          gainspan_tail_rx := (rx_loaded [79, 27, 88, 89, 75, 13] 1).gainspan_tail_rx
            + ([79] ++ [27, 88, 89] ++ 75 :: []).length }) ∧
    (∀ r rs, [13] = r :: rs →
      (rx_loaded [79, 27, 88, 89, 75, 13] 1).gainspan_buf_rx
        ((rx_loaded [79, 27, 88, 89, 75, 13] 1).gainspan_tail_rx
          + ([79] ++ [27, 88, 89] ++ 75 :: []).length) = r) :=
  matcher_skips_marker (rx_loaded [79, 27, 88, 89, 75, 13] 1) [79] [] [27, 88, 89] [13] 75
    (Or.inr ⟨88, 89, rfl⟩) (by decide) (by decide) (by decide) (by decide) (by decide)
    (by decide)

/-! ## C23: `gainspan_RXequals` and the RX head -/

/-- While the bytes met are neither CR nor NUL the loop of `gainspan_RXparam`
goes on: fuel that covers only such bytes gives no result. -/
theorem gainspan_RXparam_loop_none (cs : Bool) :
    ∀ (fuel : Nat) (s : GS) (i : Nat) (p : Nat → Nat),
    s.gainspan_tail_rx < HARDWARE_BUFSIZE →
    (∀ j, j < fuel → s.gainspan_buf_rx ((s.gainspan_tail_rx + j) % HARDWARE_BUFSIZE) ≠ 13 ∧
      s.gainspan_buf_rx ((s.gainspan_tail_rx + j) % HARDWARE_BUFSIZE) ≠ 0) →
    gainspan_RXparam_loop cs fuel s i p = none := by
  intro fuel
  induction fuel with
  | zero => intro s i p _ _; rfl
  | succ f ih =>
    intro s i p ht hb
    have h0 := hb 0 (by omega)
    rw [Nat.add_zero, Nat.mod_eq_of_lt ht] at h0
    have hnext : ∀ j, j < f →
        s.gainspan_buf_rx (((s.gainspan_tail_rx + 1) % HARDWARE_BUFSIZE + j) % HARDWARE_BUFSIZE)
          ≠ 13 ∧
        s.gainspan_buf_rx (((s.gainspan_tail_rx + 1) % HARDWARE_BUFSIZE + j) % HARDWARE_BUFSIZE)
          ≠ 0 := by
      intro j hj
      have e : ((s.gainspan_tail_rx + 1) % HARDWARE_BUFSIZE + j) % HARDWARE_BUFSIZE
          = (s.gainspan_tail_rx + (j + 1)) % HARDWARE_BUFSIZE := by
        simp only [HARDWARE_BUFSIZE]; omega
      rw [e]
      exact hb (j + 1) (by omega)
    cases hge : char_ge_space cs (s.gainspan_buf_rx s.gainspan_tail_rx) with
    | true =>
      rw [gainspan_RXparam_loop_byte cs f s i p _ ht rfl hge h0.1]
      exact ih _ _ _ (Nat.mod_lt _ (by decide)) hnext
    | false =>
      rw [gainspan_RXparam_loop_skip cs f s i p _ ht rfl hge h0.1 h0.2]
      exact ih _ _ _ (Nat.mod_lt _ (by decide)) hnext

/-- The loop of `gainspan_RXparam` reads the same bytes whatever the RX head. -/
theorem gainspan_RXparam_loop_head (cs : Bool) (h : Nat) :
    ∀ (fuel : Nat) (s : GS) (i : Nat) (p : Nat → Nat),
    gainspan_RXparam_loop cs fuel { s with gainspan_head_rx := h } i p =
      (gainspan_RXparam_loop cs fuel s i p).map
        (fun r => ({ r.1 with gainspan_head_rx := h }, r.2)) := by
  intro fuel
  induction fuel with
  | zero => intro s i p; rfl
  | succ f ih =>
    intro s i p
    rw [gainspan_RXparam_loop, gainspan_RXparam_loop]
    dsimp only
    split_ifs <;> (try dsimp only) <;> first
      | rfl
      | exact ih { s with gainspan_tail_rx := 0 } _ _
      | exact ih { s with gainspan_tail_rx := inc8 s.gainspan_tail_rx } _ _
      | exact ih { s with gainspan_tail_rx := 0, gainspan_rxcr := s.gainspan_rxcr - 1 } _ _
      | exact ih { s with
          gainspan_tail_rx := inc8 s.gainspan_tail_rx
          gainspan_rxcr := s.gainspan_rxcr - 1 } _ _

/-- C26: termination of `gainspan_RXparam` does not depend on the RX head.  From
an in-range tail: the call gives the same result whatever the head is; if at
least one of the 250 bytes of the RX array is CR or NUL, the call returns after
consuming exactly `k + 1 <= 250` bytes, where `k` is the distance from tail to
the first such byte walking the ring (so no smaller budget of loop turns gives a
result, and every larger one gives the same), with tail just past that byte and
head untouched; if no byte of the array is CR or NUL, no budget of loop turns
gives a result: the loop cycles round the ring for ever. -/
theorem rxparam_terminates_iff_terminator (cs : Bool) (s : GS) (p : Nat → Nat)
    (ht : s.gainspan_tail_rx < HARDWARE_BUFSIZE) :
    (∀ h fuel, gainspan_RXparam cs fuel { s with gainspan_head_rx := h } p =
      (gainspan_RXparam cs fuel s p).map
        (fun r => ({ r.1 with gainspan_head_rx := h }, r.2))) ∧
    ((∃ j, j < HARDWARE_BUFSIZE ∧ (s.gainspan_buf_rx j = 13 ∨ s.gainspan_buf_rx j = 0)) →
      ∃ k s1 p1, k < HARDWARE_BUFSIZE ∧
        (∀ fuel, k < fuel → gainspan_RXparam cs fuel s p = some (s1, p1)) ∧
        (∀ fuel, fuel ≤ k → gainspan_RXparam cs fuel s p = none) ∧
        s1.gainspan_tail_rx = (s.gainspan_tail_rx + (k + 1)) % HARDWARE_BUFSIZE ∧
        s1.gainspan_head_rx = s.gainspan_head_rx) ∧
    ((∀ j, j < HARDWARE_BUFSIZE → s.gainspan_buf_rx j ≠ 13 ∧ s.gainspan_buf_rx j ≠ 0) →
      ∀ fuel, gainspan_RXparam cs fuel s p = none) := by
  refine ⟨?_, ?_, ?_⟩
  · intro h fuel
    simp only [gainspan_RXparam, gainspan_RXparam_loop_head cs h fuel s 0 p]
    cases gainspan_RXparam_loop cs fuel s 0 p with
    | none => rfl
    | some r => rfl
  · rintro ⟨j, hj, hterm⟩
    have hex : ∃ k, s.gainspan_buf_rx ((s.gainspan_tail_rx + k) % HARDWARE_BUFSIZE) = 13 ∨
        s.gainspan_buf_rx ((s.gainspan_tail_rx + k) % HARDWARE_BUFSIZE) = 0 := by
      refine ⟨(j + HARDWARE_BUFSIZE - s.gainspan_tail_rx) % HARDWARE_BUFSIZE, ?_⟩
      have e : (s.gainspan_tail_rx + (j + HARDWARE_BUFSIZE - s.gainspan_tail_rx)
          % HARDWARE_BUFSIZE) % HARDWARE_BUFSIZE = j := by
        simp only [HARDWARE_BUFSIZE] at *; omega
      rw [e]
      exact hterm
    have hk250 : Nat.find hex < HARDWARE_BUFSIZE :=
      lt_of_le_of_lt (Nat.find_min' hex (by
        have e : (s.gainspan_tail_rx + (j + HARDWARE_BUFSIZE - s.gainspan_tail_rx)
            % HARDWARE_BUFSIZE) % HARDWARE_BUFSIZE = j := by
          simp only [HARDWARE_BUFSIZE] at *; omega
        rw [e]
        exact hterm)) (Nat.mod_lt _ (by decide))
    have hspec := Nat.find_spec hex
    have hmin : ∀ i, i < Nat.find hex →
        s.gainspan_buf_rx ((s.gainspan_tail_rx + i) % HARDWARE_BUFSIZE) ≠ 13 ∧
        s.gainspan_buf_rx ((s.gainspan_tail_rx + i) % HARDWARE_BUFSIZE) ≠ 0 := by
      intro i hi
      have := Nat.find_min hex hi
      exact ⟨fun h => this (Or.inl h), fun h => this (Or.inr h)⟩
    generalize Nat.find hex = k at hk250 hspec hmin
    have hlen : (ring_read s.gainspan_buf_rx s.gainspan_tail_rx k).length = k :=
      ring_read_length _ _ _
    have hline : ∀ x ∈ ring_read s.gainspan_buf_rx s.gainspan_tail_rx k, x ≠ 13 ∧ x ≠ 0 := by
      intro x hx
      simp only [ring_read, List.mem_map, List.mem_range] at hx
      obtain ⟨i, hi, rfl⟩ := hx
      exact hmin i hi
    have hbuf : ring_read s.gainspan_buf_rx s.gainspan_tail_rx
        ((ring_read s.gainspan_buf_rx s.gainspan_tail_rx k).length + 1)
        = ring_read s.gainspan_buf_rx s.gainspan_tail_rx k
          ++ [s.gainspan_buf_rx ((s.gainspan_tail_rx + k) % HARDWARE_BUFSIZE)] := by
      rw [hlen, ring_read_snoc]
    have hl : ∀ fuel, k < fuel → gainspan_RXparam_loop cs fuel s 0 p = _ := fun fuel hf =>
      gainspan_RXparam_loop_any cs _ hspec _ fuel s 0 p ht hbuf hline (by rw [hlen]; exact hf)
    rw [hlen] at hl
    refine ⟨k, { s with
        gainspan_tail_rx := (s.gainspan_tail_rx + (k + 1)) % HARDWARE_BUFSIZE
        gainspan_rxcr :=
          if s.gainspan_buf_rx ((s.gainspan_tail_rx + k) % HARDWARE_BUFSIZE) = 13
          then s.gainspan_rxcr - 1 else s.gainspan_rxcr },
      store (sat_write p 0 ((ring_read s.gainspan_buf_rx s.gainspan_tail_rx k).filter
          (char_ge_space cs)))
        (sat_idx 0 ((ring_read s.gainspan_buf_rx s.gainspan_tail_rx k).filter
          (char_ge_space cs)).length) 0,
      hk250, ?_, ?_, rfl, rfl⟩
    · intro fuel hf
      rw [gainspan_RXparam, hl fuel hf]
    · intro fuel hf
      rw [gainspan_RXparam, gainspan_RXparam_loop_none cs fuel s 0 p ht
        (fun i hi => hmin i (by omega))]
  · intro hno fuel
    rw [gainspan_RXparam, gainspan_RXparam_loop_none cs fuel s 0 p ht
      (fun i _ => hno _ (Nat.mod_lt _ (by decide)))]

/-- C26 at two inputs: the channel holding `"A\r"` from index 0, where the call
returns after two bytes, and the array filled with `'A'`, where no budget gives
a result. -/
theorem rxparam_terminates_iff_terminator_witness :
    (∃ k s1 p1, k < HARDWARE_BUFSIZE ∧
      (∀ fuel, k < fuel →
        gainspan_RXparam false fuel (rx_loaded [65, 13] 1) (fun _ => 0) = some (s1, p1)) ∧
      (∀ fuel, fuel ≤ k →
        gainspan_RXparam false fuel (rx_loaded [65, 13] 1) (fun _ => 0) = none) ∧
      s1.gainspan_tail_rx
        = ((rx_loaded [65, 13] 1).gainspan_tail_rx + (k + 1)) % HARDWARE_BUFSIZE ∧
      s1.gainspan_head_rx = (rx_loaded [65, 13] 1).gainspan_head_rx) ∧
    (∀ fuel, gainspan_RXparam false fuel rx_no_terminator (fun _ => 0) = none) :=
  ⟨(rxparam_terminates_iff_terminator false (rx_loaded [65, 13] 1) (fun _ => 0)
      (by decide)).2.1 ⟨1, by decide, Or.inl (by decide)⟩,
    (rxparam_terminates_iff_terminator false rx_no_terminator (fun _ => 0)
      (by decide)).2.2 (fun _ _ => ⟨by simp [rx_no_terminator], by simp [rx_no_terminator]⟩)⟩

/-! ## C24: the write cursor of the decoder -/

/-- One byte through the `switch`: from a cursor within `0 .. 31` each of the
three text buffers is left as it was or written at the cursor, and the cursor
stays within `0 .. 31`. -/
theorem switch_cursor (cs : Bool) (ch : Nat) (s : GS) (p : Nat → Nat)
    (hi : s.gainspan_rxesc_i ≤ 31) :
    (gainspan_RXdata_switch cs ch s p).2.1.gainspan_rxesc_i ≤ 31 ∧
    ((gainspan_RXdata_switch cs ch s p).2.1.gainspan_param_module_ip
        = s.gainspan_param_module_ip ∨
      ∃ v, (gainspan_RXdata_switch cs ch s p).2.1.gainspan_param_module_ip
        = store s.gainspan_param_module_ip s.gainspan_rxesc_i v) ∧
    ((gainspan_RXdata_switch cs ch s p).2.1.gainspan_param_module_port
        = s.gainspan_param_module_port ∨
      ∃ v, (gainspan_RXdata_switch cs ch s p).2.1.gainspan_param_module_port
        = store s.gainspan_param_module_port s.gainspan_rxesc_i v) ∧
    ((gainspan_RXdata_switch cs ch s p).2.2 = p ∨
      ∃ v, (gainspan_RXdata_switch cs ch s p).2.2 = store p s.gainspan_rxesc_i v) := by
  have hn := rxesc_i_next_sat s.gainspan_rxesc_i hi
  have hle := sat_step_le s.gainspan_rxesc_i hi
  rw [← hn] at hle
  simp only [gainspan_RXdata_switch]
  split <;> (try split_ifs) <;>
    exact ⟨by first | exact hi | exact hle | exact Nat.zero_le 31,
      by first | exact Or.inl rfl | exact Or.inr ⟨_, rfl⟩,
      by first | exact Or.inl rfl | exact Or.inr ⟨_, rfl⟩,
      by first | exact Or.inl rfl | exact Or.inr ⟨_, rfl⟩⟩

theorem store_of_ne (a : Nat → Nat) (i v j : Nat) (h : j ≠ i) : store a i v j = a j := by
  simp [store, h]

/-- What the cursor bound gives for one byte: nothing at offset 32 or beyond is
written. -/
theorem switch_cursor_frame (cs : Bool) (ch : Nat) (s : GS) (p : Nat → Nat)
    (hi : s.gainspan_rxesc_i ≤ 31) (j : Nat) (hj : 32 ≤ j) :
    (gainspan_RXdata_switch cs ch s p).2.1.gainspan_param_module_ip j
      = s.gainspan_param_module_ip j ∧
    (gainspan_RXdata_switch cs ch s p).2.1.gainspan_param_module_port j
      = s.gainspan_param_module_port j ∧
    (gainspan_RXdata_switch cs ch s p).2.2 j = p j := by
  obtain ⟨_, h1, h2, h3⟩ := switch_cursor cs ch s p hi
  refine ⟨?_, ?_, ?_⟩
  · rcases h1 with h | ⟨v, h⟩
    · rw [h]
    · rw [h, store_of_ne _ _ _ _ (by omega)]
  · rcases h2 with h | ⟨v, h⟩
    · rw [h]
    · rw [h, store_of_ne _ _ _ _ (by omega)]
  · rcases h3 with h | ⟨v, h⟩
    · rw [h]
    · rw [h, store_of_ne _ _ _ _ (by omega)]

/-- The cursor bound over a whole call of the loop of `gainspan_RXdata`,
whatever the RX indices are. -/
theorem gainspan_RXdata_loop_cursor (cs : Bool) :
    ∀ (fuel : Nat) (s : GS) (p : Nat → Nat) (r : Bool × GS × (Nat → Nat)),
    s.gainspan_rxesc_i ≤ 31 → gainspan_RXdata_loop cs fuel s p = some r →
    r.2.1.gainspan_rxesc_i ≤ 31 ∧
    ∀ j, 32 ≤ j →
      r.2.1.gainspan_param_module_ip j = s.gainspan_param_module_ip j ∧
      r.2.1.gainspan_param_module_port j = s.gainspan_param_module_port j ∧
      r.2.2 j = p j := by
  intro fuel
  induction fuel with
  | zero => intro s p r _ h; simp [gainspan_RXdata_loop] at h
  | succ f ih =>
    intro s p r hi h
    rw [gainspan_RXdata_loop] at h
    dsimp only at h
    generalize hs2 : (if inc8 s.gainspan_tail_rx ≥ HARDWARE_BUFSIZE
      then { s with gainspan_tail_rx := 0 }
      else { s with gainspan_tail_rx := inc8 s.gainspan_tail_rx }) = s2 at h
    have e : s2.gainspan_rxesc_i = s.gainspan_rxesc_i ∧
        s2.gainspan_param_module_ip = s.gainspan_param_module_ip ∧
        s2.gainspan_param_module_port = s.gainspan_param_module_port := by
      rw [← hs2]; split <;> exact ⟨rfl, rfl, rfl⟩
    have hi2 : s2.gainspan_rxesc_i ≤ 31 := by rw [e.1]; exact hi
    have hc := switch_cursor cs (s.gainspan_buf_rx s.gainspan_tail_rx) s2 p hi2
    have hfr := switch_cursor_frame cs (s.gainspan_buf_rx s.gainspan_tail_rx) s2 p hi2
    rw [e.2.1, e.2.2] at hfr
    split_ifs at h with h1 h2
    · cases h
      exact ⟨hc.1, hfr⟩
    · have := ih _ _ r hc.1 h
      exact ⟨this.1, fun j hj => by
        obtain ⟨a1, a2, a3⟩ := this.2 j hj
        obtain ⟨b1, b2, b3⟩ := hfr j hj
        exact ⟨a1.trans b1, a2.trans b2, a3.trans b3⟩⟩
    · cases h
      exact ⟨hc.1, hfr⟩

/-- C24: the write cursor of the decoder stays within the 32-byte buffers.  If
`gainspan_rxesc_i <= 31`, then on every byte, in every decoder state, the
`switch` of `gainspan_RXdata` writes the IP, port and payload buffers at the
cursor only (the terminating NUL included) and leaves the cursor `<= 31`.  So
whenever a call of `gainspan_RXdata` returns, the cursor is `<= 31` and nothing
at offset 32 or beyond has been written in any of the three buffers; and on
in-range RX indices the call does return, within one loop turn per unread
byte. -/
theorem cursor_stays_in_buffer (cs : Bool) (fuel : Nat) (s : GS) (p : Nat → Nat)
    (hi : s.gainspan_rxesc_i ≤ 31) :
    (∀ ch : Nat,
      (gainspan_RXdata_switch cs ch s p).2.1.gainspan_rxesc_i ≤ 31 ∧
      ((gainspan_RXdata_switch cs ch s p).2.1.gainspan_param_module_ip
          = s.gainspan_param_module_ip ∨
        ∃ v, (gainspan_RXdata_switch cs ch s p).2.1.gainspan_param_module_ip
          = store s.gainspan_param_module_ip s.gainspan_rxesc_i v) ∧
      ((gainspan_RXdata_switch cs ch s p).2.1.gainspan_param_module_port
          = s.gainspan_param_module_port ∨
        ∃ v, (gainspan_RXdata_switch cs ch s p).2.1.gainspan_param_module_port
          = store s.gainspan_param_module_port s.gainspan_rxesc_i v) ∧
      ((gainspan_RXdata_switch cs ch s p).2.2 = p ∨
        ∃ v, (gainspan_RXdata_switch cs ch s p).2.2 = store p s.gainspan_rxesc_i v)) ∧
    (∀ r, gainspan_RXdata cs fuel s p = some r →
      r.2.1.gainspan_rxesc_i ≤ 31 ∧
      ∀ j, 32 ≤ j →
        r.2.1.gainspan_param_module_ip j = s.gainspan_param_module_ip j ∧
        r.2.1.gainspan_param_module_port j = s.gainspan_param_module_port j ∧
        r.2.2 j = p j) ∧
    (s.gainspan_tail_rx < HARDWARE_BUFSIZE → s.gainspan_head_rx < HARDWARE_BUFSIZE →
      rx_count s ≤ fuel → ∃ r, gainspan_RXdata cs fuel s p = some r) := by
  refine ⟨fun ch => switch_cursor cs ch s p hi, ?_, ?_⟩
  · intro r h
    rw [gainspan_RXdata] at h
    split_ifs at h
    · cases h
      exact ⟨hi, fun _ _ => ⟨rfl, rfl, rfl⟩⟩
    · exact gainspan_RXdata_loop_cursor cs fuel s p r hi h
  · intro ht hh hf
    exact ⟨_, gainspan_RXdata_eq cs fuel s p ht hh hf⟩

/-- C24 at a frame whose IP field has 33 bytes, from the start-up state. -/
theorem cursor_stays_in_buffer_witness :
    ∃ r, gainspan_RXdata false 250
      (rx_loaded (inbound_frame 117 48 txt_long txt_port txt_ping 69) 0) (fun _ => 0) = some r ∧
      r.2.1.gainspan_rxesc_i ≤ 31 ∧
      ∀ j, 32 ≤ j →
        r.2.1.gainspan_param_module_ip j
          = (rx_loaded (inbound_frame 117 48 txt_long txt_port txt_ping 69) 0).gainspan_param_module_ip j ∧
        r.2.1.gainspan_param_module_port j
          = (rx_loaded (inbound_frame 117 48 txt_long txt_port txt_ping 69)
              0).gainspan_param_module_port j ∧
        r.2.2 j = (fun _ => 0) j :=
  ((cursor_stays_in_buffer false 250
      (rx_loaded (inbound_frame 117 48 txt_long txt_port txt_ping 69) 0) (fun _ => 0)
      (by decide)).2.2 (by decide) (by decide) (by decide)).elim
    (fun r hr => ⟨r, hr, (cursor_stays_in_buffer false 250
      (rx_loaded (inbound_frame 117 48 txt_long txt_port txt_ping 69) 0) (fun _ => 0)
      (by decide)).2.1 r hr⟩)

/-! ## C27: `gainspan_RXdata` reads unread bytes only -/

theorem switch_true_iff (cs : Bool) (ch : Nat) (s : GS) (p : Nat → Nat) :
    (gainspan_RXdata_switch cs ch s p).1 = true ↔ s.gainspan_rxesc_data = 6 := by
  simp only [gainspan_RXdata_switch]
  split <;> rename_i h <;> (try split_ifs) <;> simp_all

/-- The decoder reaches state 6 only by an ESC. -/
theorem switch_state6 (cs : Bool) (ch : Nat) (s : GS) (p : Nat → Nat)
    (h6 : (gainspan_RXdata_switch cs ch s p).2.1.gainspan_rxesc_data = 6) : ch = 27 := by
  simp only [gainspan_RXdata_switch] at h6
  split at h6 <;> rename_i h <;> (try split_ifs at h6) <;> simp_all [inc8]

theorem ring_read_drop (buf : Nat → Nat) (t k n : Nat) (ht : t < HARDWARE_BUFSIZE)
    (hk : k ≤ n) :
    ring_read buf ((t + k) % HARDWARE_BUFSIZE) (n - k) = (ring_read buf t n).drop k := by
  have e : n = k + (n - k) := by omega
  rw [e, ring_read_add buf t k (n - k) ht, List.drop_left' (ring_read_length _ _ _)]
  congr 1
  omega

/-- How far `rxdata_on` gets: through all the bytes when it reports no frame,
and to one byte after an ESC when it reports one. -/
theorem rxdata_on_extent (cs : Bool) (l : List Nat) : ∀ (s : GS) (p : Nat → Nat),
    s.gainspan_tail_rx < HARDWARE_BUFSIZE →
    ∃ k, k ≤ l.length ∧
      (rxdata_on cs l s p).2.1.gainspan_tail_rx = (s.gainspan_tail_rx + k) % HARDWARE_BUFSIZE ∧
      (rxdata_on cs l s p).2.1.gainspan_head_rx = s.gainspan_head_rx ∧
      (rxdata_on cs l s p).2.1.gainspan_buf_rx = s.gainspan_buf_rx ∧
      ((rxdata_on cs l s p).1 = false → k = l.length) ∧
      ((rxdata_on cs l s p).1 = true →
        1 ≤ k ∧ (k = 1 → s.gainspan_rxesc_data = 6) ∧ (2 ≤ k → l[k - 2]? = some 27)) := by
  induction l with
  | nil =>
    intro s p ht
    refine ⟨0, Nat.le_refl _, ?_, rfl, rfl, fun _ => rfl, fun h => ?_⟩
    · simp only [rxdata_on, Nat.add_zero]
      exact (Nat.mod_eq_of_lt ht).symm
    · simp [rxdata_on] at h
  | cons ch rest ih =>
    intro s p ht
    have hrx := gainspan_RXdata_switch_rx cs ch
      { s with gainspan_tail_rx := (s.gainspan_tail_rx + 1) % HARDWARE_BUFSIZE } p
    have hiff := switch_true_iff cs ch
      { s with gainspan_tail_rx := (s.gainspan_tail_rx + 1) % HARDWARE_BUFSIZE } p
    have h6 := switch_state6 cs ch
      { s with gainspan_tail_rx := (s.gainspan_tail_rx + 1) % HARDWARE_BUFSIZE } p
    rw [rxdata_on]
    dsimp only at hrx hiff h6 ⊢
    generalize gainspan_RXdata_switch cs ch
      { s with gainspan_tail_rx := (s.gainspan_tail_rx + 1) % HARDWARE_BUFSIZE } p = r
      at hrx hiff h6 ⊢
    by_cases hr : r.1 = true
    · rw [if_pos hr]
      refine ⟨1, by simp, hrx.2.2, hrx.2.1, hrx.1, fun h => by simp at h,
        fun _ => ⟨Nat.le_refl _, fun _ => hiff.1 hr, fun h => by omega⟩⟩
    · rw [if_neg hr]
      have ht1 : r.2.1.gainspan_tail_rx < HARDWARE_BUFSIZE := by
        rw [hrx.2.2]; exact Nat.mod_lt _ (by decide)
      obtain ⟨k, hk, a1, a2, a3, a4, a5⟩ := ih r.2.1 r.2.2 ht1
      refine ⟨k + 1, by simp only [List.length_cons]; omega, ?_, a2.trans hrx.2.1,
        a3.trans hrx.1, fun h => by rw [a4 h, List.length_cons], fun h => ?_⟩
      · rw [a1, hrx.2.2]
        simp only [HARDWARE_BUFSIZE]
        omega
      · obtain ⟨b1, b2, b3⟩ := a5 h
        refine ⟨by omega, fun h1 => by omega, fun _ => ?_⟩
        by_cases hk1 : k = 1
        · subst hk1
          have := h6 (b2 rfl)
          simp [this]
        · have e : k + 1 - 2 = (k - 2) + 1 := by omega
          rw [e, List.getElem?_cons_succ]
          exact b3 (by omega)

/-- C27: the frame decoder is non-blocking and consumes only unread bytes.  For
every state with RX head and tail below 250, `gainspan_RXdata` returns within
one loop turn per unread byte, having consumed `k <= (head - tail) mod 250`
bytes (tail moves `k` places round the ring; head and the buffer are
untouched).  On an empty channel it returns false and changes nothing.  When
it returns false it has consumed every unread byte: tail equals head.  When it
returns true, the byte consumed last stands one place after an ESC (the ESC is
the byte consumed before it or, when the call starts in state 6, the last byte
of an earlier call), and the bytes after it are still unread. -/
theorem rxdata_nonblocking (cs : Bool) (fuel : Nat) (s : GS) (p : Nat → Nat)
    (ht : s.gainspan_tail_rx < HARDWARE_BUFSIZE) (hh : s.gainspan_head_rx < HARDWARE_BUFSIZE)
    (hf : rx_count s ≤ fuel) :
    ∃ r s1 p1 k, gainspan_RXdata cs fuel s p = some (r, s1, p1) ∧
      k ≤ rx_count s ∧
      s1.gainspan_tail_rx = (s.gainspan_tail_rx + k) % HARDWARE_BUFSIZE ∧
      s1.gainspan_head_rx = s.gainspan_head_rx ∧
      s1.gainspan_buf_rx = s.gainspan_buf_rx ∧
      (s.gainspan_tail_rx = s.gainspan_head_rx → r = false ∧ s1 = s ∧ p1 = p) ∧
      (r = false → s1.gainspan_tail_rx = s1.gainspan_head_rx ∧ k = rx_count s) ∧
      (r = true →
        1 ≤ k ∧ (k = 1 → s.gainspan_rxesc_data = 6) ∧
        (2 ≤ k → (rx_unread s)[k - 2]? = some 27) ∧
        rx_unread s1 = (rx_unread s).drop k) := by
  obtain ⟨k, hk, a1, a2, a3, a4, a5⟩ := rxdata_on_extent cs (rx_unread s) s p ht
  rw [rx_unread_length] at hk a4
  have hret := gainspan_RXdata_eq cs fuel s p ht hh hf
  refine ⟨(rxdata_on cs (rx_unread s) s p).1, (rxdata_on cs (rx_unread s) s p).2.1,
    (rxdata_on cs (rx_unread s) s p).2.2, k, hret, hk, a1, a2, a3, ?_, ?_, ?_⟩
  · intro he
    have hc : rx_count s = 0 := by
      simp only [rx_count, HARDWARE_BUFSIZE] at *; omega
    have hu : rx_unread s = [] := by simp [rx_unread, hc, ring_read]
    rw [hu]
    exact ⟨rfl, rfl, rfl⟩
  · intro hr
    refine ⟨?_, a4 hr⟩
    rw [a1, a2, a4 hr]
    simp only [rx_count, HARDWARE_BUFSIZE] at *
    omega
  · intro hr
    obtain ⟨b1, b2, b3⟩ := a5 hr
    refine ⟨b1, b2, b3, ?_⟩
    have hc : rx_count (rxdata_on cs (rx_unread s) s p).2.1 = rx_count s - k := by
      simp only [rx_count, a1, a2]
      simp only [rx_count, HARDWARE_BUFSIZE] at *
      omega
    rw [rx_unread, hc, a1, a3, ring_read_drop _ _ _ _ ht hk]
    rfl

/-- C27 at the frame `ESC 'u' '0' "10.0.0.5" SP "9000" TAB "ping" ESC 'E'`
followed by the bytes `"OK\r"`, from the start-up state. -/
theorem rxdata_nonblocking_witness :
    ∃ r s1 p1 k, gainspan_RXdata false 250 rx_frame_ok (fun _ => 0) = some (r, s1, p1) ∧
      k ≤ rx_count rx_frame_ok ∧
      s1.gainspan_tail_rx = (rx_frame_ok.gainspan_tail_rx + k) % HARDWARE_BUFSIZE ∧
      s1.gainspan_head_rx = rx_frame_ok.gainspan_head_rx ∧
      s1.gainspan_buf_rx = rx_frame_ok.gainspan_buf_rx ∧
      (rx_frame_ok.gainspan_tail_rx = rx_frame_ok.gainspan_head_rx →
        r = false ∧ s1 = rx_frame_ok ∧ p1 = fun _ => 0) ∧
      (r = false → s1.gainspan_tail_rx = s1.gainspan_head_rx ∧ k = rx_count rx_frame_ok) ∧
      (r = true →
        1 ≤ k ∧ (k = 1 → rx_frame_ok.gainspan_rxesc_data = 6) ∧
        (2 ≤ k → (rx_unread rx_frame_ok)[k - 2]? = some 27) ∧
        rx_unread s1 = (rx_unread rx_frame_ok).drop k) :=
  rxdata_nonblocking false 250 rx_frame_ok (fun _ => 0) (by decide) (by decide) (by decide)

/-! ## C25: an aborted frame and the stored endpoint -/

theorem switch_ip_esc (cs : Bool) (s : GS) (p : Nat → Nat) (h : s.gainspan_rxesc_data = 3) :
    gainspan_RXdata_switch cs 27 s p = (false, { s with gainspan_rxesc_data := 0 }, p) := by
  simp [gainspan_RXdata_switch, h]

theorem store_list_ge (l : List Nat) : ∀ (a : Nat → Nat) (i j : Nat), i + l.length ≤ j →
    store_list a i l j = a j := by
  induction l with
  | nil => intro a i j _; rfl
  | cons x xs ih =>
    intro a i j h
    simp only [List.length_cons] at h
    rw [store_list, ih _ _ _ (by omega)]
    simp only [store]
    rw [if_neg (by omega)]

/-- An array whose first bytes are the non-zero bytes of `l` holds a C string
that begins with `l`. -/
theorem cstring_take_of_text (a : Nat → Nat) (l : List Nat)
    (hl : l.length ≤ HARDWARE_BUFSIZESML) (hnz : ∀ x ∈ l, x ≠ 0)
    (ha : ∀ k (h : k < l.length), a k = l[k]) :
    (cstring a).take l.length = l := by
  have e : array_bytes a
      = l ++ (List.range' l.length (HARDWARE_BUFSIZESML - l.length)).map a := by
    have e1 : List.range HARDWARE_BUFSIZESML
        = List.range' 0 l.length ++ List.range' l.length (HARDWARE_BUFSIZESML - l.length) := by
      rw [List.range_eq_range']
      have := @List.range'_append 0 l.length (HARDWARE_BUFSIZESML - l.length) 1
      simp only [Nat.one_mul, Nat.zero_add] at this
      rw [this]
      congr 1
      omega
    rw [array_bytes, e1, List.map_append]
    congr 1
    apply List.ext_getElem
    · simp
    · intro k h1 h2
      simp only [List.getElem_map, List.getElem_range', Nat.zero_add, Nat.one_mul]
      exact ha k h2
  have hall : ∀ x ∈ l, (fun b : Nat => b != 0) x = true := fun x hx => by
    simpa using hnz x hx
  rw [cstring, e, List.takeWhile_append_of_pos hall, List.take_left']
  rfl

/-- An array whose first bytes are the non-zero bytes of `l` is sent by
`gainspan_TXparam` as a text that begins with `l`. -/
theorem tx_text_take_of_text (a : Nat → Nat) (l : List Nat)
    (hl : l.length ≤ HARDWARE_BUFSIZESML) (hnz : ∀ x ∈ l, x ≠ 0)
    (ha : ∀ k (h : k < l.length), a k = l[k]) :
    (tx_text a).take l.length = l := by
  have hl2 : l.length ≤ HARDWARE_BUFSIZE := Nat.le_trans hl (by decide)
  have e : pointer_bytes a
      = l ++ (List.range' l.length (HARDWARE_BUFSIZE + 1 - l.length)).map a := by
    have e1 : List.range (HARDWARE_BUFSIZE + 1)
        = List.range' 0 l.length ++ List.range' l.length (HARDWARE_BUFSIZE + 1 - l.length) := by
      rw [List.range_eq_range']
      have := @List.range'_append 0 l.length (HARDWARE_BUFSIZE + 1 - l.length) 1
      simp only [Nat.one_mul, Nat.zero_add] at this
      rw [this]
      congr 1
      omega
    rw [pointer_bytes, e1, List.map_append]
    congr 1
    apply List.ext_getElem
    · simp
    · intro k h1 h2
      simp only [List.getElem_map, List.getElem_range', Nat.zero_add, Nat.one_mul]
      exact ha k h2
  have hall : ∀ x ∈ l, (fun b : Nat => b != 0) x = true := fun x hx => by
    simpa using hnz x hx
  rw [tx_text, e, List.takeWhile_append_of_pos hall, List.take_take,
    Nat.min_eq_left hl2, List.take_left']
  rfl

theorem gainspan_TXparam_take (l : List Nat) (s : GS) :
    gainspan_TXparam l s
      = push_all ((l.takeWhile (fun b => b != 0)).take HARDWARE_BUFSIZE) s := by
  rw [gainspan_TXparam, gainspan_TXparam_loop_take]
  rfl

/-- `gainspan_TXdata` on any state: the CID, the texts `gainspan_TXparam` sends
from the two endpoint arrays, and the payload, each cut to 250 bytes. -/
theorem gainspan_TXdata_sends (buf : List Nat) (s : GS) :
    gainspan_TXdata buf s = push_all (outbound_frame s.gainspan_rxesc_cid
      (tx_text s.gainspan_param_module_ip) (tx_text s.gainspan_param_module_port)
      ((buf.takeWhile (fun b => b != 0)).take HARDWARE_BUFSIZE)) s := by
  have e1 : ∀ (b : Nat) (t : GS), gainspan_TXchar b t = push_all [b] t := fun _ _ => rfl
  simp only [gainspan_TXdata, outbound_frame, push_all_append]
  simp only [e1]
  have c1 : (push_all [85] (push_all [27] s)).gainspan_rxesc_cid = s.gainspan_rxesc_cid := by
    rw [(push_all_endpoint _ _).1, (push_all_endpoint _ _).1]
  have c2 : (push_all [(push_all [85] (push_all [27] s)).gainspan_rxesc_cid]
      (push_all [85] (push_all [27] s))).gainspan_param_module_ip
      = s.gainspan_param_module_ip := by
    rw [(push_all_endpoint _ _).2.1, (push_all_endpoint _ _).2.1, (push_all_endpoint _ _).2.1]
  rw [c2, c1, gainspan_TXparam_take (pointer_bytes s.gainspan_param_module_ip)]
  have c3 : (push_all [58] (push_all
      ((List.takeWhile (fun b => b != 0) (pointer_bytes s.gainspan_param_module_ip)).take
        HARDWARE_BUFSIZE)
      (push_all [s.gainspan_rxesc_cid] (push_all [85] (push_all [27] s))))).gainspan_param_module_port
      = s.gainspan_param_module_port := by
    simp only [(push_all_endpoint _ _).2.2]
  rw [c3, gainspan_TXparam_take (pointer_bytes s.gainspan_param_module_port),
    gainspan_TXparam_take buf]
  simp only [tx_text, push_all, List.foldl_append, List.foldl_cons, List.foldl_nil]

/-- C25: the decoder commits the endpoint fields as bytes arrive.  For every CID
byte `c` and every `k < 31` bytes `d` above 0x20 (below 0x80 where plain `char`
is signed): if the decoder is Idle and the RX channel holds exactly
`ESC 'u' c d ESC`, then `gainspan_RXdata` returns false with the decoder Idle
again, the channel empty and `param` untouched, yet the stored CID is `c` and
the stored IP array holds `d` in its first `k` bytes, with no NUL written: the
bytes from offset `k` on are those of the previous endpoint, and the stored port
is unchanged.  The frame `gainspan_TXdata` emits next carries that CID and, as
its address, the text `gainspan_TXparam` reads from the IP array, which begins
with `d` (and is the C string of the array when the array holds a NUL). -/
theorem aborted_frame_commits_endpoint (cs : Bool) (fuel : Nat) (s : GS) (p : Nat → Nat)
    (c : Nat) (d : List Nat)
    (hidle : s.gainspan_rxesc_data = 0)
    (ht : s.gainspan_tail_rx < HARDWARE_BUFSIZE) (hh : s.gainspan_head_rx < HARDWARE_BUFSIZE)
    (hrx : rx_unread s = [27, 117, c] ++ d ++ [27])
    (hk : d.length < 31)
    (hd : ∀ x ∈ d, 32 < x ∧ (cs = true → x < 128))
    (hf : rx_count s ≤ fuel) :
    ∃ s1, gainspan_RXdata cs fuel s p = some (false, s1, p) ∧
      s1.gainspan_rxesc_data = 0 ∧
      s1.gainspan_tail_rx = s1.gainspan_head_rx ∧
      s1.gainspan_rxesc_cid = c ∧
      (∀ j (h : j < d.length), s1.gainspan_param_module_ip j = d[j]) ∧
      (∀ j, d.length ≤ j → s1.gainspan_param_module_ip j = s.gainspan_param_module_ip j) ∧
      s1.gainspan_param_module_port = s.gainspan_param_module_port ∧
      (cstring s1.gainspan_param_module_ip).take d.length = d ∧
      (tx_text s1.gainspan_param_module_ip).take d.length = d ∧
      ((cstring s1.gainspan_param_module_ip).length < HARDWARE_BUFSIZESML →
        tx_text s1.gainspan_param_module_ip = cstring s1.gainspan_param_module_ip) ∧
      (∀ data : List Nat,
        gainspan_TXdata data s1 = push_all (outbound_frame c
          (tx_text s1.gainspan_param_module_ip) (tx_text s.gainspan_param_module_port)
          ((data.takeWhile (fun b => b != 0)).take HARDWARE_BUFSIZE)) s1) := by
  have hd1 : ∀ x ∈ d, x ≠ 27 ∧ x ≠ 32 ∧ char_ge_space cs x = true := fun x hx =>
    ⟨by have := (hd x hx).1; omega, by have := (hd x hx).1; omega,
      char_ge_space_of_le cs x (by have := (hd x hx).1; omega) (hd x hx).2⟩
  have hlen : rx_count s = d.length + 4 := by
    rw [← rx_unread_length, hrx]
    simp only [List.length_append, List.length_cons, List.length_nil]
    omega
  have hm : ∀ n, n % HARDWARE_BUFSIZE < HARDWARE_BUFSIZE := fun n => Nat.mod_lt _ (by decide)
  have e : [27, 117, c] ++ d ++ [27] = 27 :: 117 :: c :: (d ++ [27]) := by simp
  have hget : ∀ j (h : j < d.length),
      store_list s.gainspan_param_module_ip 0 d j = d[j] := fun j h => by
    have := store_list_get d s.gainspan_param_module_ip 0 j h
    rwa [Nat.zero_add] at this
  have hrun : rxdata_on cs (rx_unread s) s p = (false, { s with
      gainspan_tail_rx := (s.gainspan_tail_rx + (d.length + 4)) % HARDWARE_BUFSIZE
      gainspan_rxesc_cid := c
      gainspan_rxesc_data := 0
      gainspan_rxesc_i := d.length
      gainspan_param_module_ip := store_list s.gainspan_param_module_ip 0 d }, p) := by
    rw [hrx, e, rxdata_on, switch_idle_esc cs _ p (by exact hidle)]
    simp only [Bool.false_eq_true, if_false]
    rw [rxdata_on, switch_sawesc_u cs _ p rfl]
    simp only [Bool.false_eq_true, if_false]
    rw [rxdata_on, switch_cid cs c _ p rfl]
    simp only [Bool.false_eq_true, if_false]
    rw [rxdata_on_ip cs d _ _ p rfl (hm _) hd1 (by dsimp only; omega)]
    rw [rxdata_on, switch_ip_esc cs _ p rfl]
    simp only [Bool.false_eq_true, if_false, rxdata_on]
    cases s
    dsimp only at ht ⊢
    simp only [HARDWARE_BUFSIZE] at ht
    simp only [Prod.mk.injEq, GS.mk.injEq, true_and, and_true, HARDWARE_BUFSIZE, Nat.zero_add]
    omega
  rw [gainspan_RXdata_eq cs fuel s p ht hh hf, hrun]
  refine ⟨_, rfl, rfl, ?_, rfl, hget, ?_, rfl, ?_, ?_, ?_, ?_⟩
  · dsimp only
    rw [← hlen]
    simp only [rx_count, HARDWARE_BUFSIZE] at *
    omega
  · intro j hj
    exact store_list_ge d _ 0 j (by omega)
  · exact cstring_take_of_text _ d (by simp only [HARDWARE_BUFSIZESML]; omega)
      (fun x hx => by have := (hd x hx).1; omega) hget
  · exact tx_text_take_of_text _ d (by simp only [HARDWARE_BUFSIZESML]; omega)
      (fun x hx => by have := (hd x hx).1; omega) hget
  · intro hz
    rw [tx_text, pointer_text_terminated _ hz, List.take_of_length_le]
    exact Nat.le_trans (cstring_length_le _) (by decide)
  · intro data
    rw [gainspan_TXdata_sends]

/-- C25 at the bytes `ESC 'u' '7' "99" ESC` arriving when the stored endpoint is
CID `'0'`, IP `"10.0.0.5"`, port `"9000"`: the stored CID becomes `'7'` and the
stored IP text begins with `"99"`. -/
theorem aborted_frame_commits_endpoint_witness :
    ∃ s1, gainspan_RXdata false 250
        (rx_receive [27, 117, 55, 57, 57, 27] (with_endpoint 48 txt_ip txt_port)) (fun _ => 0)
        = some (false, s1, fun _ => 0) ∧
      s1.gainspan_rxesc_data = 0 ∧
      s1.gainspan_tail_rx = s1.gainspan_head_rx ∧
      s1.gainspan_rxesc_cid = 55 ∧
      (∀ j (h : j < [57, 57].length), s1.gainspan_param_module_ip j = [57, 57][j]) ∧
      (∀ j, [57, 57].length ≤ j → s1.gainspan_param_module_ip j
        = (rx_receive [27, 117, 55, 57, 57, 27]
            (with_endpoint 48 txt_ip txt_port)).gainspan_param_module_ip j) ∧
      s1.gainspan_param_module_port
        = (rx_receive [27, 117, 55, 57, 57, 27]
            (with_endpoint 48 txt_ip txt_port)).gainspan_param_module_port ∧
      (cstring s1.gainspan_param_module_ip).take [57, 57].length = [57, 57] ∧
      (tx_text s1.gainspan_param_module_ip).take [57, 57].length = [57, 57] ∧
      ((cstring s1.gainspan_param_module_ip).length < HARDWARE_BUFSIZESML →
        tx_text s1.gainspan_param_module_ip = cstring s1.gainspan_param_module_ip) ∧
      (∀ data : List Nat,
        gainspan_TXdata data s1 = push_all (outbound_frame 55
          (tx_text s1.gainspan_param_module_ip)
          (tx_text (rx_receive [27, 117, 55, 57, 57, 27]
            (with_endpoint 48 txt_ip txt_port)).gainspan_param_module_port)
          ((data.takeWhile (fun b => b != 0)).take HARDWARE_BUFSIZE)) s1) :=
  aborted_frame_commits_endpoint false 250
    (rx_receive [27, 117, 55, 57, 57, 27] (with_endpoint 48 txt_ip txt_port)) (fun _ => 0)
    55 [57, 57] (by decide) (by decide) (by decide) (by decide) (by decide) (by decide)
    (by decide)

/-! ## C22: the decoder and the chunking of its input -/

theorem user_tick_gainspan_set_tail (rx : Option Nat) (s : GS) (t : Nat) :
    user_tick_gainspan rx { s with gainspan_tail_rx := t }
      = { user_tick_gainspan rx s with gainspan_tail_rx := t } := by
  cases rx with
  | none => rfl
  | some x =>
    simp only [user_tick_gainspan]
    split_ifs <;> rfl

theorem user_tick_gainspan_tail (rx : Option Nat) (s : GS) :
    (user_tick_gainspan rx s).gainspan_tail_rx = s.gainspan_tail_rx := by
  cases rx with
  | none => rfl
  | some x =>
    simp only [user_tick_gainspan]
    split_ifs <;> rfl

/-- The receive path on one byte, as one update of the five fields it writes. -/
theorem user_tick_gainspan_nf (x : Nat) (s : GS) :
    user_tick_gainspan (some x) s = { s with
      user_buf_tx := store s.user_buf_tx s.user_head_tx x
      user_head_tx := if inc8 s.user_head_tx ≥ HARDWARE_BUFSIZE then 0 else inc8 s.user_head_tx
      gainspan_buf_rx := store s.gainspan_buf_rx s.gainspan_head_rx x
      gainspan_head_rx :=
        if inc8 s.gainspan_head_rx ≥ HARDWARE_BUFSIZE then 0 else inc8 s.gainspan_head_rx
      gainspan_rxcr := if x = 13 then inc8 s.gainspan_rxcr else s.gainspan_rxcr } := by
  simp only [user_tick_gainspan]
  split_ifs <;> rfl

/-- The `switch` of the decoder neither reads nor writes the five fields the
receive path writes. -/
theorem switch_set_rx (cs : Bool) (ch : Nat) (s : GS) (p : Nat → Nat)
    (a c : Nat → Nat) (b d e : Nat) :
    gainspan_RXdata_switch cs ch { s with
        user_buf_tx := a, user_head_tx := b, gainspan_buf_rx := c, gainspan_head_rx := d,
        gainspan_rxcr := e } p =
      ((gainspan_RXdata_switch cs ch s p).1,
        { (gainspan_RXdata_switch cs ch s p).2.1 with
          user_buf_tx := a, user_head_tx := b, gainspan_buf_rx := c, gainspan_head_rx := d,
          gainspan_rxcr := e },
        (gainspan_RXdata_switch cs ch s p).2.2) := by
  unfold gainspan_RXdata_switch
  dsimp only
  split <;> (try split_ifs) <;> rfl

theorem switch_keeps_rx_side (cs : Bool) (ch : Nat) (s : GS) (p : Nat → Nat) :
    (gainspan_RXdata_switch cs ch s p).2.1.user_buf_tx = s.user_buf_tx ∧
    (gainspan_RXdata_switch cs ch s p).2.1.user_head_tx = s.user_head_tx ∧
    (gainspan_RXdata_switch cs ch s p).2.1.gainspan_buf_rx = s.gainspan_buf_rx ∧
    (gainspan_RXdata_switch cs ch s p).2.1.gainspan_head_rx = s.gainspan_head_rx ∧
    (gainspan_RXdata_switch cs ch s p).2.1.gainspan_rxcr = s.gainspan_rxcr := by
  simp only [gainspan_RXdata_switch]
  split <;> (try split_ifs) <;> exact ⟨rfl, rfl, rfl, rfl, rfl⟩

/-- The `switch` of the decoder and the receive path work on different parts of
the state: one byte through the `switch` commutes with one byte received. -/
theorem switch_user_tick_gainspan (cs : Bool) (ch : Nat) (rx : Option Nat) (s : GS)
    (p : Nat → Nat) :
    gainspan_RXdata_switch cs ch (user_tick_gainspan rx s) p =
      ((gainspan_RXdata_switch cs ch s p).1,
        user_tick_gainspan rx (gainspan_RXdata_switch cs ch s p).2.1,
        (gainspan_RXdata_switch cs ch s p).2.2) := by
  cases rx with
  | none => rfl
  | some x =>
    obtain ⟨h1, h2, h3, h4, h5⟩ := switch_keeps_rx_side cs ch s p
    rw [user_tick_gainspan_nf, user_tick_gainspan_nf, switch_set_rx, h1, h2, h3, h4, h5]

theorem user_tick_gainspan_advance (rx : Option Nat) (s : GS) :
    user_tick_gainspan rx (rx_advance s) = rx_advance (user_tick_gainspan rx s) := by
  cases rx with
  | none => rfl
  | some x =>
    simp only [user_tick_gainspan, rx_advance]
    split_ifs <;> rfl

theorem rx_receive_advance (bs : List Nat) : ∀ s : GS,
    rx_receive bs (rx_advance s) = rx_advance (rx_receive bs s) := by
  induction bs with
  | nil => intro s; rfl
  | cons b rest ih =>
    intro s
    have e : ∀ t : GS, rx_receive (b :: rest) t
        = rx_receive rest (user_tick_gainspan (some b) t) := fun _ => rfl
    rw [e, e, user_tick_gainspan_advance, ih]

theorem switch_rx_receive (cs : Bool) (ch : Nat) (bs : List Nat) :
    ∀ (s : GS) (p : Nat → Nat),
    gainspan_RXdata_switch cs ch (rx_receive bs s) p =
      ((gainspan_RXdata_switch cs ch s p).1,
        rx_receive bs (gainspan_RXdata_switch cs ch s p).2.1,
        (gainspan_RXdata_switch cs ch s p).2.2) := by
  induction bs with
  | nil => intro s p; rfl
  | cons b rest ih =>
    intro s p
    have e : ∀ t : GS, rx_receive (b :: rest) t
        = rx_receive rest (user_tick_gainspan (some b) t) := fun _ => rfl
    rw [e, e, ih, switch_user_tick_gainspan]

theorem rxdata_on_cons (cs : Bool) (ch : Nat) (rest : List Nat) (s : GS) (p : Nat → Nat) :
    rxdata_on cs (ch :: rest) s p =
      if (gainspan_RXdata_switch cs ch (rx_advance s) p).1
      then (true, (gainspan_RXdata_switch cs ch (rx_advance s) p).2.1,
        (gainspan_RXdata_switch cs ch (rx_advance s) p).2.2)
      else rxdata_on cs rest (gainspan_RXdata_switch cs ch (rx_advance s) p).2.1
        (gainspan_RXdata_switch cs ch (rx_advance s) p).2.2 := rfl

/-- A call of the decoder on given bytes commutes with bytes received. -/
theorem rxdata_on_rx_receive (cs : Bool) (bs : List Nat) (l : List Nat) :
    ∀ (s : GS) (p : Nat → Nat),
    rxdata_on cs l (rx_receive bs s) p =
      ((rxdata_on cs l s p).1, rx_receive bs (rxdata_on cs l s p).2.1,
        (rxdata_on cs l s p).2.2) := by
  induction l with
  | nil => intro s p; rfl
  | cons ch rest ih =>
    intro s p
    rw [rxdata_on_cons, rxdata_on_cons, ← rx_receive_advance, switch_rx_receive]
    dsimp only
    split_ifs
    · rfl
    · exact ih _ _

/-- A call that reports no frame has gone through all its bytes: the decoder
goes on from there with the bytes that follow. -/
theorem rxdata_on_append (cs : Bool) (l m : List Nat) : ∀ (s : GS) (p : Nat → Nat),
    (rxdata_on cs l s p).1 = false →
    rxdata_on cs (l ++ m) s p
      = rxdata_on cs m (rxdata_on cs l s p).2.1 (rxdata_on cs l s p).2.2 := by
  induction l with
  | nil => intro s p _; rfl
  | cons ch rest ih =>
    intro s p h
    rw [rxdata_on] at h
    rw [List.cons_append, rxdata_on, rxdata_on]
    split_ifs at h ⊢ with h1
    exact ih _ _ h

/-- Bytes received while the channel has room are appended to the unread
content; the indices stay in range and tail does not move. -/
theorem rx_receive_unread (bs : List Nat) : ∀ s : GS,
    s.gainspan_head_rx < HARDWARE_BUFSIZE → s.gainspan_tail_rx < HARDWARE_BUFSIZE →
    rx_count s + bs.length ≤ 249 →
    rx_unread (rx_receive bs s) = rx_unread s ++ bs ∧
    (rx_receive bs s).gainspan_head_rx < HARDWARE_BUFSIZE ∧
    (rx_receive bs s).gainspan_tail_rx = s.gainspan_tail_rx := by
  induction bs with
  | nil => intro s hh _ _; exact ⟨by simp [rx_receive], hh, rfl⟩
  | cons b rest ih =>
    intro s hh ht hl
    simp only [List.length_cons] at hl
    obtain ⟨_, h2, h3, _, _⟩ := user_tick_gainspan_some b s hh
    have hu := rx_unread_receive b s hh ht
    rw [if_pos (by omega)] at hu
    have hc : rx_count (user_tick_gainspan (some b) s) = rx_count s + 1 := by
      rw [← rx_unread_length, hu, List.length_append, rx_unread_length]
      rfl
    have e : rx_receive (b :: rest) s = rx_receive rest (user_tick_gainspan (some b) s) := rfl
    obtain ⟨a1, a2, a3⟩ := ih (user_tick_gainspan (some b) s)
      (by rw [h2]; exact Nat.mod_lt _ (by decide)) (by rw [h3]; exact ht) (by rw [hc]; omega)
    rw [e]
    exact ⟨by rw [a1, hu, List.append_assoc]; rfl, a2, a3.trans h3⟩

theorem rx_receive_append (a b : List Nat) (s : GS) :
    rx_receive (a ++ b) s = rx_receive b (rx_receive a s) := by
  simp [rx_receive, List.foldl_append]

/-- C22: the decoder does not depend on the chunking of its input.  From any
state with in-range RX indices, let the bytes `a` and then the bytes `b` arrive,
all of it fitting the RX channel with what is unread already.  If a call of
`gainspan_RXdata` made after `a` has arrived reports no frame, then the call
made with the same destination after `b` has arrived as well returns exactly
what a single call made after all of `a ++ b` has arrived returns: the same
result, the same state (CID, IP and port texts, decoder state, cursor, tail and
all the rest) and the same destination buffer.  Both calls return, within one
loop turn per unread byte. -/
theorem chunking_independent (cs : Bool) (fuel : Nat) (s : GS) (p : Nat → Nat)
    (a b : List Nat)
    (ht : s.gainspan_tail_rx < HARDWARE_BUFSIZE) (hh : s.gainspan_head_rx < HARDWARE_BUFSIZE)
    (hfit : rx_count s + a.length + b.length ≤ 249) (hf : 249 ≤ fuel)
    (hfirst : (gainspan_RXdata cs fuel (rx_receive a s) p).map (fun r => r.1) = some false) :
    ∃ r, gainspan_RXdata cs fuel (rx_receive (a ++ b) s) p = some r ∧
      (gainspan_RXdata cs fuel (rx_receive a s) p).bind
        (fun r1 => gainspan_RXdata cs fuel (rx_receive b r1.2.1) r1.2.2) = some r := by
  have hfuel : ∀ t : GS, rx_count t ≤ fuel := fun t => Nat.le_trans (rx_count_le t) hf
  obtain ⟨x1, x2, x3⟩ := rx_receive_unread a s hh ht (by omega)
  have hxt : (rx_receive a s).gainspan_tail_rx < HARDWARE_BUFSIZE := by rw [x3]; exact ht
  have hxc : rx_count (rx_receive a s) = rx_count s + a.length := by
    rw [← rx_unread_length, x1, List.length_append, rx_unread_length]
  have hR1 := gainspan_RXdata_eq cs fuel (rx_receive a s) p hxt x2 (hfuel _)
  rw [hR1] at hfirst ⊢
  simp only [Option.map_some', Option.some.injEq] at hfirst
  simp only [Option.some_bind]
  obtain ⟨k, _, e1, e2, _, e4, _⟩ := rxdata_on_extent cs (rx_unread (rx_receive a s))
    (rx_receive a s) p hxt
  have ek := e4 hfirst
  rw [rx_unread_length] at ek
  rw [ek] at e1
  generalize hR : rxdata_on cs (rx_unread (rx_receive a s)) (rx_receive a s) p = R1
    at hfirst e1 e2
  have hrh : R1.2.1.gainspan_head_rx < HARDWARE_BUFSIZE := by rw [e2]; exact x2
  have hrt : R1.2.1.gainspan_tail_rx = R1.2.1.gainspan_head_rx := by
    rw [e1, e2]
    simp only [rx_count, HARDWARE_BUFSIZE] at *
    omega
  have hrc : rx_count R1.2.1 = 0 := by
    simp only [rx_count, HARDWARE_BUFSIZE, hrt] at *
    omega
  have hru : rx_unread R1.2.1 = [] := by simp [rx_unread, hrc, ring_read]
  obtain ⟨y1, y2, y3⟩ := rx_receive_unread b R1.2.1 hrh (by rw [hrt]; exact hrh)
    (by rw [hrc]; omega)
  rw [hru, List.nil_append] at y1
  obtain ⟨z1, z2, z3⟩ := rx_receive_unread b (rx_receive a s) x2 hxt (by rw [hxc]; omega)
  rw [gainspan_RXdata_eq cs fuel _ R1.2.2 (by rw [y3, hrt]; exact hrh) y2 (hfuel _), y1,
    rx_receive_append,
    gainspan_RXdata_eq cs fuel _ p (by rw [z3]; exact hxt) z2 (hfuel _), z1]
  have hc := rxdata_on_rx_receive cs b (rx_unread (rx_receive a s)) (rx_receive a s) p
  rw [hR] at hc
  refine ⟨_, rfl, ?_⟩
  rw [rxdata_on_append cs _ b _ p (by rw [hc]; exact hfirst), hc]

/-- C22 at the frame `ESC 'u' '0' "10.0.0.5" SP "9000" TAB "ping" ESC 'E'`
arriving in two chunks, the first one ending inside the IP text: the call after
`ESC 'u' '0' "10."` reports no frame and parks the decoder, and the call after
the rest gives what one call on the whole frame gives. -/
theorem chunking_independent_witness :
    ∃ r, gainspan_RXdata false 250
        (rx_receive ([27, 117, 48, 49, 48, 46] ++
          [48, 46, 48, 46, 53, 32, 57, 48, 48, 48, 9, 112, 105, 110, 103, 27, 69]) GS.init)
        (fun _ => 0) = some r ∧
      (gainspan_RXdata false 250 (rx_receive [27, 117, 48, 49, 48, 46] GS.init)
        (fun _ => 0)).bind
        (fun r1 => gainspan_RXdata false 250
          (rx_receive [48, 46, 48, 46, 53, 32, 57, 48, 48, 48, 9, 112, 105, 110, 103, 27, 69]
            r1.2.1) r1.2.2) = some r :=
  chunking_independent false 250 GS.init (fun _ => 0) [27, 117, 48, 49, 48, 46]
    [48, 46, 48, 46, 53, 32, 57, 48, 48, 48, 9, 112, 105, 110, 103, 27, 69]
    (by decide) (by decide) (by decide) (by decide) (by decide)

/-! ## C21: the values `gainspan_TXexecute` returns -/

end Gainspan
